import Mathlib

/-!
# ddstats-server: the leaderboard decoder and the live sessions

The first part embeds the binary decoder of `pkg/ddapi/ddapi.go`, the second part (from
the heading "The live sessions" on) the event handlers of `pkg/socketio/socketio.go`.

## The binary leaderboard decoder (`pkg/ddapi/ddapi.go`)

A shallow embedding of the decoder of the Devil Daggers leaderboard protocol
(`GetScoresBytesToLeaderboard`, `BytesToPlayer`, `UserSearchBytesToPlayers` and the
little-endian readers), followed by the properties of the decoder: what it returns on
records with a zero id, on short buffers and on out-of-range death types, where it looks
for each record, how many players it returns, and the round trip through an encoder of
the wire format.

Modelling conventions.

* A Go `[]byte` is a `List Byte`; its capacity is taken equal to its length, so a
  slice expression `b[lo:hi]` faults exactly when `0 ≤ lo ≤ hi ≤ len b` fails.
* Go `int` is `Int` (offsets stay far away from the 64-bit range); `uint64` values
  are `Nat` below `2 ^ 64` by construction; `int16` and `int32` values are `Int`
  obtained from the unsigned reading by the two's complement conversion `toSigned`.
* A Go function returning `(*T, error)` returns `Option T × Option DecodeError`
  (`none` is `nil`), wrapped in `Except Panic` for the faults of the Go runtime.
* A finite `float64` is the rational number it denotes. The conversion of an integer,
  the multiplication and the division round their exact result to the nearest binary64
  value, ties to even (`F64.ofRat`), as the hardware does; `math.Round` and the powers
  of ten that the decoder uses are exact. Every non-finite value (`±Inf`, `NaN`) is
  `F64.nonFinite`, and the sign of a zero is not represented.
-/

namespace DDStats

/-- One octet of a Go byte slice. -/
abbrev Byte := Fin 256

/-- Faults raised by the Go runtime (they unwind the goroutine, they are not `error` values). -/
inductive Panic where
  | sliceBounds
  | indexOutOfRange
  | nilDereference
deriving DecidableEq, Repr

/-- The two package-level error values of `ddapi`. -/
inductive DecodeError where
  | ErrPlayerNotFound
  | ErrNoPlayersFound
deriving DecidableEq, Repr

deriving instance DecidableEq for Except

/-- A `float64`: a finite value, given by the rational number it denotes, or one value
standing for `±Inf` and `NaN`. -/
inductive F64 where
  | finite (q : ℚ)
  | nonFinite
deriving DecidableEq

namespace F64

/-- The zero value of a `float64` field. -/
def zero : F64 := finite 0

/-- Exponent of the unit in the last place of the binary64 values next to `q`: with
`2 ^ e ≤ |q| < 2 ^ (e + 1)` it is `e - 52`, and `-1074` throughout the subnormal range. -/
def ulpExp (q : ℚ) : Int := max (Int.log 2 |q|) (-1022) - 52

/-- The integer nearest to `x`, the even one of the two when `x` lies halfway. -/
def roundHalfEven (x : ℚ) : Int :=
  if x - ⌊x⌋ < 1 / 2 then ⌊x⌋
  else if 1 / 2 < x - ⌊x⌋ then ⌊x⌋ + 1
  else if ⌊x⌋ % 2 = 0 then ⌊x⌋ else ⌊x⌋ + 1

/-- The multiple of `2 ^ ulpExp q` nearest to `q`, ties to the even multiple: the value of
a binary64 with 53 significant bits, as long as it stays below `2 ^ 1024`. -/
def nearest (q : ℚ) : ℚ := (roundHalfEven (q / 2 ^ ulpExp q) : ℚ) * 2 ^ ulpExp q

/-- Rounding of an exact result to `float64` (IEEE 754 round to nearest, ties to even):
the nearest binary64 value, and an infinity when that value reaches `2 ^ 1024`. -/
def ofRat (q : ℚ) : F64 := if |nearest q| < 2 ^ 1024 then finite (nearest q) else nonFinite

/-- Conversion `float64(i)` of an integer. -/
def ofInt (i : Int) : F64 := ofRat i

/-- Float multiplication. -/
def mul : F64 → F64 → F64
  | finite a, finite b => ofRat (a * b)
  | _, _ => nonFinite

/-- Float division: dividing by zero leaves the finite values. -/
def div : F64 → F64 → F64
  | finite a, finite b => if b = 0 then nonFinite else ofRat (a / b)
  | _, _ => nonFinite

/-- Whether the value is a finite number. -/
def isFinite : F64 → Bool
  | finite _ => true
  | nonFinite => false

end F64

/-- Go `math.Round`: nearest integer, halves away from zero. The result is exact. -/
def mathRound : F64 → F64
  | .finite q => .finite (if 0 ≤ q then (⌊q + 1 / 2⌋ : ℤ) else -(⌊-q + 1 / 2⌋ : ℤ))
  | .nonFinite => .nonFinite

/-- Go `math.Pow10`, exact for the exponents 0 to 22, which include the two that the
decoder passes (2 and 4). -/
def mathPow10 (n : Int) : F64 := .finite ((10 : ℚ) ^ n)

/-- `roundToNearest` of `ddapi.go`. -/
def roundToNearest (f : F64) (numberOfDecimalPlaces : Int) : F64 :=
  let multiplier := mathPow10 numberOfDecimalPlaces
  F64.div (mathRound (F64.mul f multiplier)) multiplier

/-- The slice expression `b[lo:hi]` on a slice whose capacity is its length. -/
def slice (b : List Byte) (lo hi : Int) : Except Panic (List Byte) :=
  if 0 ≤ lo ∧ lo ≤ hi ∧ hi ≤ (b.length : Int) then
    .ok ((b.drop lo.toNat).take (hi - lo).toNat)
  else
    .error .sliceBounds

/-- Little-endian value of a byte string: byte `i` has weight `256 ^ i`. -/
def leUint (bs : List Byte) : Nat :=
  bs.foldr (fun x acc => x.val + 256 * acc) 0

/-- `binary.LittleEndian.Uint16/32/64` (`w` = 2, 4, 8): the bounds check on the last
byte read, then the little-endian value of the first `w` bytes. -/
def littleEndianUint (w : Nat) (bs : List Byte) : Except Panic Nat :=
  if w ≤ bs.length then .ok (leUint (bs.take w)) else .error .indexOutOfRange

/-- Go conversion of an unsigned `w`-bit value to the signed type of the same width. -/
def toSigned (w : Nat) (u : Nat) : Int :=
  if u < 2 ^ (w - 1) then (u : Int) else (u : Int) - 2 ^ w

/-- `toUint64` of `ddapi.go`. -/
def toUint64 (b : List Byte) (offset : Int) : Except Panic Nat := do
  let s ← slice b offset (offset + 8)
  littleEndianUint 8 s

/-- `toInt32` of `ddapi.go`. -/
def toInt32 (b : List Byte) (offset : Int) : Except Panic Int := do
  let s ← slice b offset (offset + 4)
  let u ← littleEndianUint 4 s
  pure (toSigned 32 u)

/-- `toInt16` of `ddapi.go`. -/
def toInt16 (b : List Byte) (offset : Int) : Except Panic Int := do
  let s ← slice b offset (offset + 2)
  let u ← littleEndianUint 2 s
  pure (toSigned 16 u)

/-- The death-type table of the DD API. -/
def DeathTypes : List String :=
  ["FALLEN", "SWARMED", "IMPALED", "GORED", "INFESTED", "OPENED", "PURGED",
   "DESECRATED", "SACRIFICED", "EVISCERATED", "ANNIHILATED", "INTOXICATED",
   "ENVENMONATED", "INCARNATED", "DISCARNATED", "BARBED"]

/-- The index expression `DeathTypes[i]` for an `int16` index. -/
def indexDeathTypes (i : Int) : Except Panic String :=
  if 0 ≤ i then
    match DeathTypes.get? i.toNat with
    | some s => .ok s
    | none => .error .indexOutOfRange
  else
    .error .indexOutOfRange

/-- The decoded player record. -/
structure Player where
  PlayerName : List Byte
  PlayerID : Nat
  Rank : Int
  Time : F64
  Kills : Int
  Gems : Int
  DaggersHit : Int
  DaggersFired : Int
  Accuracy : F64
  DeathType : String
  OverallTime : F64
  OverallKills : Nat
  OverallGems : Nat
  OverallDeaths : Nat
  OverallDaggersHit : Nat
  OverallDaggersFired : Nat
  OverallAccuracy : F64
deriving DecidableEq

/-- The decoded leaderboard. -/
structure Leaderboard where
  GlobalDeaths : Nat
  GlobalKills : Nat
  GlobalTime : F64
  GlobalGems : Nat
  GlobalDaggersFired : Nat
  GlobalDaggersHit : Nat
  GlobalAccuracy : F64
  GlobalPlayerCount : Int
  PlayerCount : Int
  Players : List Player
deriving DecidableEq

/-- `BytesToPlayer` of `ddapi.go`. -/
def BytesToPlayer (b : List Byte) (bytePosition : Int) :
    Except Panic (Option Player × Option DecodeError) := do
  let playerNameLength ← toInt16 b bytePosition
  let bytePosition := bytePosition + 2
  let playerName ← slice b bytePosition (bytePosition + playerNameLength)
  let bytePosition := bytePosition + playerNameLength
  let playerID ← toUint64 b (bytePosition + 4)
  if playerID = 0 then
    pure (none, some .ErrPlayerNotFound)
  else do
    let rank ← toInt32 b bytePosition
    let time := roundToNearest (F64.div (F64.ofInt (← toInt32 b (bytePosition + 12))) (.finite 10000)) 4
    let kills ← toInt32 b (bytePosition + 16)
    let gems ← toInt32 b (bytePosition + 28)
    let daggersHit ← toInt32 b (bytePosition + 24)
    let daggersFired ← toInt32 b (bytePosition + 20)
    let accuracy :=
      if daggersFired > 0 then
        roundToNearest (F64.mul (F64.div (F64.ofInt daggersHit) (F64.ofInt daggersFired)) (.finite 100)) 2
      else F64.zero
    let deathType ← indexDeathTypes (← toInt16 b (bytePosition + 32))
    let overallTime :=
      roundToNearest (F64.div (F64.ofInt (← toUint64 b (bytePosition + 60))) (.finite 10000)) 4
    let overallKills ← toUint64 b (bytePosition + 44)
    let overallGems ← toUint64 b (bytePosition + 68)
    let overallDeaths ← toUint64 b (bytePosition + 36)
    let overallDaggersHit ← toUint64 b (bytePosition + 76)
    let overallDaggersFired ← toUint64 b (bytePosition + 52)
    let overallAccuracy :=
      if overallDaggersFired > 0 then
        roundToNearest
          (F64.mul (F64.div (F64.ofInt overallDaggersHit) (F64.ofInt overallDaggersFired))
            (.finite 100)) 2
      else F64.zero
    pure (some
      { PlayerName := playerName, PlayerID := playerID, Rank := rank, Time := time,
        Kills := kills, Gems := gems, DaggersHit := daggersHit, DaggersFired := daggersFired,
        Accuracy := accuracy, DeathType := deathType, OverallTime := overallTime,
        OverallKills := overallKills, OverallGems := overallGems,
        OverallDeaths := overallDeaths, OverallDaggersHit := overallDaggersHit,
        OverallDaggersFired := overallDaggersFired, OverallAccuracy := overallAccuracy },
      none)

/-- The record loop shared by both decoders: `n` iterations are left, the next record
is at `offset`, `players` holds the records appended so far. The result is `none`
when an iteration returned `nil, ErrPlayerNotFound`. -/
def decodeRecords (b : List Byte) : Nat → Int → List Player → Except Panic (Option (List Player))
  | 0, _, players => pure (some players)
  | n + 1, offset, players => do
    let r ← BytesToPlayer b offset
    match r with
    | (_, some _) => pure none
    | (none, none) => throw .nilDereference
    | (some p, none) => decodeRecords b n (offset + (p.PlayerName.length : Int) + 90) (players ++ [p])

/-- `GetScoresBytesToLeaderboard` of `ddapi.go`. -/
def GetScoresBytesToLeaderboard (b : List Byte) (limit : Int) :
    Except Panic (Option Leaderboard × Option DecodeError) := do
  let globalDeaths ← toUint64 b 11
  let globalKills ← toUint64 b 19
  let globalTime := roundToNearest (F64.div (F64.ofInt (← toUint64 b 35)) (.finite 1000)) 4
  let globalGems ← toUint64 b 43
  let globalDaggersHit ← toUint64 b 51
  let globalDaggersFired ← toUint64 b 27
  let globalAccuracy :=
    if globalDaggersFired > 0 then
      F64.div (F64.ofInt globalDaggersHit) (F64.ofInt globalDaggersFired)
    else F64.zero
  let globalPlayerCount ← toInt32 b 75
  let declared ← toInt16 b 59
  let playerCount := if limit < declared then limit else declared
  match ← decodeRecords b playerCount.toNat 83 [] with
  | none => pure (none, some .ErrPlayerNotFound)
  | some players =>
    pure (some
      { GlobalDeaths := globalDeaths, GlobalKills := globalKills, GlobalTime := globalTime,
        GlobalGems := globalGems, GlobalDaggersFired := globalDaggersFired,
        GlobalDaggersHit := globalDaggersHit, GlobalAccuracy := globalAccuracy,
        GlobalPlayerCount := globalPlayerCount, PlayerCount := playerCount,
        Players := players },
      none)

/-- `UserSearchBytesToPlayers` of `ddapi.go`. -/
def UserSearchBytesToPlayers (b : List Byte) :
    Except Panic (Option (List Player) × Option DecodeError) := do
  let playerCount ← toInt16 b 11
  if playerCount < 1 then
    pure (none, some .ErrNoPlayersFound)
  else
    match ← decodeRecords b playerCount.toNat 19 [] with
    | none => pure (none, some .ErrPlayerNotFound)
    | some players => pure (some players, none)

/-! ## Vocabulary of the wire format -/

/-- The `w` bytes of `b` starting at offset `off`. -/
def field (b : List Byte) (off : Int) (w : Nat) : List Byte :=
  (b.drop off.toNat).take w

/-- The unsigned little-endian integer held by the `w` bytes at offset `off`. -/
def uintAt (b : List Byte) (off : Int) (w : Nat) : Nat := leUint (field b off w)

/-- The two's complement little-endian integer held by the `w` bytes at offset `off`. -/
def intAt (b : List Byte) (off : Int) (w : Nat) : Int := toSigned (8 * w) (uintAt b off w)

/-- The player that `BytesToPlayer` builds from the record at offset `o` once the
death-type tag `tag` has been looked up. -/
def playerAt (b : List Byte) (o : Int) (tag : String) : Player :=
  let t := o + 2 + intAt b o 2
  { PlayerName := field b (o + 2) (intAt b o 2).toNat
    PlayerID := uintAt b (t + 4) 8
    Rank := intAt b t 4
    Time := roundToNearest (F64.div (F64.ofInt (intAt b (t + 12) 4)) (.finite 10000)) 4
    Kills := intAt b (t + 16) 4
    Gems := intAt b (t + 28) 4
    DaggersHit := intAt b (t + 24) 4
    DaggersFired := intAt b (t + 20) 4
    Accuracy :=
      if intAt b (t + 20) 4 > 0 then
        roundToNearest (F64.mul (F64.div (F64.ofInt (intAt b (t + 24) 4))
          (F64.ofInt (intAt b (t + 20) 4))) (.finite 100)) 2
      else F64.zero
    DeathType := tag
    OverallTime := roundToNearest (F64.div (F64.ofInt (uintAt b (t + 60) 8)) (.finite 10000)) 4
    OverallKills := uintAt b (t + 44) 8
    OverallGems := uintAt b (t + 68) 8
    OverallDeaths := uintAt b (t + 36) 8
    OverallDaggersHit := uintAt b (t + 76) 8
    OverallDaggersFired := uintAt b (t + 52) 8
    OverallAccuracy :=
      if uintAt b (t + 52) 8 > 0 then
        roundToNearest (F64.mul (F64.div (F64.ofInt (uintAt b (t + 76) 8))
          (F64.ofInt (uintAt b (t + 52) 8))) (.finite 100)) 2
      else F64.zero }

/-! ## Sample buffers -/

/-- A record whose name-length prefix is `0xFFFF` (65535 unsigned, -1 as `int16`),
followed by 65535 + 90 zero bytes: its player id is zero wherever the tail is taken to start. -/
def zeroIdRecord : List Byte := [255, 255] ++ List.replicate (65535 + 90) 0

/-- A record with the one-byte name `A`, rank 9 and player id 0, cut right after the id field. -/
def zeroIdShort : List Byte := [1, 0, 65, 9, 0, 0, 0, 0, 0, 0, 0, 0, 0, 0, 0]

/-- A search buffer of exactly 13 bytes whose declared count is `0xFFFF` (-1 as `int16`). -/
def emptySearch : List Byte := List.replicate 11 0 ++ [255, 255]

/-- A complete record: name `ab`, rank 1, id 7, raw time 12345, 3 kills, 10 daggers fired,
5 hit, 2 gems, death type 3, 4 overall deaths, 6 overall kills, 20 overall daggers fired,
raw overall time 50000, 8 overall gems, 15 overall daggers hit, and 4 trailing bytes. -/
def sampleRecord : List Byte :=
  [2, 0, 97, 98,
   1, 0, 0, 0,  7, 0, 0, 0, 0, 0, 0, 0,  0x39, 0x30, 0, 0,  3, 0, 0, 0,
   10, 0, 0, 0,  5, 0, 0, 0,  2, 0, 0, 0,  3, 0,  0, 0,
   4, 0, 0, 0, 0, 0, 0, 0,  6, 0, 0, 0, 0, 0, 0, 0,  20, 0, 0, 0, 0, 0, 0, 0,
   0x50, 0xC3, 0, 0, 0, 0, 0, 0,  8, 0, 0, 0, 0, 0, 0, 0,  15, 0, 0, 0, 0, 0, 0, 0,
   0, 0, 0, 0]

/-! ## Records, their offsets, and the header -/

/-- Offset at which the fixed tail of the record at `o` starts: after the two-byte length
prefix and the name. -/
def tailStart (b : List Byte) (o : Int) : Int := o + 2 + intAt b o 2

/-- Offset of record number `i` when the first record is at `start` and a record occupies
its two-byte prefix, its name and `tail` further bytes. -/
def recordOffset (tail : Int) (b : List Byte) (start : Int) : Nat → Int
  | 0 => start
  | i + 1 => recordOffset tail b start i + 2 + intAt b (recordOffset tail b start i) 2 + tail

/-- The `PlayerCount` computed by `GetScoresBytesToLeaderboard`: the declared count at
offset 59, lowered to `limit` when `limit` is smaller. -/
def playerCountAt (b : List Byte) (limit : Int) : Int :=
  if limit < intAt b 59 2 then limit else intAt b 59 2

/-- The leaderboard that `GetScoresBytesToLeaderboard` builds from the header of `b` once
the records `players` have been decoded. -/
def leaderboardAt (b : List Byte) (limit : Int) (players : List Player) : Leaderboard :=
  { GlobalDeaths := uintAt b 11 8
    GlobalKills := uintAt b 19 8
    GlobalTime := roundToNearest (F64.div (F64.ofInt (uintAt b 35 8)) (.finite 1000)) 4
    GlobalGems := uintAt b 43 8
    GlobalDaggersFired := uintAt b 27 8
    GlobalDaggersHit := uintAt b 51 8
    GlobalAccuracy :=
      if uintAt b 27 8 > 0 then
        F64.div (F64.ofInt (uintAt b 51 8)) (F64.ofInt (uintAt b 27 8))
      else F64.zero
    GlobalPlayerCount := intAt b 75 4
    PlayerCount := playerCountAt b limit
    Players := players }

/-- The record `sampleRecord` with its death-type index set to 16. -/
def badDeathTypeRecord : List Byte :=
  sampleRecord.take 36 ++ [16, 0] ++ sampleRecord.drop 38

/-- The record `sampleRecord` with the low byte of its player id replaced by `i`. -/
def sampleRecordWithId (i : Byte) : List Byte :=
  sampleRecord.take 8 ++ [i] ++ sampleRecord.drop 9

/-- An 83-byte leaderboard header: 100 deaths, 200 kills, 40 daggers fired, 10000 ms,
30 gems, 20 daggers hit, the two given bytes as declared player count, 5 global players. -/
def sampleHeader (c0 c1 : Byte) : List Byte :=
  List.replicate 11 0
    ++ [100, 0, 0, 0, 0, 0, 0, 0] ++ [200, 0, 0, 0, 0, 0, 0, 0] ++ [40, 0, 0, 0, 0, 0, 0, 0]
    ++ [0x10, 0x27, 0, 0, 0, 0, 0, 0] ++ [30, 0, 0, 0, 0, 0, 0, 0] ++ [20, 0, 0, 0, 0, 0, 0, 0]
    ++ [c0, c1] ++ List.replicate 14 0 ++ [5, 0, 0, 0] ++ List.replicate 4 0

/-- A 19-byte search header declaring the two given bytes as player count. -/
def sampleSearchHeader (c0 c1 : Byte) : List Byte :=
  List.replicate 11 0 ++ [c0, c1] ++ List.replicate 6 0

/-- A leaderboard buffer declaring two players, with ids 7 and 8. -/
def twoRecords : List Byte :=
  sampleHeader 2 0 ++ sampleRecordWithId 7 ++ sampleRecordWithId 8

/-- A leaderboard buffer whose declared count is `0xFFFF`, followed by one complete record. -/
def negativeCount : List Byte := sampleHeader 255 255 ++ sampleRecord

/-- A leaderboard buffer declaring two players, the second of which has id 0. -/
def zeroIdSecond : List Byte :=
  sampleHeader 2 0 ++ sampleRecord ++ sampleRecordWithId 0

/-- A search buffer declaring two players, the second of which has id 0. -/
def searchZeroIdSecond : List Byte :=
  sampleSearchHeader 2 0 ++ sampleRecord ++ sampleRecordWithId 0

/-- A leaderboard buffer declaring one player, whose record is the name-length prefix
`0xFFFF` (-1 as `int16`) followed by 90 zero bytes: its id is zero. -/
def zeroIdNegativeLength : List Byte :=
  sampleHeader 1 0 ++ [255, 255] ++ List.replicate 90 0

/-- A search buffer declaring one player, with the same record. -/
def searchZeroIdNegativeLength : List Byte :=
  sampleSearchHeader 1 0 ++ [255, 255] ++ List.replicate 90 0

/-- A leaderboard buffer declaring two players: the first record has the death-type index
16, the second has id 0. -/
def zeroIdAfterBadDeathType : List Byte :=
  sampleHeader 2 0 ++ badDeathTypeRecord ++ sampleRecordWithId 0

/-- A search buffer declaring two players, with ids 7 and 8. -/
def searchTwoRecords : List Byte :=
  sampleSearchHeader 2 0 ++ sampleRecordWithId 7 ++ sampleRecordWithId 8

/-- The record `sampleRecord` with both daggers-fired counters set to zero (5 daggers hit
and 15 overall daggers hit are kept). -/
def noDaggersRecord : List Byte :=
  sampleRecord.take 24 ++ [0] ++ (sampleRecord.drop 25).take 31 ++ [0] ++ sampleRecord.drop 57

/-- A leaderboard buffer with zero global daggers fired (and 20 hit), declaring one player,
the record `noDaggersRecord`. -/
def noDaggersBoard : List Byte :=
  (sampleHeader 1 0).take 27 ++ [0] ++ (sampleHeader 1 0).drop 28 ++ noDaggersRecord

/-! ## The encoder of the wire format -/

/-- Little-endian encoding of `n` on `w` bytes. -/
def leBytes : Nat → Nat → List Byte
  | 0, _ => []
  | w + 1, n => ⟨n % 256, Nat.mod_lt n (by decide)⟩ :: leBytes w (n / 256)

/-- Two's complement little-endian encoding of `i` on `w` bytes. -/
def leBytesInt (w : Nat) (i : Int) : List Byte := leBytes w (i % 2 ^ (8 * w)).toNat

/-- Modelled from the spec: the integer stored for a time, the whole number nearest to the
value multiplied by `scale`. -/
def rawTicks : F64 → Nat → Int
  | .finite q, scale => round (q * scale)
  | .nonFinite, _ => 0

/-- The accuracy that the decoder derives from a pair of counters (lines 113 to 115 and
123 to 125 of `ddapi.go`): the `float64` quotient, times 100, rounded to 2 decimals by
`roundToNearest`, and 0 when `fired` is not positive. -/
def percentage (hit fired : Int) : F64 :=
  if fired > 0 then
    roundToNearest (F64.mul (F64.div (F64.ofInt hit) (F64.ofInt fired)) (.finite 100)) 2
  else F64.zero

/-- Modelled from the spec: the encoder of one player record, which lives in the upstream
service and not in this repository. The record is the 16-bit name length, the name, and a
fixed tail of `tail` bytes holding the integer fields at the tail offsets 0, 4, 12, 16, 20,
24, 28, 32, 36, 44, 52, 60, 68, 76 that the decoder reads, every other byte being zero.
Section 4.1 of the specification gives `tail = 90`. -/
def encodePlayer (tail : Nat) (p : Player) : List Byte :=
  leBytes 2 p.PlayerName.length ++ (p.PlayerName ++ (
  leBytesInt 4 p.Rank ++ (
  leBytes 8 p.PlayerID ++ (
  leBytesInt 4 (rawTicks p.Time 10000) ++ (
  leBytesInt 4 p.Kills ++ (
  leBytesInt 4 p.DaggersFired ++ (
  leBytesInt 4 p.DaggersHit ++ (
  leBytesInt 4 p.Gems ++ (
  leBytes 2 (DeathTypes.indexOf p.DeathType) ++ (
  List.replicate 2 0 ++ (
  leBytes 8 p.OverallDeaths ++ (
  leBytes 8 p.OverallKills ++ (
  leBytes 8 p.OverallDaggersFired ++ (
  leBytes 8 (rawTicks p.OverallTime 10000).toNat ++ (
  leBytes 8 p.OverallGems ++ (
  leBytes 8 p.OverallDaggersHit ++
  List.replicate (tail - 84) 0))))))))))))))))

/-- Modelled from the spec: the records of a list of players, one after the other. -/
def encodePlayers (tail : Nat) : List Player → List Byte
  | [] => []
  | p :: ps => encodePlayer tail p ++ encodePlayers tail ps

/-- Modelled from the spec: the 83-byte leaderboard header, with the fields at the offsets
11, 19, 27, 35, 43, 51, 59 and 75 that the decoder reads; the declared player count is the
number of records that follow. -/
def encodeHeader (lb : Leaderboard) : List Byte :=
  List.replicate 11 0 ++ (
  leBytes 8 lb.GlobalDeaths ++ (
  leBytes 8 lb.GlobalKills ++ (
  leBytes 8 lb.GlobalDaggersFired ++ (
  leBytes 8 (rawTicks lb.GlobalTime 1000).toNat ++ (
  leBytes 8 lb.GlobalGems ++ (
  leBytes 8 lb.GlobalDaggersHit ++ (
  leBytes 2 lb.Players.length ++ (
  List.replicate 14 0 ++ (
  leBytesInt 4 lb.GlobalPlayerCount ++
  List.replicate 4 0)))))))))

/-- Modelled from the spec: the buffer that encodes a leaderboard, header then records. -/
def encodeLeaderboard (tail : Nat) (lb : Leaderboard) : List Byte :=
  encodeHeader lb ++ encodePlayers tail lb.Players

/-- Whether an integer fits the Go type `int32`. -/
def InInt32 (i : Int) : Prop := -2 ^ 31 ≤ i ∧ i < 2 ^ 31

/-- The players that the round trip is about: nonzero id, death-type tag from the table,
name shorter than `2 ^ 15` bytes, integer fields within their Go types, times at the
specified rounding (the `float64` nearest to a whole number of ten-thousandths, which fits
an `int32` for `Time` and is below `2 ^ 51` for `OverallTime`), accuracies equal to the
`float64` values that the decoder derives from the hit and fired counters. -/
structure Player.WellFormed (p : Player) : Prop where
  id_ne : p.PlayerID ≠ 0
  id_lt : p.PlayerID < 2 ^ 64
  tag : p.DeathType ∈ DeathTypes
  name : p.PlayerName.length < 2 ^ 15
  rank : InInt32 p.Rank
  kills : InInt32 p.Kills
  gems : InInt32 p.Gems
  hit : InInt32 p.DaggersHit
  fired : InInt32 p.DaggersFired
  time : p.Time = F64.ofRat ((rawTicks p.Time 10000 : ℚ) / 10000)
  time_range : InInt32 (rawTicks p.Time 10000)
  overallTime : p.OverallTime = F64.ofRat (((rawTicks p.OverallTime 10000).toNat : ℚ) / 10000)
  overallTime_lt : (rawTicks p.OverallTime 10000).toNat < 2 ^ 51
  overallKills : p.OverallKills < 2 ^ 64
  overallGems : p.OverallGems < 2 ^ 64
  overallDeaths : p.OverallDeaths < 2 ^ 64
  overallHit : p.OverallDaggersHit < 2 ^ 64
  overallFired : p.OverallDaggersFired < 2 ^ 64
  accuracy : p.Accuracy = percentage p.DaggersHit p.DaggersFired
  overallAccuracy : p.OverallAccuracy = percentage p.OverallDaggersHit p.OverallDaggersFired

/-- The leaderboards that the round trip is about: counters within their Go types, the
time the `float64` nearest to a whole number of milliseconds below `2 ^ 47`, the accuracy
the `float64` quotient hit / fired (0 when nothing was fired), `PlayerCount` the number of
players, every player well formed. -/
structure Leaderboard.WellFormed (lb : Leaderboard) : Prop where
  deaths : lb.GlobalDeaths < 2 ^ 64
  kills : lb.GlobalKills < 2 ^ 64
  gems : lb.GlobalGems < 2 ^ 64
  fired : lb.GlobalDaggersFired < 2 ^ 64
  hit : lb.GlobalDaggersHit < 2 ^ 64
  time : lb.GlobalTime = F64.ofRat (((rawTicks lb.GlobalTime 1000).toNat : ℚ) / 1000)
  time_lt : (rawTicks lb.GlobalTime 1000).toNat < 2 ^ 47
  accuracy : lb.GlobalAccuracy =
    if lb.GlobalDaggersFired > 0 then
      F64.div (F64.ofInt lb.GlobalDaggersHit) (F64.ofInt lb.GlobalDaggersFired)
    else F64.zero
  globalCount : InInt32 lb.GlobalPlayerCount
  count : lb.PlayerCount = lb.Players.length
  players : ∀ p ∈ lb.Players, p.WellFormed

/-- A well-formed player named `ab`: 5 of 10 daggers hit (50 %), 15 of 20 overall (75 %),
the `float64` nearest to 1.2345 seconds, 5 seconds overall. -/
def samplePlayer (id : Nat) : Player :=
  { PlayerName := [97, 98], PlayerID := id, Rank := 1, Time := F64.ofRat (12345 / 10000),
    Kills := 3, Gems := 2, DaggersHit := 5, DaggersFired := 10, Accuracy := .finite 50,
    DeathType := "GORED", OverallTime := .finite 5, OverallKills := 6, OverallGems := 8,
    OverallDeaths := 4, OverallDaggersHit := 15, OverallDaggersFired := 20,
    OverallAccuracy := .finite 75 }

/-- A well-formed leaderboard over the given players: 10 seconds, 20 of 40 daggers hit. -/
def boardOf (players : List Player) : Leaderboard :=
  { GlobalDeaths := 100, GlobalKills := 200, GlobalTime := .finite 10, GlobalGems := 30,
    GlobalDaggersFired := 40, GlobalDaggersHit := 20, GlobalAccuracy := .finite (1 / 2),
    GlobalPlayerCount := 5, PlayerCount := players.length, Players := players }

/-- The player `samplePlayer 7` with 23 daggers hit of 160 fired, and the given accuracy. -/
def tiePlayer (accuracy : F64) : Player :=
  { samplePlayer 7 with DaggersHit := 23, DaggersFired := 160, Accuracy := accuracy }

/-- A leaderboard with two players, ids 7 and 8. -/
def sampleBoard : Leaderboard := boardOf [samplePlayer 7, samplePlayer 8]

/-- A leaderboard with `2 ^ 15` players. -/
def bigBoard : Leaderboard := boardOf (List.replicate 32768 (samplePlayer 7))

/-- The value is a finite number between `lo` and `hi`. -/
def F64.within (lo hi : ℚ) : F64 → Prop
  | .finite q => lo ≤ q ∧ q ≤ hi
  | .nonFinite => False

/-- The record `sampleRecord` with 20 daggers hit for 10 fired, and 40 overall daggers hit
for 20 fired. -/
def overHitRecord : List Byte :=
  sampleRecord.take 28 ++ [20] ++ (sampleRecord.drop 29).take 51 ++ [40] ++ sampleRecord.drop 81

/-- A leaderboard buffer with 1 global dagger fired and 200 hit, declaring no player. -/
def overHitBoard : List Byte :=
  (sampleHeader 0 0).take 27 ++ [1] ++ ((sampleHeader 0 0).drop 28).take 23 ++ [200]
    ++ (sampleHeader 0 0).drop 52

/-! ## The live sessions (`pkg/socketio/socketio.go`)

Modelling conventions.

* The `sync.Map` of live players is a function from connection ids to sessions; a session
  is a pointer in Go, so a handler that mutates it updates the entry of the map.
* A send on a channel of the websocket hub appends the message to the list of that name.
* `Conn.Close` records the connection id in `closed`; log output is not modelled.
* The collaborators that live outside this package (`websocket.NewMessage`,
  `ddAPI.UserByID`, `db.Players.UpsertDDPlayer`, `db.Games.Get`) are parameters of the
  handlers that call them.
* A float comparison with a non-finite operand is false, as it is for NaN.
-/

namespace F64

/-- Go `a < b` on `float64`. -/
def lt : F64 → F64 → Bool
  | finite a, finite b => decide (a < b)
  | _, _ => false

/-- Go `a > b` on `float64`. -/
def gt (a b : F64) : Bool := lt b a

/-- Go `a >= b` on `float64`. -/
def ge : F64 → F64 → Bool
  | finite a, finite b => decide (b ≤ a)
  | _, _ => false

end F64

/-- A Go `error` value of a collaborator. -/
abbrev GoErr := String

/-- `strconv.Itoa`. -/
def strconvItoa (i : Int) : String := toString i

/-- Conversion `int(u)` of a `uint64`. -/
def intOfUint64 (u : Nat) : Int := toSigned 64 (u % 2 ^ 64)

/-- The published snapshot `websocket.PlayerWithLock`: the fields of `websocket.Player`
that the handlers set. -/
structure WebsocketPlayer where
  ID : Int
  Name : String
  Status : String
  GameTime : F64
deriving DecidableEq

/-- The live session `player` of `socketio.go`. -/
structure player where
  websocketPlayer : WebsocketPlayer
  PlayerID : Int
  PlayerName : String
  BestGameTime : F64
  GameTime : F64
  DeathType : Int
  IsReplay : Bool
  bestTimeNotified : Bool
  above1000Notified : Bool
deriving DecidableEq

/-- `player.getStatus` of `socketio.go`. -/
def player.getStatus (p : player) : String :=
  if p.DeathType ≥ 0 then "Dead"
  else if p.DeathType = -2 then "In Menu"
  else if p.DeathType = -1 ∧ p.IsReplay = true then "Watching a Replay"
  else "Alive"

/-- The payload `state` of a submit event. -/
structure state where
  PlayerID : Int
  GameTime : F64
  Gems : Int
  HomingDaggers : Int
  EnemiesAlive : Int
  EnemiesKilled : Int
  DaggersHit : Int
  DaggersFired : Int
  LevelTwoTime : F64
  LevelThreeTime : F64
  LevelFourTime : F64
  DeathType : Int
  IsReplay : Bool
  NotifyPlayerBest : Bool
  NotifyAbove1000 : Bool
deriving DecidableEq

/-- The finished game `models.Game`: the columns that the handlers read. -/
structure Game where
  ID : Nat
  GameTime : F64
  DeathType : Int
deriving DecidableEq

/-- The player resolved by `ddAPI.UserByID`: the fields that `onLogin` reads. -/
structure DDPlayer where
  PlayerID : Nat
  PlayerName : String
  GameTime : F64
deriving DecidableEq

/-- The viewer broadcast message `websocket.Message` built by `websocket.NewMessage`. -/
structure Message where
  Room : String
  Func : String
  Body : state
deriving DecidableEq

/-- The four milestone messages sent on `DiscordBroadcast`, with the fields the
handlers fill in. -/
inductive Notification where
  | PlayerBestSubmitted (PlayerName : String) (GameID : Int) (GameTime PreviousGameTime : F64)
  | PlayerBestReached (PlayerID : Int) (PlayerName : String) (PreviousGameTime : F64)
  | PlayerAbove1000 (PlayerID : Int) (PlayerName : String)
  | PlayerDied (PlayerName : String) (GameID : Int) (GameTime : F64) (DeathType : Int)
deriving DecidableEq

/-- The channels of `websocket.Hub` that the handlers send on. -/
structure Hub where
  Broadcast : List Message
  DiscordBroadcast : List Notification
  RegisterPlayer : List WebsocketPlayer
  UnregisterPlayer : List WebsocketPlayer
deriving DecidableEq

/-- The server `sio`: its live players, its hub, and the connections it has closed. -/
structure sio where
  livePlayers : String → Option player
  websocketHub : Hub
  closed : List String

/-- `livePlayers.Store`. -/
def sio.store (si : sio) (sID : String) (p : player) : sio :=
  { si with livePlayers := fun k => if k = sID then some p else si.livePlayers k }

/-- `livePlayers.Delete`. -/
def sio.delete (si : sio) (sID : String) : sio :=
  { si with livePlayers := fun k => if k = sID then none else si.livePlayers k }

/-- `s.Close()` on the connection `sID`. -/
def sio.close (si : sio) (sID : String) : sio :=
  { si with closed := si.closed ++ [sID] }

/-- A send on `websocketHub.DiscordBroadcast`. -/
def Hub.discord (h : Hub) (n : Notification) : Hub :=
  { h with DiscordBroadcast := h.DiscordBroadcast ++ [n] }

/-- `onDisconnect` of `socketio.go`. -/
def onDisconnect (si : sio) (sID : String) : sio :=
  match si.livePlayers sID with
  | none => si
  | some p =>
    let si := si.delete sID
    { si with websocketHub :=
        { si.websocketHub with
          UnregisterPlayer := si.websocketHub.UnregisterPlayer ++ [p.websocketPlayer] } }

/-- The `switch statusID` of `onStatusUpdate`: no case matches outside `0..6`, and the
status stays the empty string. -/
def statusName (statusID : Int) : String :=
  if statusID = 0 then "Not Connected"
  else if statusID = 1 then "Connecting"
  else if statusID = 2 then "Alive"
  else if statusID = 3 then "Watching a Replay"
  else if statusID = 4 then "In Main Menu"
  else if statusID = 5 then "In Dagger Lobby"
  else if statusID = 6 then "Dead"
  else ""

/-- `onStatusUpdate` of `socketio.go` (the `playerID` argument is not used). -/
def onStatusUpdate (si : sio) (sID : String) (_playerID statusID : Int) : sio :=
  let status := statusName statusID
  match si.livePlayers sID with
  | none => si
  | some p => si.store sID { p with websocketPlayer := { p.websocketPlayer with Status := status } }

/-- The dereference `game.GameTime` / `game.DeathType` of the pointer returned by
`db.Games.Get`. -/
def derefGame : Option Game → Except Panic Game
  | some g => .ok g
  | none => .error .nilDereference

/-- `onGameSubmitted` of `socketio.go`; `gamesGet` is `si.db.Games.Get`, whose error is
only logged. The milestones already sent are lost with the state when the handler faults. -/
def onGameSubmitted (gamesGet : Int → Option Game × Option GoErr) (si : sio) (sID : String)
    (gameID : Int) (notifyPlayerBest notifyAbove1000 : Bool) : Except Panic sio :=
  match si.livePlayers sID with
  | none => pure si
  | some p => do
    let game := (gamesGet gameID).1
    let hub := si.websocketHub
    let hub ←
      if notifyPlayerBest then do
        let g ← derefGame game
        if F64.gt g.GameTime p.BestGameTime then
          pure (hub.discord (.PlayerBestSubmitted p.PlayerName gameID g.GameTime p.BestGameTime))
        else pure hub
      else pure hub
    let hub ←
      if notifyAbove1000 then do
        let g ← derefGame game
        if F64.gt g.GameTime (.finite 1000) then
          pure (hub.discord (.PlayerDied p.PlayerName gameID g.GameTime g.DeathType))
        else pure hub
      else pure hub
    let p := { p with bestTimeNotified := false, above1000Notified := false }
    pure ({ si with websocketHub := hub }.store sID p)

/-- `onLogin` of `socketio.go`; `userByID` is `si.ddAPI.UserByID` and `upsertDDPlayer` is
`si.db.Players.UpsertDDPlayer`. -/
def onLogin (userByID : Int → Except GoErr DDPlayer) (upsertDDPlayer : DDPlayer → Option GoErr)
    (si : sio) (sID : String) (id : Int) : sio :=
  if id = -1 then si.close sID
  else
    match userByID id with
    | .error _ => si.close sID
    | .ok p =>
      let websocketPlayer : WebsocketPlayer :=
        { ID := intOfUint64 p.PlayerID, Name := p.PlayerName, Status := "Logged In",
          GameTime := F64.zero }
      let si := si.store sID
        { websocketPlayer := websocketPlayer
          PlayerID := intOfUint64 p.PlayerID
          PlayerName := p.PlayerName
          BestGameTime := p.GameTime
          GameTime := F64.zero
          DeathType := -2
          IsReplay := false
          bestTimeNotified := false
          above1000Notified := false }
      match upsertDDPlayer p with
      | some _ => si.close sID
      | none =>
        { si with websocketHub :=
            { si.websocketHub with
              RegisterPlayer := si.websocketHub.RegisterPlayer ++ [websocketPlayer] } }

/-- Lines 263 to 272 of `onSubmit`: under the lock of the session, the payload's time,
death type and replay flag are stored, the status is recomputed and copied with the time
into the snapshot. -/
def player.update (p : player) (st : state) : player :=
  let p := { p with GameTime := st.GameTime, DeathType := st.DeathType, IsReplay := st.IsReplay }
  let status := p.getStatus
  { p with websocketPlayer := { p.websocketPlayer with GameTime := st.GameTime, Status := status } }

/-- Lines 280 to 287 of `onSubmit`: the best-time milestone and its latch. -/
def notifyBestReached (st : state) (p : player) (hub : Hub) : player × Hub :=
  if st.NotifyPlayerBest && !p.bestTimeNotified && F64.lt st.GameTime p.BestGameTime then
    ({ p with bestTimeNotified := true },
      hub.discord (.PlayerBestReached p.PlayerID p.PlayerName p.BestGameTime))
  else (p, hub)

/-- Lines 288 to 294 of `onSubmit`: the long-run milestone and its latch. -/
def notifyAbove1000Reached (st : state) (p : player) (hub : Hub) : player × Hub :=
  if st.NotifyAbove1000 && !p.above1000Notified && F64.ge st.GameTime (.finite 1000) then
    ({ p with above1000Notified := true }, hub.discord (.PlayerAbove1000 p.PlayerID p.PlayerName))
  else (p, hub)

/-- `onSubmit` of `socketio.go`; the arguments of the handler are gathered in the `state`
value `st` that it builds first, and `newMessage` is `websocket.NewMessage`. -/
def onSubmit (newMessage : String → String → state → Except GoErr Message) (si : sio)
    (sID : String) (st : state) : sio :=
  if st.PlayerID < 1 then si
  else
    match si.livePlayers sID with
    | none => si
    | some p =>
      let p := p.update st
      match newMessage (strconvItoa st.PlayerID) "submit" st with
      | .error _ => si.store sID p
      | .ok websocketMessage =>
        let hub := { si.websocketHub with
          Broadcast := si.websocketHub.Broadcast ++ [websocketMessage] }
        let r := notifyBestReached st p hub
        let r := notifyAbove1000Reached st r.1 r.2
        { si with websocketHub := r.2 }.store sID r.1

/-- A `NewMessage` that never fails and records its arguments. -/
def recordMessage (room func : String) (v : state) : Except GoErr Message :=
  .ok { Room := room, Func := func, Body := v }

/-- A sequence of submit events on the connection `sID`, handled one after the other. -/
def runSubmits (newMessage : String → String → state → Except GoErr Message) (si : sio)
    (sID : String) : List state → sio
  | [] => si
  | st :: sts => runSubmits newMessage (onSubmit newMessage si sID st) sID sts

/-- Whether a milestone is the best-time milestone of `onSubmit`. -/
def isBestReached : Notification → Bool
  | .PlayerBestReached _ _ _ => true
  | _ => false

/-- Whether a milestone is the long-run milestone of `onSubmit`. -/
def isAbove1000 : Notification → Bool
  | .PlayerAbove1000 _ _ => true
  | _ => false

/-- The best-time milestone is due: it is requested, its latch is unset, and the submitted
time is strictly less than the best time of the session. -/
def bestDue (st : state) (p : player) : Bool :=
  st.NotifyPlayerBest && !p.bestTimeNotified && F64.lt st.GameTime p.BestGameTime

/-- The long-run milestone is due: it is requested, its latch is unset, and the submitted
time is at least 1000. -/
def above1000Due (st : state) (p : player) : Bool :=
  st.NotifyAbove1000 && !p.above1000Notified && F64.ge st.GameTime (.finite 1000)

/-- A hub on which nothing has been sent. -/
def emptyHub : Hub :=
  { Broadcast := [], DiscordBroadcast := [], RegisterPlayer := [], UnregisterPlayer := [] }

/-- A session as `onLogin` creates it for the player 7 named `ab`, whose best time is 500. -/
def sampleSession : player :=
  { websocketPlayer := { ID := 7, Name := "ab", Status := "Logged In", GameTime := F64.zero }
    PlayerID := 7
    PlayerName := "ab"
    BestGameTime := .finite 500
    GameTime := F64.zero
    DeathType := -2
    IsReplay := false
    bestTimeNotified := false
    above1000Notified := false }

/-- A server whose only live session is `sampleSession`, on the connection `c1`. -/
def sampleServer : sio :=
  { livePlayers := fun k => if k = "c1" then some sampleSession else none
    websocketHub := emptyHub
    closed := [] }

/-- A submit payload of a running game (death type -1, no replay) with both notifications
requested, for the given player id and elapsed time. -/
def sampleState (id : Int) (t : ℚ) : state :=
  { PlayerID := id, GameTime := .finite t, Gems := 3, HomingDaggers := 1, EnemiesAlive := 4,
    EnemiesKilled := 9, DaggersHit := 5, DaggersFired := 10, LevelTwoTime := .finite 30,
    LevelThreeTime := F64.zero, LevelFourTime := F64.zero, DeathType := -1, IsReplay := false,
    NotifyPlayerBest := true, NotifyAbove1000 := true }

/-- How many best-time milestones the session of `sID` may still emit: none when the
session is missing or its latch is set, one otherwise. -/
def bestBudget (si : sio) (sID : String) : Nat :=
  match si.livePlayers sID with
  | some p => if p.bestTimeNotified then 0 else 1
  | none => 0

/-- How many long-run milestones the session of `sID` may still emit. -/
def above1000Budget (si : sio) (sID : String) : Nat :=
  match si.livePlayers sID with
  | some p => if p.above1000Notified then 0 else 1
  | none => 0

/-- A `db.Games.Get` that finds the game 42: 1200 seconds, death type 3. -/
def sampleGamesGet (_gameID : Int) : Option Game × Option GoErr :=
  (some { ID := 42, GameTime := .finite 1200, DeathType := 3 }, none)

/-- A `ddAPI.UserByID` that resolves every id to the player 7 named `ab`, best time 500. -/
def sampleUserByID (_id : Int) : Except GoErr DDPlayer :=
  .ok { PlayerID := 7, PlayerName := "ab", GameTime := .finite 500 }

/-- A `db.Players.UpsertDDPlayer` that succeeds. -/
def upsertOk (_p : DDPlayer) : Option GoErr := none

/-- A `db.Players.UpsertDDPlayer` that fails. -/
def upsertFails (_p : DDPlayer) : Option GoErr := some "upsert failed"

/-- A server without live session. -/
def emptyServer : sio :=
  { livePlayers := fun _ => none, websocketHub := emptyHub, closed := [] }

/-! ## Sequences of events -/

/-- An event that a logged-in client sends, with the connection `sID` it arrives on. -/
inductive Event where
  | submit (sID : String) (st : state)
  | statusUpdate (sID : String) (playerID statusID : Int)
  | gameSubmitted (sID : String) (gameID : Int) (notifyPlayerBest notifyAbove1000 : Bool)
deriving DecidableEq

/-- The handler that `routes` binds to the event: `submit` to `onSubmit`, `status_update`
to `onStatusUpdate`, `game_submitted` to `onGameSubmitted`. -/
def dispatch (newMessage : String → String → state → Except GoErr Message)
    (gamesGet : Int → Option Game × Option GoErr) (si : sio) : Event → Except Panic sio
  | .submit sID st => .ok (onSubmit newMessage si sID st)
  | .statusUpdate sID playerID statusID => .ok (onStatusUpdate si sID playerID statusID)
  | .gameSubmitted sID gameID notifyPlayerBest notifyAbove1000 =>
    onGameSubmitted gamesGet si sID gameID notifyPlayerBest notifyAbove1000

/-- Events handled one after the other. The run stops at the first handler that faults;
it returns the server as it is then, and the fault. -/
def runEvents (newMessage : String → String → state → Except GoErr Message)
    (gamesGet : Int → Option Game × Option GoErr) : sio → List Event → sio × Option Panic
  | si, [] => (si, none)
  | si, e :: es =>
    match dispatch newMessage gamesGet si e with
    | .ok si' => runEvents newMessage gamesGet si' es
    | .error f => (si, some f)

/-- A `db.Games.Get` that finds no game and returns a nil pointer with its error, as
`PlayerModel.Get` does for a player. -/
def gamesGetFails (_gameID : Int) : Option Game × Option GoErr :=
  (none, some "models: no matching record found")

/-- Events on the connection `c1`: the game 42 (1200 seconds) is submitted, the status is
updated, a run at 400 seconds is submitted, and the game 42 is submitted again. -/
def sampleEvents : List Event :=
  [.gameSubmitted "c1" 42 true true, .statusUpdate "c1" 7 2, .submit "c1" (sampleState 7 400),
    .gameSubmitted "c1" 42 true false]

/-! ## Locks and field accesses of the handlers -/

/-- The fields of a session; `websocketPlayer` stands for the fields of its snapshot. -/
inductive Field where
  | GameTime
  | DeathType
  | IsReplay
  | bestTimeNotified
  | above1000Notified
  | websocketPlayer
  | PlayerID
  | PlayerName
  | BestGameTime
deriving DecidableEq

/-- The fields that change after the session is created. -/
def Field.mutable : Field → Bool
  | .PlayerID => false
  | .PlayerName => false
  | .BestGameTime => false
  | _ => true

/-- What a handler does to one session, in program order: `player.Lock()`,
`player.Unlock()`, `player.websocketPlayer.Lock()`, `player.websocketPlayer.Unlock()`, and
the reads and writes of fields. -/
inductive Op where
  | lock
  | unlock
  | lockSnapshot
  | unlockSnapshot
  | read (f : Field)
  | write (f : Field)
deriving DecidableEq

/-- The field reads of `getStatus`: the cases of its `switch` are evaluated in order, and
`IsReplay` is read only when `DeathType == -1`. -/
def getStatusOps (p : player) : List Op :=
  if p.DeathType ≥ 0 then [.read .DeathType]
  else if p.DeathType = -2 then [.read .DeathType, .read .DeathType]
  else if p.DeathType = -1 then
    [.read .DeathType, .read .DeathType, .read .DeathType, .read .IsReplay]
  else [.read .DeathType, .read .DeathType, .read .DeathType]

/-- The operations of `onStatusUpdate` on the session it found (lines 157 to 161). -/
def onStatusUpdateOps : List Op :=
  [.lock, .lockSnapshot, .write .websocketPlayer, .unlockSnapshot, .unlock]

/-- The operations of the two notification blocks of `onSubmit` (lines 280 to 294) on the
session `p`; a condition is evaluated left to right and stops at its first false operand. -/
def notificationOps (st : state) (p : player) : List Op :=
  (if st.NotifyPlayerBest then
      [.read .bestTimeNotified]
        ++ (if !p.bestTimeNotified then
            [.read .BestGameTime]
              ++ (if F64.lt st.GameTime p.BestGameTime then
                  [.read .PlayerID, .read .PlayerName, .read .BestGameTime,
                    .write .bestTimeNotified]
                else [])
          else [])
    else [])
    ++ (if st.NotifyAbove1000 then
      [.read .above1000Notified]
        ++ (if !p.above1000Notified && F64.ge st.GameTime (.finite 1000) then
            [.read .PlayerID, .read .PlayerName, .write .above1000Notified]
          else [])
    else [])

/-- The operations of `onSubmit` on the session `p` it found, for the payload `st`: lines
263 to 272, then, when the message was built, the two notification blocks. -/
def onSubmitOps (built : Bool) (st : state) (p : player) : List Op :=
  [.lock, .write .GameTime, .write .DeathType, .write .IsReplay]
    ++ getStatusOps (p.update st)
    ++ [.lockSnapshot, .write .websocketPlayer, .write .websocketPlayer, .unlockSnapshot,
        .unlock]
    ++ (if built then notificationOps st p else [])

/-- The operations of `onGameSubmitted` on the session `p` it found, the game `g` having
been fetched (lines 174 to 192). -/
def onGameSubmittedOps (notifyPlayerBest notifyAbove1000 : Bool) (p : player) (g : Game) :
    List Op :=
  (if notifyPlayerBest then
      [.read .BestGameTime]
        ++ (if F64.gt g.GameTime p.BestGameTime then
            [.read .PlayerName, .read .BestGameTime]
          else [])
    else [])
    ++ (if notifyAbove1000 && F64.gt g.GameTime (.finite 1000) then [.read .PlayerName] else [])
    ++ [.write .bestTimeNotified, .write .above1000Notified]

/-- Whether every read and write of a mutable field in the trace happens while the lock of
the session is held; `held` tells whether it is held at the start. -/
def accessesLocked : Bool → List Op → Bool
  | _, [] => true
  | _, .lock :: ops => accessesLocked true ops
  | _, .unlock :: ops => accessesLocked false ops
  | held, .read f :: ops => (!f.mutable || held) && accessesLocked held ops
  | held, .write f :: ops => (!f.mutable || held) && accessesLocked held ops
  | held, _ :: ops => accessesLocked held ops

/-- Whether the lock of the snapshot is only ever acquired while the lock of the session
is held. -/
def snapshotLockNested : Bool → List Op → Bool
  | _, [] => true
  | _, .lock :: ops => snapshotLockNested true ops
  | _, .unlock :: ops => snapshotLockNested false ops
  | held, .lockSnapshot :: ops => held && snapshotLockNested held ops
  | held, _ :: ops => snapshotLockNested held ops

/-- The game found by `sampleGamesGet`. -/
def sampleGame : Game := { ID := 42, GameTime := .finite 1200, DeathType := 3 }

/-- Whether the lock of the session is held after the trace. -/
def lockAfter : Bool → List Op → Bool
  | held, [] => held
  | _, .lock :: ops => lockAfter true ops
  | _, .unlock :: ops => lockAfter false ops
  | held, _ :: ops => lockAfter held ops

/-! ## Reading fixed-width fields -/

theorem slice_eq_ok {b : List Byte} {lo hi : Int} (h0 : 0 ≤ lo) (h1 : lo ≤ hi)
    (h2 : hi ≤ (b.length : Int)) :
    slice b lo hi = .ok (field b lo (hi - lo).toNat) := by
  simp [slice, field, h0, h1, h2]

theorem slice_eq_error {b : List Byte} {lo hi : Int}
    (h : ¬ (0 ≤ lo ∧ lo ≤ hi ∧ hi ≤ (b.length : Int))) :
    slice b lo hi = .error .sliceBounds := by
  simp only [slice, if_neg h]

theorem field_length {b : List Byte} {off : Int} {w : Nat} (h0 : 0 ≤ off)
    (h1 : off + w ≤ (b.length : Int)) : (field b off w).length = w := by
  simp only [field, List.length_take, List.length_drop]
  omega

theorem slice_width_ok (w : Nat) {b : List Byte} {off : Int} (h0 : 0 ≤ off)
    (h1 : off + w ≤ (b.length : Int)) :
    slice b off (off + w) = .ok (field b off w) := by
  rw [slice_eq_ok h0 (by omega) h1]; simp

theorem littleEndianUint_field (w : Nat) {b : List Byte} {off : Int} (h0 : 0 ≤ off)
    (h1 : off + w ≤ (b.length : Int)) :
    littleEndianUint w (field b off w) = .ok (leUint (field b off w)) := by
  have hl := field_length h0 h1
  simp [littleEndianUint, hl, List.take_of_length_le]

/-- The little-endian value of four bytes, written out. -/
theorem leUint_four (a b c d : Byte) :
    leUint [a, b, c, d] = a.val + b.val * 2 ^ 8 + c.val * 2 ^ 16 + d.val * 2 ^ 24 := by
  simp only [leUint, List.foldr_cons, List.foldr_nil]
  omega

theorem toUint64_ok {b : List Byte} {off : Int} (h0 : 0 ≤ off)
    (h1 : off + 8 ≤ (b.length : Int)) : toUint64 b off = .ok (leUint (field b off 8)) := by
  have hs := slice_width_ok 8 h0 h1
  have hl := littleEndianUint_field 8 h0 h1
  simp only [Nat.cast_ofNat] at hs
  simp only [toUint64, hs, hl, bind, Except.bind]

theorem toUint64_error {b : List Byte} {off : Int}
    (h : ¬ (0 ≤ off ∧ off + 8 ≤ (b.length : Int))) : toUint64 b off = .error .sliceBounds := by
  simp only [toUint64, slice_eq_error (show ¬ (0 ≤ off ∧ off ≤ off + 8 ∧ off + 8 ≤ (b.length : Int)) by omega), bind, Except.bind]

theorem toInt32_ok {b : List Byte} {off : Int} (h0 : 0 ≤ off)
    (h1 : off + 4 ≤ (b.length : Int)) :
    toInt32 b off = .ok (toSigned 32 (leUint (field b off 4))) := by
  have hs := slice_width_ok 4 h0 h1
  have hl := littleEndianUint_field 4 h0 h1
  simp only [Nat.cast_ofNat] at hs
  simp only [toInt32, hs, hl, bind, Except.bind, pure, Except.pure]

theorem toInt32_error {b : List Byte} {off : Int}
    (h : ¬ (0 ≤ off ∧ off + 4 ≤ (b.length : Int))) : toInt32 b off = .error .sliceBounds := by
  simp only [toInt32, slice_eq_error (show ¬ (0 ≤ off ∧ off ≤ off + 4 ∧ off + 4 ≤ (b.length : Int)) by omega), bind, Except.bind]

theorem toInt16_ok {b : List Byte} {off : Int} (h0 : 0 ≤ off)
    (h1 : off + 2 ≤ (b.length : Int)) :
    toInt16 b off = .ok (toSigned 16 (leUint (field b off 2))) := by
  have hs := slice_width_ok 2 h0 h1
  have hl := littleEndianUint_field 2 h0 h1
  simp only [Nat.cast_ofNat] at hs
  simp only [toInt16, hs, hl, bind, Except.bind, pure, Except.pure]

theorem toInt16_error {b : List Byte} {off : Int}
    (h : ¬ (0 ≤ off ∧ off + 2 ≤ (b.length : Int))) : toInt16 b off = .error .sliceBounds := by
  simp only [toInt16, slice_eq_error (show ¬ (0 ≤ off ∧ off ≤ off + 2 ∧ off + 2 ≤ (b.length : Int)) by omega), bind, Except.bind]


/-! ## Rounding to binary64

`F64.ofRat` rounds to the nearest multiple of the unit in the last place. It is monotone,
it fixes the values that have 53 significant bits, and it moves its argument by at most
half a unit in the last place. -/

namespace F64

theorem floor_le_roundHalfEven (x : ℚ) : ⌊x⌋ ≤ roundHalfEven x := by
  unfold roundHalfEven
  split_ifs <;> omega

theorem roundHalfEven_le_floor_add_one (x : ℚ) : roundHalfEven x ≤ ⌊x⌋ + 1 := by
  unfold roundHalfEven
  split_ifs <;> omega

theorem roundHalfEven_intCast (n : Int) : roundHalfEven (n : ℚ) = n := by
  unfold roundHalfEven
  simp

theorem abs_roundHalfEven_sub (x : ℚ) : |(roundHalfEven x : ℚ) - x| ≤ 1 / 2 := by
  have h1 := Int.floor_le x
  have h2 := Int.lt_floor_add_one x
  unfold roundHalfEven
  rw [abs_le]
  split_ifs with ha hb hc
  · constructor <;> linarith
  · push_cast; constructor <;> linarith
  · constructor <;> linarith
  · push_cast; constructor <;> linarith

theorem roundHalfEven_mono {x y : ℚ} (h : x ≤ y) : roundHalfEven x ≤ roundHalfEven y := by
  have hf : ⌊x⌋ ≤ ⌊y⌋ := Int.floor_mono h
  rcases hf.lt_or_eq with hlt | heq
  · have := roundHalfEven_le_floor_add_one x
    have := floor_le_roundHalfEven y
    omega
  · unfold roundHalfEven
    rw [heq]
    have hxy : x - (⌊y⌋ : ℚ) ≤ y - (⌊y⌋ : ℚ) := by linarith
    split_ifs <;> first | omega | (exfalso; linarith)

theorem roundHalfEven_le_of_le {x : ℚ} {n : Int} (h : x ≤ n) : roundHalfEven x ≤ n := by
  have := roundHalfEven_mono h
  rwa [roundHalfEven_intCast] at this

theorem le_roundHalfEven_of_le {x : ℚ} {n : Int} (h : (n : ℚ) ≤ x) : n ≤ roundHalfEven x := by
  have := roundHalfEven_mono h
  rwa [roundHalfEven_intCast] at this

theorem two_zpow_pos (e : Int) : (0 : ℚ) < 2 ^ e := zpow_pos (by norm_num) e

theorem two_zpow_div (K e : Int) (h : e ≤ K) :
    (2 : ℚ) ^ K / 2 ^ e = (((2 : Int) ^ (K - e).toNat : Int) : ℚ) := by
  rw [← zpow_sub₀ (by norm_num : (2 : ℚ) ≠ 0)]
  push_cast
  rw [← zpow_natCast, Int.toNat_of_nonneg (by omega)]

theorem log_lt_of_abs_lt {q : ℚ} {K : Int} (hq : q ≠ 0) (h : |q| < 2 ^ K) :
    Int.log 2 |q| < K := by
  have := (Int.lt_zpow_iff_log_lt (R := ℚ) (b := 2) (by norm_num) (abs_pos.2 hq)).1
    (by simpa using h)
  exact this

theorem log_le_of_abs_le {q : ℚ} {K : Int} (hq : q ≠ 0) (h : |q| ≤ 2 ^ K) :
    Int.log 2 |q| ≤ K := by
  have h1 := Int.log_mono_right (R := ℚ) (b := 2) (abs_pos.2 hq) h
  have h2 := Int.log_zpow (R := ℚ) (b := 2) (by norm_num) K
  simp only [Nat.cast_ofNat] at h2
  rwa [h2] at h1

theorem ulpExp_le_of_abs_lt {q : ℚ} {K : Int} (hq : q ≠ 0) (h : |q| < 2 ^ K)
    (hK : -1021 ≤ K) : ulpExp q ≤ K - 53 := by
  have := log_lt_of_abs_lt hq h
  unfold ulpExp
  rcases max_cases (Int.log 2 |q|) (-1022) with ⟨h1, -⟩ | ⟨h1, -⟩ <;> rw [h1] <;> omega

theorem ulpExp_le_of_abs_le {q : ℚ} {K : Int} (hq : q ≠ 0) (h : |q| ≤ 2 ^ K)
    (hK : -1022 ≤ K) : ulpExp q ≤ K - 52 := by
  have := log_le_of_abs_le hq h
  unfold ulpExp
  rcases max_cases (Int.log 2 |q|) (-1022) with ⟨h1, -⟩ | ⟨h1, -⟩ <;> rw [h1] <;> omega

theorem nearest_zero : nearest 0 = 0 := by
  unfold nearest
  rw [zero_div, show ((0 : ℚ)) = ((0 : Int) : ℚ) by norm_num, roundHalfEven_intCast]
  simp

theorem nearest_sub (q : ℚ) :
    nearest q - q = ((roundHalfEven (q / 2 ^ ulpExp q) : ℚ) - q / 2 ^ ulpExp q) * 2 ^ ulpExp q := by
  have hp := two_zpow_pos (ulpExp q)
  unfold nearest
  field_simp

theorem abs_nearest_sub (q : ℚ) : |nearest q - q| ≤ 2 ^ ulpExp q / 2 := by
  have hp := two_zpow_pos (ulpExp q)
  rw [nearest_sub, abs_mul, abs_of_pos hp]
  have := abs_roundHalfEven_sub (q / 2 ^ ulpExp q)
  nlinarith

theorem abs_nearest_sub_le {q : ℚ} {K : Int} (h : |q| < 2 ^ K) (hK : -1021 ≤ K) :
    |nearest q - q| ≤ 2 ^ (K - 54) := by
  by_cases hq : q = 0
  · subst hq
    rw [nearest_zero]
    simp only [sub_zero, abs_zero]
    exact (two_zpow_pos _).le
  · have he := ulpExp_le_of_abs_lt hq h hK
    have h1 := abs_nearest_sub q
    have h2 : (2 : ℚ) ^ ulpExp q / 2 = 2 ^ (ulpExp q - 1) := by
      rw [zpow_sub₀ (by norm_num : (2 : ℚ) ≠ 0), zpow_one]
    rw [h2] at h1
    exact h1.trans (zpow_le_zpow_right₀ (by norm_num) (by omega))

theorem nearest_le_pow {q : ℚ} {K : Int} (hK : ulpExp q ≤ K) (h : q ≤ 2 ^ K) :
    nearest q ≤ 2 ^ K := by
  have hp := two_zpow_pos (ulpExp q)
  have h1 : q / 2 ^ ulpExp q ≤ (((2 : Int) ^ (K - ulpExp q).toNat : Int) : ℚ) := by
    rw [← two_zpow_div K _ hK]
    exact div_le_div_of_nonneg_right h hp.le
  have h2 := roundHalfEven_le_of_le h1
  have h3 : (roundHalfEven (q / 2 ^ ulpExp q) : ℚ) ≤ (((2 : Int) ^ (K - ulpExp q).toNat : Int) : ℚ) := by
    exact_mod_cast h2
  rw [← two_zpow_div K _ hK] at h3
  unfold nearest
  calc (roundHalfEven (q / 2 ^ ulpExp q) : ℚ) * 2 ^ ulpExp q
      ≤ (2 ^ K / 2 ^ ulpExp q) * 2 ^ ulpExp q := mul_le_mul_of_nonneg_right h3 hp.le
    _ = 2 ^ K := by field_simp

theorem pow_le_nearest {q : ℚ} {K : Int} (hK : ulpExp q ≤ K) (h : 2 ^ K ≤ q) :
    2 ^ K ≤ nearest q := by
  have hp := two_zpow_pos (ulpExp q)
  have h1 : (((2 : Int) ^ (K - ulpExp q).toNat : Int) : ℚ) ≤ q / 2 ^ ulpExp q := by
    rw [← two_zpow_div K _ hK]
    exact div_le_div_of_nonneg_right h hp.le
  have h2 := le_roundHalfEven_of_le h1
  have h3 : (((2 : Int) ^ (K - ulpExp q).toNat : Int) : ℚ) ≤ (roundHalfEven (q / 2 ^ ulpExp q) : ℚ) := by
    exact_mod_cast h2
  rw [← two_zpow_div K _ hK] at h3
  unfold nearest
  calc (2 : ℚ) ^ K = (2 ^ K / 2 ^ ulpExp q) * 2 ^ ulpExp q := by field_simp
    _ ≤ (roundHalfEven (q / 2 ^ ulpExp q) : ℚ) * 2 ^ ulpExp q :=
        mul_le_mul_of_nonneg_right h3 hp.le

theorem neg_pow_le_nearest {q : ℚ} {K : Int} (hK : ulpExp q ≤ K) (h : -(2 ^ K) ≤ q) :
    -(2 ^ K) ≤ nearest q := by
  have hp := two_zpow_pos (ulpExp q)
  have h1 : ((-((2 : Int) ^ (K - ulpExp q).toNat) : Int) : ℚ) ≤ q / 2 ^ ulpExp q := by
    rw [Int.cast_neg, ← two_zpow_div K _ hK, ← neg_div]
    exact div_le_div_of_nonneg_right h hp.le
  have h2 := le_roundHalfEven_of_le h1
  have h3 : ((-((2 : Int) ^ (K - ulpExp q).toNat) : Int) : ℚ)
      ≤ (roundHalfEven (q / 2 ^ ulpExp q) : ℚ) := by
    exact_mod_cast h2
  rw [Int.cast_neg, ← two_zpow_div K _ hK] at h3
  unfold nearest
  calc -((2 : ℚ) ^ K) = (-(2 ^ K / 2 ^ ulpExp q)) * 2 ^ ulpExp q := by field_simp
    _ ≤ (roundHalfEven (q / 2 ^ ulpExp q) : ℚ) * 2 ^ ulpExp q :=
        mul_le_mul_of_nonneg_right h3 hp.le

theorem nearest_nonneg {q : ℚ} (h : 0 ≤ q) : 0 ≤ nearest q := by
  have hp := two_zpow_pos (ulpExp q)
  have h1 : ((0 : Int) : ℚ) ≤ q / 2 ^ ulpExp q := by
    simp only [Int.cast_zero]
    exact div_nonneg h hp.le
  have h2 := le_roundHalfEven_of_le h1
  unfold nearest
  exact mul_nonneg (by exact_mod_cast h2) hp.le

theorem abs_nearest_le_pow {q : ℚ} {K : Int} (h : |q| ≤ 2 ^ K) (hK : -1022 ≤ K) :
    |nearest q| ≤ 2 ^ K := by
  by_cases hq : q = 0
  · subst hq
    rw [nearest_zero, abs_zero]
    exact (two_zpow_pos _).le
  · have he := ulpExp_le_of_abs_le hq h hK
    have ⟨hl, hu⟩ := abs_le.1 h
    exact abs_le.2 ⟨neg_pow_le_nearest (by omega) hl, nearest_le_pow (by omega) hu⟩

theorem nearest_of_scaled (m k : Int) (hm : |m| < 2 ^ 53) (hk : -1074 ≤ k) :
    nearest ((m : ℚ) * 2 ^ k) = (m : ℚ) * 2 ^ k := by
  by_cases hm0 : m = 0
  · subst hm0
    simp [nearest_zero]
  · have hpk := two_zpow_pos k
    have hq : (m : ℚ) * 2 ^ k ≠ 0 := mul_ne_zero (by exact_mod_cast hm0) hpk.ne'
    have hlt : |(m : ℚ) * 2 ^ k| < 2 ^ (53 + k) := by
      rw [abs_mul, abs_of_pos hpk, zpow_add₀ (by norm_num : (2 : ℚ) ≠ 0)]
      have : |(m : ℚ)| < 2 ^ (53 : Int) := by
        have : ((|m| : Int) : ℚ) < ((2 ^ 53 : Int) : ℚ) := by exact_mod_cast hm
        rw [Int.cast_abs] at this
        norm_num at this ⊢
        exact this
      exact mul_lt_mul_of_pos_right this hpk
    have hlog := log_lt_of_abs_lt hq hlt
    have he : ulpExp ((m : ℚ) * 2 ^ k) ≤ k := by
      unfold ulpExp
      rcases max_cases (Int.log 2 |(m : ℚ) * 2 ^ k|) (-1022) with ⟨h1, -⟩ | ⟨h1, -⟩ <;>
        rw [h1] <;> omega
    have hp := two_zpow_pos (ulpExp ((m : ℚ) * 2 ^ k))
    have hdiv : (m : ℚ) * 2 ^ k / 2 ^ ulpExp ((m : ℚ) * 2 ^ k)
        = ((m * (2 : Int) ^ (k - ulpExp ((m : ℚ) * 2 ^ k)).toNat : Int) : ℚ) := by
      rw [mul_div_assoc, two_zpow_div k _ he]
      push_cast
      rfl
    unfold nearest
    rw [hdiv, roundHalfEven_intCast, ← hdiv]
    field_simp

theorem nearest_intCast (n : Int) (h : |n| < 2 ^ 53) : nearest (n : ℚ) = n := by
  have := nearest_of_scaled n 0 h (by norm_num)
  simpa using this

theorem nearest_mono {q₁ q₂ : ℚ} (h0 : 0 ≤ q₁) (h : q₁ ≤ q₂) : nearest q₁ ≤ nearest q₂ := by
  rcases h0.lt_or_eq with hpos | hz
  · have hpos2 : 0 < q₂ := lt_of_lt_of_le hpos h
    have hlog : Int.log 2 |q₁| ≤ Int.log 2 |q₂| := by
      rw [abs_of_pos hpos, abs_of_pos hpos2]
      exact Int.log_mono_right hpos h
    have hle : ulpExp q₁ ≤ ulpExp q₂ := by
      unfold ulpExp
      have := max_le_max hlog (le_refl (-1022 : Int))
      omega
    rcases hle.lt_or_eq with hlt | heq
    · have hfacts : Int.log 2 |q₁| + 1 ≤ Int.log 2 |q₂|
          ∧ ulpExp q₂ = Int.log 2 |q₂| - 52 := by
        have hm1 := le_max_left (Int.log 2 |q₁|) (-1022)
        have hm1' := le_max_right (Int.log 2 |q₁|) (-1022)
        unfold ulpExp at hlt ⊢
        rcases max_cases (Int.log 2 |q₂|) (-1022) with ⟨h2, -⟩ | ⟨h2, -⟩
        · rw [h2] at hlt ⊢
          constructor <;> omega
        · rw [h2] at hlt
          omega
      obtain ⟨hL1, hL2⟩ := hfacts
      have hB2 : (2 : ℚ) ^ Int.log 2 |q₂| ≤ q₂ := by
        have := Int.zpow_log_le_self (R := ℚ) (b := 2) (by norm_num) (abs_pos.2 hpos2.ne')
        rw [abs_of_pos hpos2] at this ⊢
        simpa using this
      have hB1 : q₁ ≤ (2 : ℚ) ^ Int.log 2 |q₂| := by
        have := Int.lt_zpow_succ_log_self (R := ℚ) (b := 2) (by norm_num) |q₁|
        rw [abs_of_pos hpos] at this
        have h2 : (2 : ℚ) ^ (Int.log 2 q₁ + 1) ≤ 2 ^ Int.log 2 |q₂| := by
          rw [abs_of_pos hpos] at hL1
          exact zpow_le_zpow_right₀ (by norm_num) hL1
        have h3 : q₁ < (2 : ℚ) ^ (Int.log 2 q₁ + 1) := by simpa using this
        linarith
      exact (nearest_le_pow (by omega) hB1).trans (pow_le_nearest (by omega) hB2)
    · have hp := two_zpow_pos (ulpExp q₂)
      unfold nearest
      rw [heq]
      have hdiv : q₁ / 2 ^ ulpExp q₂ ≤ q₂ / 2 ^ ulpExp q₂ :=
        div_le_div_of_nonneg_right h hp.le
      have := roundHalfEven_mono hdiv
      exact mul_le_mul_of_nonneg_right (by exact_mod_cast this) hp.le
  · rw [← hz, nearest_zero]
    exact nearest_nonneg (hz ▸ h)

theorem ofRat_of_abs_le {q : ℚ} {K : Int} (h : |q| ≤ 2 ^ K) (hK0 : -1022 ≤ K)
    (hK : K ≤ 1023) : ofRat q = finite (nearest q) := by
  have h1 := abs_nearest_le_pow h hK0
  have h2 : (2 : ℚ) ^ K < 2 ^ (1024 : Nat) := by
    rw [← zpow_natCast]
    exact zpow_lt_zpow_right₀ (by norm_num) (by omega)
  unfold ofRat
  rw [if_pos (lt_of_le_of_lt h1 h2)]

theorem ofRat_intCast (n : Int) (h : |n| < 2 ^ 53) : ofRat (n : ℚ) = finite n := by
  have hq : |(n : ℚ)| ≤ 2 ^ (53 : Int) := by
    have : ((|n| : Int) : ℚ) < ((2 ^ 53 : Int) : ℚ) := by exact_mod_cast h
    rw [Int.cast_abs] at this
    norm_num at this ⊢
    exact this.le
  rw [ofRat_of_abs_le hq (by norm_num) (by norm_num), nearest_intCast n h]

theorem ofInt_eq (n : Int) (h : |n| < 2 ^ 53) : ofInt n = finite n := ofRat_intCast n h

end F64

theorem mathRound_of_near {q : ℚ} {k : Int} (h : |q - k| < 1 / 2) :
    mathRound (.finite q) = .finite k := by
  have ⟨h1, h2⟩ := abs_lt.1 h
  simp only [mathRound]
  by_cases hq : 0 ≤ q
  · rw [if_pos hq]
    have : ⌊q + 1 / 2⌋ = k := by
      rw [Int.floor_eq_iff]
      constructor <;> linarith
    rw [this]
  · rw [if_neg hq]
    have : ⌊-q + 1 / 2⌋ = -k := by
      rw [Int.floor_eq_iff]
      push_cast
      constructor <;> linarith
    rw [this]
    simp

/-- The decoder's time computation is correctly rounded: dividing the integer `n` by `D`
and rounding to `p` decimals yields the binary64 value nearest to `n / D`, as long as the
two intermediate roundings stay within half a unit of `n * t`, where `10 ^ p = t * D`. -/
theorem roundToNearest_div_exact (n : Int) (D M : ℚ) (p t K₁ K₂ : Int)
    (hp : mathPow10 p = .finite M) (hD : 0 < D) (ht : 0 < t) (hM : M = t * D)
    (hn : |n| < 2 ^ 53) (h1 : |(n : ℚ) / D| < 2 ^ K₁) (hK1 : -1021 ≤ K₁) (hK1' : K₁ ≤ 1023)
    (h2 : ((2 : ℚ) ^ K₁ + 2 ^ (K₁ - 54)) * M < 2 ^ K₂) (hK2 : -1021 ≤ K₂) (hK2' : K₂ ≤ 1023)
    (h3 : (2 : ℚ) ^ (K₁ - 54) * M + 2 ^ (K₂ - 54) < 1 / 2) :
    roundToNearest (F64.div (F64.ofInt n) (.finite D)) p = F64.ofRat ((n : ℚ) / D) := by
  have hM0 : 0 < M := by
    rw [hM]
    exact mul_pos (by exact_mod_cast ht) hD
  have ea : |F64.nearest ((n : ℚ) / D) - (n : ℚ) / D| ≤ 2 ^ (K₁ - 54) :=
    F64.abs_nearest_sub_le h1 hK1
  have ha : |F64.nearest ((n : ℚ) / D)| < 2 ^ K₁ + 2 ^ (K₁ - 54) := by
    have := abs_sub_abs_le_abs_sub (F64.nearest ((n : ℚ) / D)) ((n : ℚ) / D)
    linarith
  have haM : |F64.nearest ((n : ℚ) / D) * M| < 2 ^ K₂ := by
    rw [abs_mul, abs_of_pos hM0]
    calc |F64.nearest ((n : ℚ) / D)| * M < ((2 : ℚ) ^ K₁ + 2 ^ (K₁ - 54)) * M :=
          mul_lt_mul_of_pos_right ha hM0
      _ < 2 ^ K₂ := h2
  have eb := F64.abs_nearest_sub_le haM hK2
  have hnear : |F64.nearest (F64.nearest ((n : ℚ) / D) * M) - ((n * t : Int) : ℚ)| < 1 / 2 := by
    have e1 : F64.nearest (F64.nearest ((n : ℚ) / D) * M) - ((n * t : Int) : ℚ)
        = (F64.nearest (F64.nearest ((n : ℚ) / D) * M) - F64.nearest ((n : ℚ) / D) * M)
          + (F64.nearest ((n : ℚ) / D) - (n : ℚ) / D) * M := by
      rw [hM]
      push_cast
      field_simp
      ring
    rw [e1]
    have e2 : |(F64.nearest ((n : ℚ) / D) - (n : ℚ) / D) * M| ≤ 2 ^ (K₁ - 54) * M := by
      rw [abs_mul, abs_of_pos hM0]
      exact mul_le_mul_of_nonneg_right ea hM0.le
    have := abs_add (F64.nearest (F64.nearest ((n : ℚ) / D) * M) - F64.nearest ((n : ℚ) / D) * M)
      ((F64.nearest ((n : ℚ) / D) - (n : ℚ) / D) * M)
    linarith
  have s1 : F64.ofInt n = .finite n := F64.ofInt_eq n hn
  have s2 : F64.ofRat ((n : ℚ) / D) = .finite (F64.nearest ((n : ℚ) / D)) :=
    F64.ofRat_of_abs_le h1.le (by omega) hK1'
  have s3 : F64.ofRat (F64.nearest ((n : ℚ) / D) * M)
      = .finite (F64.nearest (F64.nearest ((n : ℚ) / D) * M)) :=
    F64.ofRat_of_abs_le haM.le (by omega) hK2'
  have s5 : ((n * t : Int) : ℚ) / M = (n : ℚ) / D := by
    rw [hM]
    push_cast
    have ht : (t : ℚ) ≠ 0 := by
      intro h0
      rw [h0, zero_mul] at hM
      exact hM0.ne' hM
    field_simp
    ring
  unfold roundToNearest
  simp only [hp, s1, F64.div, hD.ne', if_false, s2, F64.mul, s3, mathRound_of_near hnear,
    hM0.ne', s5]

theorem mathPow10_four : mathPow10 4 = .finite 10000 := by
  unfold mathPow10
  norm_num

theorem mathPow10_two : mathPow10 2 = .finite 100 := by
  unfold mathPow10
  norm_num

theorem abs_intCast_div_lt {n : Int} {N : Nat} (h : |n| < 2 ^ N) {D B : ℚ} (hD : 0 < D)
    (hB : (2 : ℚ) ^ N ≤ B * D) : |(n : ℚ) / D| < B := by
  have hq : |(n : ℚ)| < 2 ^ N := by
    have : ((|n| : Int) : ℚ) < ((2 ^ N : Int) : ℚ) := by exact_mod_cast h
    rw [Int.cast_abs] at this
    push_cast at this
    exact this
  rw [abs_div, abs_of_pos hD, div_lt_iff₀ hD]
  linarith

/-- A 32-bit tick count divided by 10000 and rounded to 4 decimals is the binary64 value
nearest to the quotient. -/
theorem roundToNearest_time (k : Int) (h : |k| ≤ 2 ^ 31) :
    roundToNearest (F64.div (F64.ofInt k) (.finite 10000)) 4 = F64.ofRat ((k : ℚ) / 10000) := by
  have h32 : |k| < 2 ^ 32 := lt_of_le_of_lt h (by norm_num)
  refine roundToNearest_div_exact k 10000 10000 4 1 19 33 mathPow10_four (by norm_num)
    (by norm_num) (by norm_num) (lt_trans h32 (by norm_num)) ?_ (by norm_num) (by norm_num)
    ?_ (by norm_num) (by norm_num) ?_
  · exact abs_intCast_div_lt h32 (by norm_num) (by norm_num)
  · norm_num
  · norm_num

/-- The same for an unsigned 64-bit tick count below `2 ^ 51`. -/
theorem roundToNearest_overallTime (u : Nat) (h : u < 2 ^ 51) :
    roundToNearest (F64.div (F64.ofInt u) (.finite 10000)) 4 = F64.ofRat ((u : ℚ) / 10000) := by
  have hu : |(u : Int)| < 2 ^ 51 := by
    rw [abs_of_nonneg (Int.natCast_nonneg u)]
    exact_mod_cast h
  have := roundToNearest_div_exact u 10000 10000 4 1 38 52 mathPow10_four (by norm_num)
    (by norm_num) (by norm_num) (lt_trans hu (by norm_num))
    (abs_intCast_div_lt hu (by norm_num) (by norm_num)) (by norm_num) (by norm_num)
    (by norm_num) (by norm_num) (by norm_num) (by norm_num)
  simpa using this

/-- The same for a count of milliseconds below `2 ^ 47`, divided by 1000. -/
theorem roundToNearest_millis (u : Nat) (h : u < 2 ^ 47) :
    roundToNearest (F64.div (F64.ofInt u) (.finite 1000)) 4 = F64.ofRat ((u : ℚ) / 1000) := by
  have hu : |(u : Int)| < 2 ^ 47 := by
    rw [abs_of_nonneg (Int.natCast_nonneg u)]
    exact_mod_cast h
  have := roundToNearest_div_exact u 1000 10000 4 10 38 52 mathPow10_four (by norm_num)
    (by norm_num) (by norm_num) (lt_trans hu (by norm_num))
    (abs_intCast_div_lt hu (by norm_num) (by norm_num)) (by norm_num) (by norm_num)
    (by norm_num) (by norm_num) (by norm_num) (by norm_num)
  simpa using this

theorem F64.ofInt_eq_nearest (n : Int) (h : |n| ≤ 2 ^ 64) :
    F64.ofInt n = .finite (F64.nearest n) := by
  have hq : |(n : ℚ)| ≤ 2 ^ (64 : Int) := by
    have : ((|n| : Int) : ℚ) ≤ ((2 ^ 64 : Int) : ℚ) := by exact_mod_cast h
    rw [Int.cast_abs] at this
    norm_num at this ⊢
    exact this
  exact F64.ofRat_of_abs_le hq (by norm_num) (by norm_num)

theorem F64.abs_nearest_intCast_le (n : Int) (h : |n| ≤ 2 ^ 64) :
    |F64.nearest (n : ℚ)| ≤ 2 ^ (64 : Int) := by
  have hq : |(n : ℚ)| ≤ 2 ^ (64 : Int) := by
    have : ((|n| : Int) : ℚ) ≤ ((2 ^ 64 : Int) : ℚ) := by exact_mod_cast h
    rw [Int.cast_abs] at this
    norm_num at this ⊢
    exact this
  exact F64.abs_nearest_le_pow hq (by norm_num)

theorem F64.one_le_nearest_intCast {n : Int} (h : 1 ≤ n) : 1 ≤ F64.nearest (n : ℚ) := by
  have h1 : F64.nearest ((1 : Int) : ℚ) = ((1 : Int) : ℚ) := F64.nearest_intCast 1 (by norm_num)
  have h2 : ((1 : Int) : ℚ) ≤ (n : ℚ) := by exact_mod_cast h
  have := F64.nearest_mono (by norm_num) h2
  rw [h1] at this
  simpa using this

theorem F64.ofRat_within {q : ℚ} {c : Int} (h0 : 0 ≤ q) (h : q ≤ c) (hc : |c| < 2 ^ 53) :
    F64.within 0 c (F64.ofRat q) := by
  have hc0 : (0 : ℚ) ≤ c := h0.trans h
  have h1 := F64.nearest_mono h0 h
  rw [F64.nearest_intCast c hc] at h1
  have h2 := F64.nearest_nonneg h0
  have hq : |q| ≤ 2 ^ (53 : Int) := by
    rw [abs_of_nonneg h0]
    have : ((|c| : Int) : ℚ) < ((2 ^ 53 : Int) : ℚ) := by exact_mod_cast hc
    rw [Int.cast_abs, abs_of_nonneg hc0] at this
    norm_num at this ⊢
    linarith
  rw [F64.ofRat_of_abs_le hq (by norm_num) (by norm_num)]
  exact ⟨h2, h1⟩

theorem mathRound_within {q : ℚ} {N : Int} (h0 : 0 ≤ q) (h : q ≤ N) :
    ∃ d : Int, mathRound (.finite q) = .finite d ∧ 0 ≤ d ∧ d ≤ N := by
  refine ⟨⌊q + 1 / 2⌋, ?_, ?_, ?_⟩
  · simp only [mathRound]
    rw [if_pos h0]
  · exact Int.floor_nonneg.2 (by linarith)
  · have : ⌊q + 1 / 2⌋ < N + 1 := by
      rw [Int.floor_lt]
      push_cast
      linarith
    omega

theorem roundToNearest_within {q : ℚ} (h0 : 0 ≤ q) (h1 : q ≤ 100) :
    F64.within 0 100 (roundToNearest (.finite q) 2) := by
  have hw := F64.ofRat_within (q := q * 100) (c := 10000) (by positivity)
    (by push_cast; linarith) (by norm_num)
  unfold roundToNearest
  rw [mathPow10_two]
  simp only [F64.mul]
  cases hr : F64.ofRat (q * 100) with
  | nonFinite => rw [hr] at hw; exact hw.elim
  | finite r =>
    rw [hr] at hw
    obtain ⟨d, hd, hd0, hd1⟩ := mathRound_within (N := 10000) hw.1 (by simpa using hw.2)
    rw [hd]
    simp only [F64.div, show (100 : ℚ) ≠ 0 by norm_num, if_false]
    have := F64.ofRat_within (q := (d : ℚ) / 100) (c := 100)
      (div_nonneg (by exact_mod_cast hd0) (by norm_num))
      (by
        have : (d : ℚ) ≤ 10000 := by exact_mod_cast hd1
        push_cast
        linarith)
      (by norm_num)
    simpa using this

theorem ratio_within (hit fired : Int) (hf : fired ≤ 2 ^ 64) (h0 : 0 ≤ hit) (h1 : hit ≤ fired)
    (hpos : 0 < fired) :
    F64.within 0 1 (F64.div (F64.ofInt hit) (F64.ofInt fired)) := by
  have ahit : |hit| ≤ 2 ^ 64 := by rw [abs_of_nonneg h0]; omega
  have afired : |fired| ≤ 2 ^ 64 := by rw [abs_of_nonneg (by omega)]; exact hf
  have hq0 : (0 : ℚ) ≤ (hit : ℚ) := by exact_mod_cast h0
  have hq1 : (hit : ℚ) ≤ (fired : ℚ) := by exact_mod_cast h1
  have ha := F64.nearest_nonneg hq0
  have hab := F64.nearest_mono hq0 hq1
  have hb := F64.one_le_nearest_intCast (show 1 ≤ fired by omega)
  rw [F64.ofInt_eq_nearest hit ahit, F64.ofInt_eq_nearest fired afired]
  simp only [F64.div, show F64.nearest (fired : ℚ) ≠ 0 by linarith, if_false]
  have := F64.ofRat_within (q := F64.nearest hit / F64.nearest fired) (c := 1)
    (div_nonneg ha (by linarith))
    (by
      rw [div_le_iff₀ (by linarith)]
      push_cast
      linarith)
    (by norm_num)
  simpa using this

theorem percentage_within (hit fired : Int) (hf : fired ≤ 2 ^ 64)
    (h : fired ≤ 0 ∨ (0 ≤ hit ∧ hit ≤ fired)) : F64.within 0 100 (percentage hit fired) := by
  unfold percentage
  by_cases hpos : fired > 0
  · rw [if_pos hpos]
    rcases h with h | ⟨h0, h1⟩
    · omega
    · have hr := ratio_within hit fired hf h0 h1 hpos
      cases hd : F64.div (F64.ofInt hit) (F64.ofInt fired) with
      | nonFinite => rw [hd] at hr; exact hr.elim
      | finite a =>
        rw [hd] at hr
        simp only [F64.mul]
        have hw := F64.ofRat_within (q := a * 100) (c := 100)
          (mul_nonneg hr.1 (by norm_num)) (by push_cast; linarith [hr.2]) (by norm_num)
        cases hm : F64.ofRat (a * 100) with
        | nonFinite => rw [hm] at hw; exact hw.elim
        | finite r =>
          rw [hm] at hw
          exact roundToNearest_within hw.1 (by simpa using hw.2)
  · rw [if_neg hpos]
    exact ⟨le_refl _, by norm_num⟩

theorem F64.ofRat_bounded {q : ℚ} {K : Int} (h : |q| ≤ 2 ^ K) (hK0 : -1022 ≤ K)
    (hK : K ≤ 1023) : ∃ r, F64.ofRat q = .finite r ∧ |r| ≤ 2 ^ K :=
  ⟨_, F64.ofRat_of_abs_le h hK0 hK, F64.abs_nearest_le_pow h hK0⟩

theorem mathRound_bounded {q : ℚ} {K : Int} (h : |q| ≤ 2 ^ K) (hK : 0 ≤ K) :
    ∃ r, mathRound (.finite q) = .finite r ∧ |r| ≤ 2 ^ (K + 1) := by
  have h1 : (1 : ℚ) ≤ 2 ^ K := one_le_zpow₀ (by norm_num) hK
  have h2 : (2 : ℚ) ^ (K + 1) = 2 ^ K * 2 := by
    rw [zpow_add₀ (by norm_num : (2 : ℚ) ≠ 0), zpow_one]
  have ⟨hl, hu⟩ := abs_le.1 h
  simp only [mathRound]
  by_cases hq : 0 ≤ q
  · rw [if_pos hq]
    refine ⟨_, rfl, ?_⟩
    have f1 := Int.floor_le (q + 1 / 2)
    have f2 : (0 : ℚ) ≤ (⌊q + 1 / 2⌋ : ℚ) := by
      exact_mod_cast Int.floor_nonneg.2 (by linarith : (0 : ℚ) ≤ q + 1 / 2)
    rw [abs_of_nonneg f2, h2]
    linarith
  · rw [if_neg hq]
    refine ⟨_, rfl, ?_⟩
    have f1 := Int.floor_le (-q + 1 / 2)
    have f2 : (0 : ℚ) ≤ (⌊-q + 1 / 2⌋ : ℚ) := by
      exact_mod_cast Int.floor_nonneg.2 (by linarith : (0 : ℚ) ≤ -q + 1 / 2)
    rw [abs_neg, abs_of_nonneg f2, h2]
    linarith

theorem roundToNearest_finite {q M : ℚ} {K n : Int} (hp : mathPow10 n = .finite M)
    (hM1 : 1 ≤ M) (hM : M ≤ 2 ^ (14 : Int)) (h : |q| ≤ 2 ^ K) (hK : 0 ≤ K) (hK' : K ≤ 1000) :
    (roundToNearest (.finite q) n).isFinite = true := by
  have hqM : |q * M| ≤ 2 ^ (K + 14) := by
    rw [abs_mul, abs_of_pos (by linarith : (0 : ℚ) < M),
      zpow_add₀ (by norm_num : (2 : ℚ) ≠ 0)]
    exact mul_le_mul h hM (by linarith) (F64.two_zpow_pos K).le
  obtain ⟨r, hr, hrb⟩ := F64.ofRat_bounded hqM (by omega) (by omega)
  obtain ⟨d, hd, hdb⟩ := mathRound_bounded hrb (by omega)
  have hdM : |d / M| ≤ 2 ^ (K + 14 + 1) := by
    rw [abs_div, abs_of_pos (by linarith : (0 : ℚ) < M)]
    exact (div_le_self (abs_nonneg d) hM1).trans hdb
  obtain ⟨e, he, -⟩ := F64.ofRat_bounded hdM (by omega) (by omega)
  unfold roundToNearest
  simp only [hp, F64.mul, hr, hd, F64.div, show M ≠ 0 by linarith, if_false, he, F64.isFinite]

theorem quotient_bounded (hit fired : Int) (hh : |hit| ≤ 2 ^ 64) (hf : |fired| ≤ 2 ^ 64)
    (hpos : 0 < fired) :
    ∃ r, F64.div (F64.ofInt hit) (F64.ofInt fired) = .finite r ∧ |r| ≤ 2 ^ (64 : Int) := by
  have ha := F64.abs_nearest_intCast_le hit hh
  have hb := F64.one_le_nearest_intCast (show 1 ≤ fired by omega)
  have hq : |F64.nearest (hit : ℚ) / F64.nearest (fired : ℚ)| ≤ 2 ^ (64 : Int) := by
    rw [abs_div, abs_of_pos (by linarith : (0 : ℚ) < F64.nearest (fired : ℚ))]
    exact (div_le_self (abs_nonneg _) hb).trans ha
  obtain ⟨r, hr, hrb⟩ := F64.ofRat_bounded hq (by norm_num) (by norm_num)
  refine ⟨r, ?_, hrb⟩
  rw [F64.ofInt_eq_nearest hit hh, F64.ofInt_eq_nearest fired hf]
  simp only [F64.div, show F64.nearest (fired : ℚ) ≠ 0 by linarith, if_false, hr]

theorem percent_finite (hit fired : Int) (hh : |hit| ≤ 2 ^ 64) (hf : |fired| ≤ 2 ^ 64)
    (hpos : 0 < fired) :
    (roundToNearest (F64.mul (F64.div (F64.ofInt hit) (F64.ofInt fired)) (.finite 100)) 2).isFinite
      = true := by
  obtain ⟨r, hr, hrb⟩ := quotient_bounded hit fired hh hf hpos
  have hm : |r * 100| ≤ 2 ^ (71 : Int) := by
    rw [abs_mul, show |(100 : ℚ)| = 100 by norm_num]
    have : (2 : ℚ) ^ (71 : Int) = 2 ^ (64 : Int) * 128 := by norm_num
    rw [this]
    exact mul_le_mul hrb (by norm_num) (by norm_num) (by norm_num)
  obtain ⟨x, hx, hxb⟩ := F64.ofRat_bounded hm (by norm_num) (by norm_num)
  rw [hr]
  simp only [F64.mul, hx]
  exact roundToNearest_finite mathPow10_two (by norm_num) (by norm_num) hxb (by norm_num)
    (by norm_num)

theorem time_finite (n : Int) (D : ℚ) (hn : |n| ≤ 2 ^ 64) (hD : 1 ≤ D) :
    (roundToNearest (F64.div (F64.ofInt n) (.finite D)) 4).isFinite = true := by
  have ha := F64.abs_nearest_intCast_le n hn
  have hq : |F64.nearest (n : ℚ) / D| ≤ 2 ^ (64 : Int) := by
    rw [abs_div, abs_of_pos (by linarith : (0 : ℚ) < D)]
    exact (div_le_self (abs_nonneg _) hD).trans ha
  obtain ⟨r, hr, hrb⟩ := F64.ofRat_bounded hq (by norm_num) (by norm_num)
  rw [F64.ofInt_eq_nearest n hn]
  simp only [F64.div, show D ≠ 0 by linarith, if_false, hr]
  exact roundToNearest_finite mathPow10_four (by norm_num) (by norm_num) hrb (by norm_num)
    (by norm_num)

theorem F64.ulpExp_eq {q : ℚ} {E : Int} (h1 : 2 ^ E ≤ |q|) (h2 : |q| < 2 ^ (E + 1))
    (hE : -1022 ≤ E) : F64.ulpExp q = E - 52 := by
  have hq : 0 < |q| := lt_of_lt_of_le (F64.two_zpow_pos E) h1
  have l1 : E ≤ Int.log 2 |q| :=
    (Int.zpow_le_iff_le_log (R := ℚ) (b := 2) (by norm_num) hq).1 (by simpa using h1)
  have l2 : Int.log 2 |q| < E + 1 :=
    (Int.lt_zpow_iff_log_lt (R := ℚ) (b := 2) (by norm_num) hq).1 (by simpa using h2)
  unfold F64.ulpExp
  rw [max_eq_left (by omega)]
  omega

theorem F64.roundHalfEven_of_near {x : ℚ} {m : Int} (h : |x - m| < 1 / 2) :
    F64.roundHalfEven x = m := by
  have h1 := F64.abs_roundHalfEven_sub x
  have h2 : |(F64.roundHalfEven x : ℚ) - m| < 1 := by
    have := abs_sub_le (F64.roundHalfEven x : ℚ) x m
    linarith
  have h3 : |F64.roundHalfEven x - m| < 1 := by
    have : ((|F64.roundHalfEven x - m| : Int) : ℚ) < ((1 : Int) : ℚ) := by
      rw [Int.cast_abs]
      push_cast
      exact h2
    exact_mod_cast this
  have := Int.abs_lt_one_iff.1 h3
  omega

/-- Evaluation of `F64.ofRat`: in the binade `[2 ^ E, 2 ^ (E + 1))` the result is
`m * 2 ^ (E - 52)` for the integer `m` that lies less than one half away from the scaled
argument. -/
theorem F64.ofRat_eq_of {q : ℚ} {E m : Int} (h1 : 2 ^ E ≤ |q|) (h2 : |q| < 2 ^ (E + 1))
    (hE : -1022 ≤ E) (hE' : E ≤ 1022) (hm : |q / 2 ^ (E - 52) - m| < 1 / 2) :
    F64.ofRat q = .finite ((m : ℚ) * 2 ^ (E - 52)) := by
  have he := F64.ulpExp_eq h1 h2 hE
  rw [F64.ofRat_of_abs_le h2.le (by omega) (by omega)]
  unfold F64.nearest
  rw [he, F64.roundHalfEven_of_near hm]

theorem F64.abs_nearest_sub_rel {q : ℚ} (h : (2 : ℚ) ^ (-1022 : Int) ≤ |q|) :
    |F64.nearest q - q| ≤ |q| / 2 ^ 53 := by
  have hq : 0 < |q| := lt_of_lt_of_le (F64.two_zpow_pos _) h
  have l1 : -1022 ≤ Int.log 2 |q| :=
    (Int.zpow_le_iff_le_log (R := ℚ) (b := 2) (by norm_num) hq).1 (by simpa using h)
  have l2 : (2 : ℚ) ^ Int.log 2 |q| ≤ |q| := by
    have := Int.zpow_log_le_self (R := ℚ) (b := 2) (by norm_num) hq
    simpa using this
  have he : F64.ulpExp q = Int.log 2 |q| - 52 := by
    unfold F64.ulpExp
    rw [max_eq_left l1]
  have h1 := F64.abs_nearest_sub q
  have h2 : (2 : ℚ) ^ F64.ulpExp q / 2 = 2 ^ Int.log 2 |q| / 2 ^ 53 := by
    rw [he, zpow_sub₀ (by norm_num : (2 : ℚ) ≠ 0)]
    norm_num
    ring
  rw [h2] at h1
  exact h1.trans (div_le_div_of_nonneg_right l2 (by norm_num))

theorem F64.abs_nearest_sub_rel_of_one_le {q : ℚ} (h : 1 ≤ q) :
    |F64.nearest q - q| ≤ q / 2 ^ 53 := by
  have h0 : (2 : ℚ) ^ (-1022 : Int) ≤ 1 := zpow_le_one_of_nonpos₀ (by norm_num) (by norm_num)
  have hq : |q| = q := abs_of_pos (by linarith)
  have := F64.abs_nearest_sub_rel (q := q) (by rw [hq]; linarith)
  rwa [hq] at this

theorem mathRound_abs_sub (q : ℚ) : ∃ r, mathRound (.finite q) = .finite r ∧ |r - q| ≤ 1 / 2 := by
  simp only [mathRound]
  by_cases hq : 0 ≤ q
  · rw [if_pos hq]
    refine ⟨_, rfl, ?_⟩
    have f1 := Int.floor_le (q + 1 / 2)
    have f2 := Int.lt_floor_add_one (q + 1 / 2)
    rw [abs_le]
    constructor <;> linarith
  · rw [if_neg hq]
    refine ⟨_, rfl, ?_⟩
    have f1 := Int.floor_le (-q + 1 / 2)
    have f2 := Int.lt_floor_add_one (-q + 1 / 2)
    rw [abs_le]
    constructor <;> linarith

/-- For every unsigned 64-bit tick count the decoder's time is within a relative error of
`2 ^ (-50)` of the quotient by 10000. -/
theorem roundToNearest_overallTime_close (u : Nat) (h : u < 2 ^ 64) :
    ∃ r, roundToNearest (F64.div (F64.ofInt u) (.finite 10000)) 4 = .finite r
      ∧ |r - (u : ℚ) / 10000| ≤ (u : ℚ) / 10000 / 2 ^ 50 := by
  have hu0 : (0 : ℚ) ≤ (u : ℚ) := Nat.cast_nonneg u
  have hq0 : (0 : ℚ) ≤ (u : ℚ) / 10000 := div_nonneg hu0 (by norm_num)
  by_cases hs : u < 2 ^ 51
  · rw [roundToNearest_overallTime u hs]
    have hub : (u : ℚ) < 2251799813685248 := by exact_mod_cast hs
    have hq : |(u : ℚ) / 10000| ≤ 2 ^ (51 : Int) := by
      rw [abs_of_nonneg hq0]
      norm_num
      linarith
    rw [F64.ofRat_of_abs_le hq (by norm_num) (by norm_num)]
    refine ⟨_, rfl, ?_⟩
    rcases Nat.eq_zero_or_pos u with h0 | hpos
    · subst h0
      simp [F64.nearest_zero]
    · have h1 : (1 : ℚ) ≤ (u : ℚ) := by exact_mod_cast hpos
      have hsmall : (2 : ℚ) ^ (-1022 : Int) ≤ 2 ^ (-14 : Int) :=
        zpow_le_zpow_right₀ (by norm_num) (by norm_num)
      have h14 : (2 : ℚ) ^ (-14 : Int) ≤ (u : ℚ) / 10000 := by
        norm_num
        linarith
      have hqa : |(u : ℚ) / 10000| = (u : ℚ) / 10000 := abs_of_nonneg hq0
      have := F64.abs_nearest_sub_rel (q := (u : ℚ) / 10000) (by rw [hqa]; linarith)
      rw [hqa] at this
      have h2 : (u : ℚ) / 10000 / 2 ^ 53 ≤ (u : ℚ) / 10000 / 2 ^ 50 :=
        div_le_div_of_nonneg_left hq0 (by norm_num) (by norm_num)
      exact this.trans h2
  · have hl : (2251799813685248 : ℚ) ≤ (u : ℚ) := by exact_mod_cast (not_lt.1 hs)
    have hub : (u : ℚ) < 18446744073709551616 := by exact_mod_cast h
    have habs : |((u : Int))| ≤ 2 ^ 64 := by
      rw [abs_of_nonneg (Int.natCast_nonneg u)]
      exact_mod_cast h.le
    -- U
    have hU := F64.abs_nearest_sub_rel_of_one_le (q := (u : ℚ)) (by linarith)
    have hU0 := F64.nearest_nonneg (q := (u : ℚ)) hu0
    obtain ⟨hU1, hU2⟩ := abs_le.1 hU
    norm_num at hU1 hU2
    -- a
    have ha0' : (0 : ℚ) ≤ F64.nearest (u : ℚ) / 10000 := div_nonneg hU0 (by norm_num)
    have ha := F64.abs_nearest_sub_rel_of_one_le (q := F64.nearest (u : ℚ) / 10000)
      (by linarith)
    have ha0 := F64.nearest_nonneg ha0'
    obtain ⟨ha1, ha2⟩ := abs_le.1 ha
    norm_num at ha1 ha2
    -- b
    have hb0' : (0 : ℚ) ≤ F64.nearest (F64.nearest (u : ℚ) / 10000) * 10000 :=
      mul_nonneg ha0 (by norm_num)
    have hb := F64.abs_nearest_sub_rel_of_one_le
      (q := F64.nearest (F64.nearest (u : ℚ) / 10000) * 10000) (by linarith)
    have hb0 := F64.nearest_nonneg hb0'
    obtain ⟨hb1, hb2⟩ := abs_le.1 hb
    norm_num at hb1 hb2
    -- c
    obtain ⟨c, hc, hcb⟩ := mathRound_abs_sub
      (F64.nearest (F64.nearest (F64.nearest (u : ℚ) / 10000) * 10000))
    obtain ⟨hc1, hc2⟩ := abs_le.1 hcb
    have hc0 : 0 ≤ c := by linarith
    -- d
    have hd := F64.abs_nearest_sub_rel_of_one_le (q := c / 10000) (by linarith)
    obtain ⟨hd1, hd2⟩ := abs_le.1 hd
    norm_num at hd1 hd2
    -- finiteness
    have fa : |F64.nearest (u : ℚ) / 10000| ≤ 2 ^ (65 : Int) := by
      rw [abs_of_nonneg ha0']
      norm_num
      linarith
    have fb : |F64.nearest (F64.nearest (u : ℚ) / 10000) * 10000| ≤ 2 ^ (66 : Int) := by
      rw [abs_of_nonneg hb0']
      norm_num
      linarith
    have fd : |c / 10000| ≤ 2 ^ (67 : Int) := by
      rw [abs_of_nonneg (div_nonneg hc0 (by norm_num))]
      norm_num
      linarith
    refine ⟨F64.nearest (c / 10000), ?_, ?_⟩
    · unfold roundToNearest
      rw [mathPow10_four, F64.ofInt_eq_nearest u habs]
      simp only [F64.div, F64.mul, show (10000 : ℚ) ≠ 0 by norm_num, if_false,
        F64.ofRat_of_abs_le fa (by norm_num) (by norm_num),
        F64.ofRat_of_abs_le fb (by norm_num) (by norm_num), hc,
        F64.ofRat_of_abs_le fd (by norm_num) (by norm_num), Int.cast_natCast]
    · rw [abs_le]
      norm_num
      constructor <;> linarith

theorem rawTicks_ofRat (n : Int) (scale : Nat) (K : Int) (hs : 0 < scale)
    (h : |(n : ℚ) / scale| < 2 ^ K) (hK : -1021 ≤ K) (hK' : K ≤ 1023)
    (he : (2 : ℚ) ^ (K - 54) * scale < 1 / 2) :
    rawTicks (F64.ofRat ((n : ℚ) / scale)) scale = n := by
  have hs' : (0 : ℚ) < (scale : ℚ) := by exact_mod_cast hs
  have e := F64.abs_nearest_sub_le h hK
  rw [F64.ofRat_of_abs_le h.le (by omega) hK']
  simp only [rawTicks]
  have hd : |F64.nearest ((n : ℚ) / scale) * scale - n| < 1 / 2 := by
    have : F64.nearest ((n : ℚ) / scale) * scale - n
        = (F64.nearest ((n : ℚ) / scale) - (n : ℚ) / scale) * scale := by
      field_simp
    rw [this, abs_mul, abs_of_pos hs']
    exact lt_of_le_of_lt (mul_le_mul_of_nonneg_right e hs'.le) he
  obtain ⟨h1, h2⟩ := abs_lt.1 hd
  rw [round_eq, Int.floor_eq_iff]
  constructor <;> linarith

theorem rawTicks_time (k : Int) (h : |k| ≤ 2 ^ 31) :
    rawTicks (F64.ofRat ((k : ℚ) / 10000)) 10000 = k := by
  have h32 : |k| < 2 ^ 32 := lt_of_le_of_lt h (by norm_num)
  have := rawTicks_ofRat k 10000 19 (by norm_num)
    (by
      have := abs_intCast_div_lt h32 (D := 10000) (B := 2 ^ (19 : Int)) (by norm_num)
        (by norm_num)
      simpa using this)
    (by norm_num) (by norm_num) (by norm_num)
  simpa using this

theorem rawTicks_overallTime (u : Nat) (h : u < 2 ^ 51) :
    rawTicks (F64.ofRat ((u : ℚ) / 10000)) 10000 = u := by
  have hu : |(u : Int)| < 2 ^ 51 := by
    rw [abs_of_nonneg (Int.natCast_nonneg u)]
    exact_mod_cast h
  have := rawTicks_ofRat u 10000 38 (by norm_num)
    (by
      have := abs_intCast_div_lt hu (D := 10000) (B := 2 ^ (38 : Int)) (by norm_num)
        (by norm_num)
      simpa using this)
    (by norm_num) (by norm_num) (by norm_num)
  simpa using this

theorem rawTicks_millis (u : Nat) (h : u < 2 ^ 47) :
    rawTicks (F64.ofRat ((u : ℚ) / 1000)) 1000 = u := by
  have hu : |(u : Int)| < 2 ^ 47 := by
    rw [abs_of_nonneg (Int.natCast_nonneg u)]
    exact_mod_cast h
  have := rawTicks_ofRat u 1000 38 (by norm_num)
    (by
      have := abs_intCast_div_lt hu (D := 1000) (B := 2 ^ (38 : Int)) (by norm_num)
        (by norm_num)
      simpa using this)
    (by norm_num) (by norm_num) (by norm_num)
  simpa using this

theorem F64.ofRat_of_scaled (m k : Int) (hm : |m| < 2 ^ 53) (hk : -1074 ≤ k) (hk' : k ≤ 970) :
    F64.ofRat ((m : ℚ) * 2 ^ k) = .finite ((m : ℚ) * 2 ^ k) := by
  have hpk := F64.two_zpow_pos k
  have hq : |(m : ℚ) * 2 ^ k| ≤ 2 ^ (53 + k) := by
    rw [abs_mul, abs_of_pos hpk, zpow_add₀ (by norm_num : (2 : ℚ) ≠ 0)]
    have : |(m : ℚ)| ≤ 2 ^ (53 : Int) := by
      have : ((|m| : Int) : ℚ) < ((2 ^ 53 : Int) : ℚ) := by exact_mod_cast hm
      rw [Int.cast_abs] at this
      norm_num at this ⊢
      exact this.le
    exact mul_le_mul_of_nonneg_right this hpk.le
  rw [F64.ofRat_of_abs_le hq (by omega) (by omega), F64.nearest_of_scaled m k hm hk]

/-- Evaluation of the decoder's accuracy: `q` is the rounded quotient, `r` its rounded
product with 100, and `c` the integer that `math.Round` finds after the second product
with 100. -/
theorem percentage_eq_of (hit fired c : Int) (q r s : ℚ) (hf : 0 < fired)
    (hh : |hit| < 2 ^ 53) (hfi : |fired| < 2 ^ 53)
    (h1 : F64.ofRat ((hit : ℚ) / fired) = .finite q) (h2 : F64.ofRat (q * 100) = .finite r)
    (h3 : F64.ofRat (r * 100) = .finite s) (h4 : |s - c| < 1 / 2) :
    percentage hit fired = F64.ofRat ((c : ℚ) / 100) := by
  have hf' : (fired : ℚ) ≠ 0 := by
    have : fired ≠ 0 := by omega
    exact_mod_cast this
  unfold percentage roundToNearest
  rw [if_pos hf, mathPow10_two, F64.ofInt_eq hit hh, F64.ofInt_eq fired hfi]
  simp only [F64.div, F64.mul, hf', show (100 : ℚ) ≠ 0 by norm_num, if_false, h1, h2, h3,
    mathRound_of_near h4]

theorem abs_le_of_inInt32 {i : Int} (h : InInt32 i) : |i| ≤ 2 ^ 31 :=
  abs_le.2 ⟨h.1, h.2.le⟩

theorem leUint_lt (bs : List Byte) : leUint bs < 256 ^ bs.length := by
  induction bs with
  | nil => simp [leUint]
  | cons x xs ih =>
    have hx := x.isLt
    simp only [leUint, List.foldr_cons, List.length_cons] at ih ⊢
    rw [pow_succ]
    omega

theorem uintAt_lt (b : List Byte) (off : Int) (w : Nat) : uintAt b off w < 256 ^ w := by
  have h1 := leUint_lt (field b off w)
  have h2 : (field b off w).length ≤ w := by
    unfold field
    exact List.length_take_le _ _
  exact lt_of_lt_of_le h1 (Nat.pow_le_pow_right (by norm_num) h2)

theorem intAt_four_abs (b : List Byte) (off : Int) : |intAt b off 4| ≤ 2 ^ 31 := by
  have h := uintAt_lt b off 4
  unfold intAt toSigned
  norm_num at h ⊢
  rw [abs_le]
  split <;> omega

theorem uintAt_eight_abs (b : List Byte) (off : Int) : |((uintAt b off 8 : Nat) : Int)| ≤ 2 ^ 64 := by
  have h := uintAt_lt b off 8
  rw [abs_of_nonneg (Int.natCast_nonneg _)]
  norm_num at h ⊢
  omega

/-! ## `BytesToPlayer`: what it returns, and when -/

theorem toInt16_eq_intAt {b : List Byte} {k : Int} (h0 : 0 ≤ k)
    (h1 : k + 2 ≤ (b.length : Int)) : toInt16 b k = .ok (intAt b k 2) :=
  toInt16_ok h0 h1

theorem toInt32_eq_intAt {b : List Byte} {k : Int} (h0 : 0 ≤ k)
    (h1 : k + 4 ≤ (b.length : Int)) : toInt32 b k = .ok (intAt b k 4) :=
  toInt32_ok h0 h1

theorem toUint64_eq_uintAt {b : List Byte} {k : Int} (h0 : 0 ≤ k)
    (h1 : k + 8 ≤ (b.length : Int)) : toUint64 b k = .ok (uintAt b k 8) :=
  toUint64_ok h0 h1

theorem slice_name {b : List Byte} {o L : Int} (h0 : 0 ≤ o) (hL : 0 ≤ L)
    (h1 : o + 2 + L ≤ (b.length : Int)) :
    slice b (o + 2) (o + 2 + L) = .ok (field b (o + 2) L.toNat) := by
  rw [slice_eq_ok (by omega) (by omega) h1]
  congr 2
  omega

theorem BytesToPlayer_zero_id (b : List Byte) (o : Int) (h0 : 0 ≤ o)
    (hL : 0 ≤ intAt b o 2) (hlen : o + 2 + intAt b o 2 + 12 ≤ (b.length : Int))
    (hid : uintAt b (o + 2 + intAt b o 2 + 4) 8 = 0) :
    BytesToPlayer b o = .ok (none, some .ErrPlayerNotFound) := by
  have e1 := toInt16_eq_intAt (b := b) h0 (by omega)
  have e2 := slice_name (b := b) h0 hL (by omega)
  have e3 := toUint64_eq_uintAt (b := b) (k := o + 2 + intAt b o 2 + 4) (by omega) (by omega)
  simp only [BytesToPlayer, e1, e2, e3, hid, bind, Except.bind, pure, Except.pure, if_true]

theorem BytesToPlayer_complete (b : List Byte) (o : Int) (h0 : 0 ≤ o)
    (hL : 0 ≤ intAt b o 2) (hlen : o + 2 + intAt b o 2 + 84 ≤ (b.length : Int))
    (hid : uintAt b (o + 2 + intAt b o 2 + 4) 8 ≠ 0) :
    BytesToPlayer b o =
      match indexDeathTypes (intAt b (o + 2 + intAt b o 2 + 32) 2) with
      | .ok tag => .ok (some (playerAt b o tag), none)
      | .error e => .error e := by
  have e1 := toInt16_eq_intAt (b := b) h0 (by omega)
  have e2 := slice_name (b := b) h0 hL (by omega)
  have e3 := toUint64_eq_uintAt (b := b) (k := o + 2 + intAt b o 2 + 4) (by omega) (by omega)
  have r0 := toInt32_eq_intAt (b := b) (k := o + 2 + intAt b o 2) (by omega) (by omega)
  have r12 := toInt32_eq_intAt (b := b) (k := o + 2 + intAt b o 2 + 12) (by omega) (by omega)
  have r16 := toInt32_eq_intAt (b := b) (k := o + 2 + intAt b o 2 + 16) (by omega) (by omega)
  have r20 := toInt32_eq_intAt (b := b) (k := o + 2 + intAt b o 2 + 20) (by omega) (by omega)
  have r24 := toInt32_eq_intAt (b := b) (k := o + 2 + intAt b o 2 + 24) (by omega) (by omega)
  have r28 := toInt32_eq_intAt (b := b) (k := o + 2 + intAt b o 2 + 28) (by omega) (by omega)
  have r32 := toInt16_eq_intAt (b := b) (k := o + 2 + intAt b o 2 + 32) (by omega) (by omega)
  have r36 := toUint64_eq_uintAt (b := b) (k := o + 2 + intAt b o 2 + 36) (by omega) (by omega)
  have r44 := toUint64_eq_uintAt (b := b) (k := o + 2 + intAt b o 2 + 44) (by omega) (by omega)
  have r52 := toUint64_eq_uintAt (b := b) (k := o + 2 + intAt b o 2 + 52) (by omega) (by omega)
  have r60 := toUint64_eq_uintAt (b := b) (k := o + 2 + intAt b o 2 + 60) (by omega) (by omega)
  have r68 := toUint64_eq_uintAt (b := b) (k := o + 2 + intAt b o 2 + 68) (by omega) (by omega)
  have r76 := toUint64_eq_uintAt (b := b) (k := o + 2 + intAt b o 2 + 76) (by omega) (by omega)
  simp only [BytesToPlayer, e1, e2, e3, r0, r12, r16, r20, r24, r28, r32, r36, r44, r52, r60,
    r68, r76, hid, bind, Except.bind, pure, Except.pure, if_false]
  cases indexDeathTypes (intAt b (o + 2 + intAt b o 2 + 32) 2) with
  | error e => rfl
  | ok tag => rfl


theorem toInt16_bounds {b : List Byte} {off v : Int} (h : toInt16 b off = .ok v) :
    0 ≤ off ∧ off + 2 ≤ (b.length : Int) := by
  by_contra hc
  rw [toInt16_error hc] at h
  cases h

theorem toInt32_bounds {b : List Byte} {off v : Int} (h : toInt32 b off = .ok v) :
    0 ≤ off ∧ off + 4 ≤ (b.length : Int) := by
  by_contra hc
  rw [toInt32_error hc] at h
  cases h

theorem toUint64_bounds {b : List Byte} {off : Int} {v : Nat} (h : toUint64 b off = .ok v) :
    0 ≤ off ∧ off + 8 ≤ (b.length : Int) := by
  by_contra hc
  rw [toUint64_error hc] at h
  cases h

theorem slice_bounds {b s : List Byte} {lo hi : Int} (h : slice b lo hi = .ok s) :
    0 ≤ lo ∧ lo ≤ hi ∧ hi ≤ (b.length : Int) := by
  by_contra hc
  rw [slice_eq_error hc] at h
  cases h

theorem BytesToPlayer_some_bounds {b : List Byte} {o : Int} {p : Player}
    (h : BytesToPlayer b o = .ok (some p, none)) :
    0 ≤ o ∧ 0 ≤ intAt b o 2 ∧ o + 2 + intAt b o 2 + 84 ≤ (b.length : Int)
      ∧ uintAt b (o + 2 + intAt b o 2 + 4) 8 ≠ 0 := by
  simp only [BytesToPlayer, bind, Except.bind, pure, Except.pure] at h
  split at h
  · cases h
  · rename_i L hL
    have b1 := toInt16_bounds hL
    rw [toInt16_eq_intAt b1.1 b1.2] at hL
    cases hL
    split at h
    · cases h
    · rename_i nm hnm
      have b2 := slice_bounds hnm
      split at h
      · cases h
      · rename_i pid hpid
        have b3 := toUint64_bounds hpid
        rw [toUint64_eq_uintAt b3.1 b3.2] at hpid
        cases hpid
        split at h
        · cases h
        · rename_i hne
          repeat' (split at h)
          all_goals try (cases h; done)
          all_goals
            have b4 := toUint64_bounds
              (by assumption : toUint64 b (o + 2 + intAt b o 2 + 76) = Except.ok _)
            exact ⟨b1.1, by omega, by omega, hne⟩

theorem BytesToPlayer_negative_length (b : List Byte) (o : Int) (h0 : 0 ≤ o)
    (h1 : o + 2 ≤ (b.length : Int)) (hL : intAt b o 2 < 0) :
    BytesToPlayer b o = .error .sliceBounds := by
  have e1 := toInt16_eq_intAt (b := b) h0 h1
  have e2 : slice b (o + 2) (o + 2 + intAt b o 2) = .error .sliceBounds :=
    slice_eq_error (by omega)
  simp only [BytesToPlayer, e1, e2, bind, Except.bind]

theorem field_append_right (pre rest : List Byte) (k w : Nat) :
    field (pre ++ rest) ((pre.length + k : Nat) : Int) w = field rest (k : Int) w := by
  rw [field, field, Int.toNat_ofNat, Int.toNat_ofNat, List.drop_append]

theorem BytesToPlayer_some_inv {b : List Byte} {o : Int} {p : Player}
    (h : BytesToPlayer b o = .ok (some p, none)) :
    ∃ tag, indexDeathTypes (intAt b (o + 2 + intAt b o 2 + 32) 2) = .ok tag
      ∧ p = playerAt b o tag := by
  obtain ⟨h0, hL, hlen, hid⟩ := BytesToPlayer_some_bounds h
  rw [BytesToPlayer_complete b o h0 hL hlen hid] at h
  cases hd : indexDeathTypes (intAt b (o + 2 + intAt b o 2 + 32) 2) with
  | error e => rw [hd] at h; cases h
  | ok tag =>
    rw [hd] at h
    refine ⟨tag, rfl, ?_⟩
    simp only [Except.ok.injEq, Prod.mk.injEq, Option.some.injEq, and_true] at h
    exact h.symm

/-! ## Records with a zero id, empty search results -/

/-- **C3 (as stated), refuted.** The buffer `zeroIdRecord` holds a record whose id field is
zero, both when the name-length prefix `0xFFFF` is read as 65535 (the record then fills the
buffer) and when it is read as the `int16` -1, and `BytesToPlayer` faults on it. -/
theorem BytesToPlayer_zero_id_fault :
    zeroIdRecord.length = 2 + 65535 + 90
      ∧ uintAt zeroIdRecord 0 2 = 65535 ∧ intAt zeroIdRecord 0 2 = -1
      ∧ uintAt zeroIdRecord (0 + 2 + 65535 + 4) 8 = 0
      ∧ uintAt zeroIdRecord (0 + 2 + (-1) + 4) 8 = 0
      ∧ BytesToPlayer zeroIdRecord 0 = .error .sliceBounds
      ∧ BytesToPlayer zeroIdRecord 0 ≠ .ok (none, some .ErrPlayerNotFound) := by
  have hlen : zeroIdRecord.length = 2 + 65535 + 90 := by
    rw [zeroIdRecord, List.length_append, List.length_replicate]; rfl
  have hu : uintAt zeroIdRecord 0 2 = 65535 := by rfl
  have hi : intAt zeroIdRecord 0 2 = -1 := by
    simp only [intAt, hu]; decide
  have hf : BytesToPlayer zeroIdRecord 0 = .error .sliceBounds :=
    BytesToPlayer_negative_length _ 0 (le_refl _) (by rw [hlen]; norm_num) (by rw [hi]; decide)
  refine ⟨hlen, hu, hi, ?_, ?_, hf, by rw [hf]; exact fun h => by cases h⟩
  · have h := field_append_right [255, 255] (List.replicate (65535 + 90) 0) 65539 8
    have e : field zeroIdRecord (0 + 2 + 65535 + 4) 8 = List.replicate 8 0 := by
      rw [show ((0 : Int) + 2 + 65535 + 4) = (([255, 255] : List Byte).length + 65539 : Nat) by rfl,
        zeroIdRecord, h, field, Int.toNat_ofNat, List.drop_replicate, List.take_replicate]
      rfl
    rw [uintAt, e]; rfl
  · have h := field_append_right [255, 255] (List.replicate (65535 + 90) 0) 3 8
    have e : field zeroIdRecord (0 + 2 + (-1) + 4) 8 = List.replicate 8 0 := by
      rw [show ((0 : Int) + 2 + (-1) + 4) = (([255, 255] : List Byte).length + 3 : Nat) by rfl,
        zeroIdRecord, h, field, Int.toNat_ofNat, List.drop_replicate, List.take_replicate]
      rfl
    rw [uintAt, e]; rfl

/-- **C3 (amended).** When the name-length prefix at `o` is non-negative as an `int16` and the
buffer reaches the end of the 64-bit id field (tail offset 4), a zero id makes `BytesToPlayer`
return `nil, ErrPlayerNotFound`, whatever the other fields hold and even when the rest of the
tail is missing. -/
theorem BytesToPlayer_zero_id_not_found (b : List Byte) (o : Int) (h0 : 0 ≤ o)
    (hL : 0 ≤ intAt b o 2) (hlen : o + 2 + intAt b o 2 + 12 ≤ (b.length : Int))
    (hid : uintAt b (o + 2 + intAt b o 2 + 4) 8 = 0) :
    BytesToPlayer b o = .ok (none, some .ErrPlayerNotFound) :=
  BytesToPlayer_zero_id b o h0 hL hlen hid

/-- Witness of C3 (amended) on `zeroIdShort`. -/
theorem BytesToPlayer_zero_id_not_found_witness :
    BytesToPlayer zeroIdShort 0 = .ok (none, some .ErrPlayerNotFound) :=
  BytesToPlayer_zero_id_not_found zeroIdShort 0 (by decide) (by decide) (by decide) (by decide)

theorem UserSearch_count_le_zero (b : List Byte) (hlen : 13 ≤ b.length)
    (hc : intAt b 11 2 ≤ 0) :
    UserSearchBytesToPlayers b = .ok (none, some .ErrNoPlayersFound) := by
  have e1 := toInt16_eq_intAt (b := b) (k := 11) (by norm_num) (by omega)
  have hlt : intAt b 11 2 < 1 := by omega
  simp only [UserSearchBytesToPlayers, e1, bind, Except.bind, pure, Except.pure, hlt, if_true]

/-- **C5.** A search buffer long enough to hold the declared count (13 bytes) whose count,
the `int16` at offset 11, is zero or negative decodes to `nil, ErrNoPlayersFound`; nothing
past byte 12 is read, so no record is decoded. -/
theorem UserSearchBytesToPlayers_no_players (b : List Byte) (hlen : 13 ≤ b.length)
    (hc : intAt b 11 2 ≤ 0) :
    UserSearchBytesToPlayers b = .ok (none, some .ErrNoPlayersFound) :=
  UserSearch_count_le_zero b hlen hc

/-- Witness of C5 on `emptySearch`, which has no byte after the count. -/
theorem UserSearchBytesToPlayers_no_players_witness :
    emptySearch.length = 13 ∧ intAt emptySearch 11 2 = -1
      ∧ UserSearchBytesToPlayers emptySearch = .ok (none, some .ErrNoPlayersFound) :=
  ⟨by decide, by decide, UserSearchBytesToPlayers_no_players emptySearch (by decide) (by decide)⟩

/-! ## Field layout and the death-type table -/

theorem indexDeathTypes_in_range {i : Int} (h0 : 0 ≤ i) (h1 : i < 16) :
    ∃ tag, indexDeathTypes i = .ok tag ∧ DeathTypes.get? i.toNat = some tag := by
  have hlt : i.toNat < DeathTypes.length := by
    have : DeathTypes.length = 16 := rfl
    omega
  refine ⟨DeathTypes.get ⟨i.toNat, hlt⟩, ?_, List.get?_eq_get hlt⟩
  simp only [indexDeathTypes, h0, if_true, List.get?_eq_get hlt]

theorem indexDeathTypes_out_of_range {i : Int} (h : i < 0 ∨ 16 ≤ i) :
    indexDeathTypes i = .error .indexOutOfRange := by
  by_cases h0 : 0 ≤ i
  · have hge : DeathTypes.length ≤ i.toNat := by
      have : DeathTypes.length = 16 := rfl
      omega
    simp only [indexDeathTypes, h0, if_true, List.get?_eq_none.mpr hge]
  · simp only [indexDeathTypes, h0, if_false]

theorem BytesToPlayer_ok_of_tag (b : List Byte) (o : Int) (h0 : 0 ≤ o)
    (hL : 0 ≤ intAt b o 2) (hlen : o + 2 + intAt b o 2 + 84 ≤ (b.length : Int))
    (hid : uintAt b (o + 2 + intAt b o 2 + 4) 8 ≠ 0) {tag : String}
    (ht : indexDeathTypes (intAt b (o + 2 + intAt b o 2 + 32) 2) = .ok tag) :
    BytesToPlayer b o = .ok (some (playerAt b o tag), none) := by
  rw [BytesToPlayer_complete b o h0 hL hlen hid, ht]

/-- **C9.** A complete record at `o` (non-negative name length `L`, the buffer reaching the
end of the last tail field, nonzero id, death-type index in `0..15`) decodes to a player
whose name is the `L` bytes at `o + 2`, whose integer fields are the little-endian integers
at tail offsets 0, 4, 16, 20, 24, 28, 36, 44, 52, 68, 76, and whose `Time` and `OverallTime`
are the integers at tail offsets 12 and 60 divided by 10000: `Time` is the `float64`
nearest to the quotient; `OverallTime` is within a relative error of `2 ^ (-50)` of the
quotient for every 64-bit integer, and is the `float64` nearest to it when the integer is
below `2 ^ 51`. -/
theorem BytesToPlayer_field_layout (b : List Byte) (o : Int) (h0 : 0 ≤ o)
    (hL : 0 ≤ intAt b o 2) (hlen : tailStart b o + 84 ≤ (b.length : Int))
    (hid : uintAt b (tailStart b o + 4) 8 ≠ 0)
    (hd0 : 0 ≤ intAt b (tailStart b o + 32) 2) (hd1 : intAt b (tailStart b o + 32) 2 < 16) :
    ∃ p, BytesToPlayer b o = .ok (some p, none)
      ∧ p.PlayerName = field b (o + 2) (intAt b o 2).toNat
      ∧ p.Rank = intAt b (tailStart b o) 4
      ∧ p.PlayerID = uintAt b (tailStart b o + 4) 8
      ∧ p.Kills = intAt b (tailStart b o + 16) 4
      ∧ p.DaggersFired = intAt b (tailStart b o + 20) 4
      ∧ p.DaggersHit = intAt b (tailStart b o + 24) 4
      ∧ p.Gems = intAt b (tailStart b o + 28) 4
      ∧ p.OverallDeaths = uintAt b (tailStart b o + 36) 8
      ∧ p.OverallKills = uintAt b (tailStart b o + 44) 8
      ∧ p.OverallDaggersFired = uintAt b (tailStart b o + 52) 8
      ∧ p.OverallGems = uintAt b (tailStart b o + 68) 8
      ∧ p.OverallDaggersHit = uintAt b (tailStart b o + 76) 8
      ∧ p.Time = F64.ofRat ((intAt b (tailStart b o + 12) 4 : ℚ) / 10000)
      ∧ (∃ r, p.OverallTime = .finite r
          ∧ |r - (uintAt b (tailStart b o + 60) 8 : ℚ) / 10000|
              ≤ (uintAt b (tailStart b o + 60) 8 : ℚ) / 10000 / 2 ^ 50)
      ∧ (uintAt b (tailStart b o + 60) 8 < 2 ^ 51 →
          p.OverallTime = F64.ofRat ((uintAt b (tailStart b o + 60) 8 : ℚ) / 10000)) := by
  unfold tailStart at *
  obtain ⟨tag, ht, -⟩ := indexDeathTypes_in_range hd0 hd1
  have h64 : uintAt b (o + 2 + intAt b o 2 + 60) 8 < 2 ^ 64 := by
    have := uintAt_lt b (o + 2 + intAt b o 2 + 60) 8
    norm_num at this ⊢
    exact this
  exact ⟨playerAt b o tag, BytesToPlayer_ok_of_tag b o h0 hL hlen hid ht,
    rfl, rfl, rfl, rfl, rfl, rfl, rfl, rfl, rfl, rfl, rfl, rfl,
    roundToNearest_time _ (intAt_four_abs _ _),
    roundToNearest_overallTime_close _ h64,
    fun h => roundToNearest_overallTime _ h⟩

/-- Witness of C9 on `sampleRecord`: the decoded fields, read off the bytes. The raw time
12345 gives the `float64` nearest to 1.2345, the raw overall time 50000 gives 5. -/
theorem BytesToPlayer_field_layout_witness :
    ∃ p, BytesToPlayer sampleRecord 0 = .ok (some p, none)
      ∧ p.PlayerName = [97, 98] ∧ p.Rank = 1 ∧ p.PlayerID = 7 ∧ p.Kills = 3
      ∧ p.DaggersFired = 10 ∧ p.DaggersHit = 5 ∧ p.Gems = 2 ∧ p.OverallDeaths = 4
      ∧ p.OverallKills = 6 ∧ p.OverallDaggersFired = 20 ∧ p.OverallGems = 8
      ∧ p.OverallDaggersHit = 15
      ∧ p.Time = .finite (5559693739988877 / 4503599627370496)
      ∧ p.OverallTime = .finite 5 := by
  obtain ⟨p, hp, h1, h2, h3, h4, h5, h6, h7, h8, h9, h10, h11, h12, h13, -, h15⟩ :=
    BytesToPlayer_field_layout sampleRecord 0 (by decide) (by decide) (by decide) (by decide)
      (by decide) (by decide)
  have e60 : uintAt sampleRecord (tailStart sampleRecord 0 + 60) 8 = 50000 := by decide
  refine ⟨p, hp, ?_, ?_, ?_, ?_, ?_, ?_, ?_, ?_, ?_, ?_, ?_, ?_, ?_, ?_⟩
  · rw [h1]; decide
  · rw [h2]; decide
  · rw [h3]; decide
  · rw [h4]; decide
  · rw [h5]; decide
  · rw [h6]; decide
  · rw [h7]; decide
  · rw [h8]; decide
  · rw [h9]; decide
  · rw [h10]; decide
  · rw [h11]; decide
  · rw [h12]; decide
  · rw [h13, show intAt sampleRecord (tailStart sampleRecord 0 + 12) 4 = 12345 by decide]
    have := F64.ofRat_eq_of (q := ((12345 : Int) : ℚ) / 10000) (E := 0)
      (m := 5559693739988877)
      (by norm_num [abs_of_pos]) (by norm_num [abs_of_pos]) (by norm_num) (by norm_num)
      (by rw [abs_lt]; norm_num)
    rw [this]
    norm_num
  · rw [h15 (by rw [e60]; norm_num), e60]
    have := F64.ofRat_intCast 5 (by norm_num)
    norm_num at this ⊢
    exact this

/-- **C7 (as stated), refuted.** `badDeathTypeRecord` is a complete record with a nonzero id
whose death-type index is 16: `BytesToPlayer` does not return an error value, it faults with
an index out of range. -/
theorem BytesToPlayer_death_type_16_faults :
    intAt badDeathTypeRecord (tailStart badDeathTypeRecord 0 + 32) 2 = 16
      ∧ uintAt badDeathTypeRecord (tailStart badDeathTypeRecord 0 + 4) 8 = 7
      ∧ tailStart badDeathTypeRecord 0 + 88 = badDeathTypeRecord.length
      ∧ BytesToPlayer badDeathTypeRecord 0 = .error .indexOutOfRange := by
  decide

/-- **C7 (amended).** For a complete record with a nonzero id, `BytesToPlayer` sets
`DeathType` to entry `i` of the 16-entry table when the `int16` death-type index `i` (tail
offset 32) is in `0..15`, and faults with an index out of range when `i < 0` or `16 ≤ i`. -/
theorem BytesToPlayer_death_type (b : List Byte) (o : Int) (h0 : 0 ≤ o)
    (hL : 0 ≤ intAt b o 2) (hlen : tailStart b o + 84 ≤ (b.length : Int))
    (hid : uintAt b (tailStart b o + 4) 8 ≠ 0) :
    DeathTypes.length = 16
      ∧ (0 ≤ intAt b (tailStart b o + 32) 2 → intAt b (tailStart b o + 32) 2 < 16 →
          ∃ p, BytesToPlayer b o = .ok (some p, none)
            ∧ DeathTypes.get? (intAt b (tailStart b o + 32) 2).toNat = some p.DeathType)
      ∧ (intAt b (tailStart b o + 32) 2 < 0 ∨ 16 ≤ intAt b (tailStart b o + 32) 2 →
          BytesToPlayer b o = .error .indexOutOfRange) := by
  unfold tailStart at *
  refine ⟨rfl, ?_, ?_⟩
  · intro hd0 hd1
    obtain ⟨tag, ht, hg⟩ := indexDeathTypes_in_range hd0 hd1
    exact ⟨playerAt b o tag, BytesToPlayer_ok_of_tag b o h0 hL hlen hid ht, hg⟩
  · intro hd
    rw [BytesToPlayer_complete b o h0 hL hlen hid, indexDeathTypes_out_of_range hd]

/-- Witness of C7 (amended): index 3 on `sampleRecord` selects `GORED`, index 16 on
`badDeathTypeRecord` faults. -/
theorem BytesToPlayer_death_type_witness :
    (∃ p, BytesToPlayer sampleRecord 0 = .ok (some p, none)
        ∧ DeathTypes.get? (3 : Int).toNat = some p.DeathType)
      ∧ BytesToPlayer badDeathTypeRecord 0 = .error .indexOutOfRange := by
  have h1 := (BytesToPlayer_death_type sampleRecord 0 (by decide) (by decide) (by decide)
    (by decide)).2.1 (by decide) (by decide)
  have h2 := (BytesToPlayer_death_type badDeathTypeRecord 0 (by decide) (by decide) (by decide)
    (by decide)).2.2 (by decide)
  rw [show intAt sampleRecord (tailStart sampleRecord 0 + 32) 2 = 3 by decide] at h1
  exact ⟨h1, h2⟩

/-! ## The record loop -/

theorem BytesToPlayer_ok_inv {b : List Byte} {o : Int} {res : Option Player × Option DecodeError}
    (h : BytesToPlayer b o = .ok res) :
    0 ≤ o ∧ 0 ≤ intAt b o 2 ∧ o + 2 + intAt b o 2 + 12 ≤ (b.length : Int)
      ∧ ((uintAt b (o + 2 + intAt b o 2 + 4) 8 = 0 ∧ res = (none, some .ErrPlayerNotFound))
        ∨ (uintAt b (o + 2 + intAt b o 2 + 4) 8 ≠ 0
            ∧ o + 2 + intAt b o 2 + 84 ≤ (b.length : Int) ∧ ∃ p, res = (some p, none))) := by
  simp only [BytesToPlayer, bind, Except.bind, pure, Except.pure] at h
  split at h
  · cases h
  · rename_i L hL
    have b1 := toInt16_bounds hL
    rw [toInt16_eq_intAt b1.1 b1.2] at hL
    cases hL
    split at h
    · cases h
    · rename_i nm hnm
      have b2 := slice_bounds hnm
      split at h
      · cases h
      · rename_i pid hpid
        have b3 := toUint64_bounds hpid
        rw [toUint64_eq_uintAt b3.1 b3.2] at hpid
        cases hpid
        split at h
        · rename_i hz
          cases h
          exact ⟨b1.1, by omega, by omega, Or.inl ⟨hz, rfl⟩⟩
        · rename_i hne
          repeat' (split at h)
          all_goals try (cases h; done)
          all_goals
            have b4 := toUint64_bounds
              (by assumption : toUint64 b (o + 2 + intAt b o 2 + 76) = Except.ok _)
            cases h
            exact ⟨b1.1, by omega, by omega, Or.inr ⟨hne, by omega, _, rfl⟩⟩

theorem BytesToPlayer_name_length {b : List Byte} {o : Int} {p : Player}
    (h : BytesToPlayer b o = .ok (some p, none)) :
    (p.PlayerName.length : Int) = intAt b o 2 := by
  obtain ⟨h0, hL, hlen, -⟩ := BytesToPlayer_some_bounds h
  obtain ⟨tag, -, rfl⟩ := BytesToPlayer_some_inv h
  have hl : (field b (o + 2) (intAt b o 2).toNat).length = (intAt b o 2).toNat :=
    field_length (by omega) (by rw [Int.toNat_of_nonneg hL]; omega)
  show ((field b (o + 2) (intAt b o 2).toNat).length : Int) = _
  rw [hl, Int.toNat_of_nonneg hL]

theorem decodeRecords_succ_ok {b : List Byte} {o : Int} {p : Player}
    (h : BytesToPlayer b o = .ok (some p, none)) (n : Nat) (acc : List Player) :
    decodeRecords b (n + 1) o acc
      = decodeRecords b n (o + 2 + intAt b o 2 + 88) (acc ++ [p]) := by
  have hn := BytesToPlayer_name_length h
  simp only [decodeRecords, h, bind, Except.bind, hn]
  congr 1
  omega

theorem decodeRecords_succ_err {b : List Byte} {o : Int} {r : Option Player} {e : DecodeError}
    (h : BytesToPlayer b o = .ok (r, some e)) (n : Nat) (acc : List Player) :
    decodeRecords b (n + 1) o acc = .ok none := by
  simp only [decodeRecords, h, bind, Except.bind, pure, Except.pure]

theorem decodeRecords_succ_fault {b : List Byte} {o : Int} {e : Panic}
    (h : BytesToPlayer b o = .error e) (n : Nat) (acc : List Player) :
    decodeRecords b (n + 1) o acc = .error e := by
  simp only [decodeRecords, h, bind, Except.bind]

theorem recordOffset_succ_start (tail : Int) (b : List Byte) (start : Int) (i : Nat) :
    recordOffset tail b start (i + 1)
      = recordOffset tail b (start + 2 + intAt b start 2 + tail) i := by
  induction i with
  | zero => rfl
  | succ i ih =>
    rw [recordOffset, ih]
    rfl

/-- A run of `decodeRecords` that yields a list appended `n` players to the accumulator, the
`i`-th of them being the record decoded at the `i`-th record offset. -/
theorem decodeRecords_some_inv (b : List Byte) :
    ∀ (n : Nat) (o : Int) (acc ps : List Player),
      decodeRecords b n o acc = .ok (some ps) →
      ∃ qs : List Player, ps = acc ++ qs ∧ qs.length = n
        ∧ ∀ i (hi : i < qs.length),
            BytesToPlayer b (recordOffset 88 b o i) = .ok (some (qs.get ⟨i, hi⟩), none) := by
  intro n
  induction n with
  | zero =>
    intro o acc ps h
    simp only [decodeRecords, pure, Except.pure, Except.ok.injEq, Option.some.injEq] at h
    exact ⟨[], by simp [h], rfl, fun i hi => absurd hi (Nat.not_lt_zero i)⟩
  | succ n ih =>
    intro o acc ps h
    cases hr : BytesToPlayer b o with
    | error e => rw [decodeRecords_succ_fault hr] at h; cases h
    | ok res =>
      obtain ⟨-, -, -, hcase⟩ := BytesToPlayer_ok_inv hr
      rcases hcase with ⟨-, rfl⟩ | ⟨-, -, p, rfl⟩
      · rw [decodeRecords_succ_err hr] at h; cases h
      · rw [decodeRecords_succ_ok hr] at h
        obtain ⟨qs, hps, hlen, hget⟩ := ih _ _ _ h
        refine ⟨p :: qs, by simp [hps], by simp [hlen], ?_⟩
        intro i hi
        cases i with
        | zero => exact hr
        | succ i =>
          rw [recordOffset_succ_start]
          exact hget i (by simpa using hi)

/-- When the first `n` records decode, `decodeRecords` returns them in order. -/
theorem decodeRecords_of_all_ok (b : List Byte) :
    ∀ (qs : List Player) (o : Int) (acc : List Player),
      (∀ i (hi : i < qs.length),
          BytesToPlayer b (recordOffset 88 b o i) = .ok (some (qs.get ⟨i, hi⟩), none)) →
      decodeRecords b qs.length o acc = .ok (some (acc ++ qs)) := by
  intro qs
  induction qs with
  | nil => intro o acc _; simp [decodeRecords, pure, Except.pure]
  | cons p qs ih =>
    intro o acc h
    have h0 : BytesToPlayer b o = .ok (some p, none) := h 0 (by simp)
    rw [List.length_cons, decodeRecords_succ_ok h0, ih]
    · simp
    · intro i hi
      have := h (i + 1) (by simpa using hi)
      rw [recordOffset_succ_start] at this
      simpa using this

/-- When records `0 .. j-1` decode and record `j` yields an error value, and `j` is among
the `n` records to decode, `decodeRecords` yields no list. -/
theorem decodeRecords_of_err (b : List Byte) :
    ∀ (j n : Nat) (o : Int) (acc : List Player), j < n →
      (∀ i, i < j → ∃ p, BytesToPlayer b (recordOffset 88 b o i) = .ok (some p, none)) →
      (∃ r e, BytesToPlayer b (recordOffset 88 b o j) = .ok (r, some e)) →
      decodeRecords b n o acc = .ok none := by
  intro j
  induction j with
  | zero =>
    intro n o acc hn _ ⟨r, e, he⟩
    obtain ⟨m, rfl⟩ : ∃ m, n = m + 1 := ⟨n - 1, by omega⟩
    exact decodeRecords_succ_err he m acc
  | succ j ih =>
    intro n o acc hn hok ⟨r, e, he⟩
    obtain ⟨m, rfl⟩ : ∃ m, n = m + 1 := ⟨n - 1, by omega⟩
    obtain ⟨p, hp⟩ := hok 0 (by omega)
    have hp0 : BytesToPlayer b o = .ok (some p, none) := hp
    rw [decodeRecords_succ_ok hp0]
    apply ih m _ _ (by omega)
    · intro i hi
      have := hok (i + 1) (by omega)
      rwa [recordOffset_succ_start] at this
    · rw [recordOffset_succ_start] at he
      exact ⟨r, e, he⟩

/-! ## The two decoders -/

theorem GetScores_short (b : List Byte) (limit : Int) (hlen : b.length < 79) :
    GetScoresBytesToLeaderboard b limit = .error .sliceBounds := by
  have ok8 : ∀ off : Int, 0 ≤ off → off + 8 ≤ (b.length : Int) →
      toUint64 b off = .ok (uintAt b off 8) := fun off h0 h1 => toUint64_eq_uintAt h0 h1
  have er8 : ∀ off : Int, ¬ (off + 8 ≤ (b.length : Int)) →
      toUint64 b off = .error .sliceBounds := fun off h => toUint64_error (fun hc => h hc.2)
  have er4 : toInt32 b 75 = .error .sliceBounds := toInt32_error (by omega)
  unfold GetScoresBytesToLeaderboard
  by_cases h1 : 19 ≤ b.length
  · rw [ok8 11 (by norm_num) (by omega)]
    by_cases h2 : 27 ≤ b.length
    · rw [ok8 19 (by norm_num) (by omega)]
      by_cases h3 : 43 ≤ b.length
      · rw [ok8 35 (by norm_num) (by omega)]
        by_cases h4 : 51 ≤ b.length
        · rw [ok8 43 (by norm_num) (by omega)]
          by_cases h5 : 59 ≤ b.length
          · rw [ok8 51 (by norm_num) (by omega), ok8 27 (by norm_num) (by omega), er4]
            rfl
          · rw [er8 51 (by omega)]; rfl
        · rw [er8 43 (by omega)]; rfl
      · rw [er8 35 (by omega)]; rfl
    · rw [er8 19 (by omega)]; rfl
  · rw [er8 11 (by omega)]; rfl

theorem GetScores_eq (b : List Byte) (limit : Int) (hlen : 79 ≤ b.length) :
    GetScoresBytesToLeaderboard b limit =
      match decodeRecords b (playerCountAt b limit).toNat 83 [] with
      | .error e => .error e
      | .ok none => .ok (none, some .ErrPlayerNotFound)
      | .ok (some players) => .ok (some (leaderboardAt b limit players), none) := by
  have r11 := toUint64_eq_uintAt (b := b) (k := 11) (by norm_num) (by omega)
  have r19 := toUint64_eq_uintAt (b := b) (k := 19) (by norm_num) (by omega)
  have r27 := toUint64_eq_uintAt (b := b) (k := 27) (by norm_num) (by omega)
  have r35 := toUint64_eq_uintAt (b := b) (k := 35) (by norm_num) (by omega)
  have r43 := toUint64_eq_uintAt (b := b) (k := 43) (by norm_num) (by omega)
  have r51 := toUint64_eq_uintAt (b := b) (k := 51) (by norm_num) (by omega)
  have r75 := toInt32_eq_intAt (b := b) (k := 75) (by norm_num) (by omega)
  have r59 := toInt16_eq_intAt (b := b) (k := 59) (by norm_num) (by omega)
  simp only [GetScoresBytesToLeaderboard, r11, r19, r27, r35, r43, r51, r75, r59, bind,
    Except.bind, pure, Except.pure]
  rw [show (if limit < intAt b 59 2 then limit else intAt b 59 2) = playerCountAt b limit from rfl]
  cases decodeRecords b (playerCountAt b limit).toNat 83 [] with
  | error e => rfl
  | ok r =>
    cases r with
    | none => rfl
    | some ps => rfl

theorem UserSearch_short (b : List Byte) (hlen : b.length < 13) :
    UserSearchBytesToPlayers b = .error .sliceBounds := by
  have e1 : toInt16 b 11 = .error .sliceBounds := toInt16_error (by omega)
  simp only [UserSearchBytesToPlayers, e1, bind, Except.bind]

theorem UserSearch_eq (b : List Byte) (hlen : 13 ≤ b.length) (hc : 1 ≤ intAt b 11 2) :
    UserSearchBytesToPlayers b =
      match decodeRecords b (intAt b 11 2).toNat 19 [] with
      | .error e => .error e
      | .ok none => .ok (none, some .ErrPlayerNotFound)
      | .ok (some players) => .ok (some players, none) := by
  have e1 := toInt16_eq_intAt (b := b) (k := 11) (by norm_num) (by omega)
  have hlt : ¬ intAt b 11 2 < 1 := by omega
  simp only [UserSearchBytesToPlayers, e1, bind, Except.bind, pure, Except.pure, hlt, if_false]
  cases decodeRecords b (intAt b 11 2).toNat 19 [] with
  | error e => rfl
  | ok r =>
    cases r with
    | none => rfl
    | some ps => rfl

theorem GetScores_some_inv {b : List Byte} {limit : Int} {lb : Leaderboard}
    (h : GetScoresBytesToLeaderboard b limit = .ok (some lb, none)) :
    79 ≤ b.length ∧ lb = leaderboardAt b limit lb.Players
      ∧ lb.Players.length = (playerCountAt b limit).toNat
      ∧ ∀ i (hi : i < lb.Players.length),
          BytesToPlayer b (recordOffset 88 b 83 i) = .ok (some (lb.Players.get ⟨i, hi⟩), none) := by
  have hlen : 79 ≤ b.length := by
    by_contra hc
    rw [GetScores_short b limit (by omega)] at h
    cases h
  rw [GetScores_eq b limit hlen] at h
  cases hd : decodeRecords b (playerCountAt b limit).toNat 83 [] with
  | error e => rw [hd] at h; cases h
  | ok r =>
    cases r with
    | none => rw [hd] at h; cases h
    | some ps =>
      rw [hd] at h
      simp only [Except.ok.injEq, Prod.mk.injEq, Option.some.injEq, and_true] at h
      subst h
      obtain ⟨qs, hps, hn, hget⟩ := decodeRecords_some_inv b _ _ _ _ hd
      simp only [List.nil_append] at hps
      subst hps
      exact ⟨hlen, rfl, hn, hget⟩

theorem GetScores_of_records (b : List Byte) (limit : Int) (qs : List Player)
    (hlen : 79 ≤ b.length) (hn : qs.length = (playerCountAt b limit).toNat)
    (hget : ∀ i (hi : i < qs.length),
      BytesToPlayer b (recordOffset 88 b 83 i) = .ok (some (qs.get ⟨i, hi⟩), none)) :
    GetScoresBytesToLeaderboard b limit = .ok (some (leaderboardAt b limit qs), none) := by
  rw [GetScores_eq b limit hlen, ← hn, decodeRecords_of_all_ok b qs 83 [] hget]
  rfl

theorem UserSearch_some_inv {b : List Byte} {ps : List Player}
    (h : UserSearchBytesToPlayers b = .ok (some ps, none)) :
    13 ≤ b.length ∧ 1 ≤ intAt b 11 2 ∧ ps.length = (intAt b 11 2).toNat
      ∧ ∀ i (hi : i < ps.length),
          BytesToPlayer b (recordOffset 88 b 19 i) = .ok (some (ps.get ⟨i, hi⟩), none) := by
  have hlen : 13 ≤ b.length := by
    by_contra hc
    rw [UserSearch_short b (by omega)] at h
    cases h
  have hc : 1 ≤ intAt b 11 2 := by
    by_contra hc
    rw [UserSearch_count_le_zero b hlen (by omega)] at h
    cases h
  rw [UserSearch_eq b hlen hc] at h
  cases hd : decodeRecords b (intAt b 11 2).toNat 19 [] with
  | error e => rw [hd] at h; cases h
  | ok r =>
    cases r with
    | none => rw [hd] at h; cases h
    | some qs =>
      rw [hd] at h
      simp only [Except.ok.injEq, Prod.mk.injEq, Option.some.injEq, and_true] at h
      subst h
      obtain ⟨qs', hps, hn, hget⟩ := decodeRecords_some_inv b _ _ _ _ hd
      simp only [List.nil_append] at hps
      subst hps
      exact ⟨hlen, hc, hn, hget⟩

theorem UserSearch_of_records (b : List Byte) (qs : List Player)
    (hlen : 13 ≤ b.length) (hc : 1 ≤ intAt b 11 2) (hn : qs.length = (intAt b 11 2).toNat)
    (hget : ∀ i (hi : i < qs.length),
      BytesToPlayer b (recordOffset 88 b 19 i) = .ok (some (qs.get ⟨i, hi⟩), none)) :
    UserSearchBytesToPlayers b = .ok (some qs, none) := by
  rw [UserSearch_eq b hlen hc, ← hn, decodeRecords_of_all_ok b qs 19 [] hget]
  rfl

/-! ## Short buffers -/

theorem BytesToPlayer_incomplete (b : List Byte) (o : Int)
    (h : ¬ (0 ≤ o ∧ 0 ≤ intAt b o 2 ∧ tailStart b o + 84 ≤ (b.length : Int))) :
    (∃ e, BytesToPlayer b o = .error e)
      ∨ (BytesToPlayer b o = .ok (none, some .ErrPlayerNotFound)
          ∧ tailStart b o + 12 ≤ (b.length : Int) ∧ uintAt b (tailStart b o + 4) 8 = 0) := by
  unfold tailStart at *
  cases hr : BytesToPlayer b o with
  | error e => exact Or.inl ⟨e, rfl⟩
  | ok res =>
    obtain ⟨h0, hL, h12, hcase⟩ := BytesToPlayer_ok_inv hr
    rcases hcase with ⟨hz, rfl⟩ | ⟨-, h84, -⟩
    · exact Or.inr ⟨rfl, h12, hz⟩
    · exact absurd ⟨h0, hL, h84⟩ h

set_option maxRecDepth 100000 in
/-- **C6 (as stated), refuted.** A 78-byte buffer is shorter than 83 bytes, and
`GetScoresBytesToLeaderboard` faults on it with a slice-bounds panic instead of returning an
error value; an 82-byte buffer of zeros, also shorter than 83 bytes, decodes without error. -/
theorem GetScores_short_buffer_faults :
    (List.replicate 78 (0 : Byte)).length < 83
      ∧ GetScoresBytesToLeaderboard (List.replicate 78 0) 1 = .error .sliceBounds
      ∧ (List.replicate 82 (0 : Byte)).length < 83
      ∧ GetScoresBytesToLeaderboard (List.replicate 82 0) 1
          = .ok (some (leaderboardAt (List.replicate 82 0) 1 []), none) := by
  refine ⟨by decide, by decide, by decide, ?_⟩
  exact GetScores_of_records _ 1 [] (by decide) (by decide) (fun i hi => absurd hi (by simp))

/-- **C6 (amended).** The decoders make no bounds check, so a buffer too short for a field
that is read makes them fault with a slice-bounds panic: `GetScoresBytesToLeaderboard` on
every buffer shorter than 79 bytes (the end of the last header field),
`UserSearchBytesToPlayers` on every buffer shorter than 13 bytes, and `BytesToPlayer` faults
on every incomplete record (negative offset or name length, or name or 84-byte field tail
running past the end of the buffer), unless the id field is readable and zero, in which
case it returns `nil, ErrPlayerNotFound`. -/
theorem short_buffer_faults :
    (∀ (b : List Byte) (limit : Int), b.length < 79 →
        GetScoresBytesToLeaderboard b limit = .error .sliceBounds)
      ∧ (∀ b : List Byte, b.length < 13 → UserSearchBytesToPlayers b = .error .sliceBounds)
      ∧ (∀ (b : List Byte) (o : Int),
          ¬ (0 ≤ o ∧ 0 ≤ intAt b o 2 ∧ tailStart b o + 84 ≤ (b.length : Int)) →
          (∃ e, BytesToPlayer b o = .error e)
            ∨ (BytesToPlayer b o = .ok (none, some .ErrPlayerNotFound)
                ∧ tailStart b o + 12 ≤ (b.length : Int)
                ∧ uintAt b (tailStart b o + 4) 8 = 0)) :=
  ⟨GetScores_short, UserSearch_short, BytesToPlayer_incomplete⟩

set_option maxRecDepth 100000 in
/-- Witness of C6 (amended): a 78-byte header, a 12-byte search buffer, and `sampleRecord`
cut one byte before the end of its last field. -/
theorem short_buffer_faults_witness :
    GetScoresBytesToLeaderboard (List.replicate 78 0) 0 = .error .sliceBounds
      ∧ UserSearchBytesToPlayers (List.replicate 12 0) = .error .sliceBounds
      ∧ BytesToPlayer (sampleRecord.take 87) 0 = .error .sliceBounds := by
  refine ⟨short_buffer_faults.1 _ 0 (by decide), short_buffer_faults.2.1 _ (by decide), ?_⟩
  rcases short_buffer_faults.2.2 (sampleRecord.take 87) 0 (by decide) with ⟨e, he⟩ | ⟨-, -, hz⟩
  · decide
  · exact absurd hz (by decide)

/-! ## Accuracy fields -/

/-- With 23 daggers hit of 160 fired the decoder's accuracy is 14.37: the quotient
`0.14375` is not a binary64 value, its product with 100 falls just below `14.375`, and
`math.Round` rounds `1437.4999999999998` down. In exact arithmetic the tie `1437.5` would
round up, to 14.38. -/
theorem percentage_23_160 :
    percentage 23 160 = F64.ofRat (1437 / 100)
      ∧ F64.ofRat (1437 / 100) ≠ F64.ofRat (1438 / 100) := by
  have e1 : F64.ofRat ((23 : ℚ) / 160) = .finite (2589569785738035 / 18014398509481984) := by
    have := F64.ofRat_eq_of (q := (23 : ℚ) / 160) (E := -3) (m := 5179139571476070)
      (by norm_num [abs_of_pos]) (by norm_num [abs_of_pos]) (by norm_num) (by norm_num)
      (by rw [abs_lt]; norm_num)
    rw [this]; norm_num
  have e2 : F64.ofRat ((2589569785738035 : ℚ) / 18014398509481984 * 100)
      = .finite (8092405580431359 / 562949953421312) := by
    have := F64.ofRat_eq_of (q := (2589569785738035 : ℚ) / 18014398509481984 * 100) (E := 3)
      (m := 8092405580431359)
      (by norm_num [abs_of_pos]) (by norm_num [abs_of_pos]) (by norm_num) (by norm_num)
      (by rw [abs_lt]; norm_num)
    rw [this]; norm_num
  have e3 : F64.ofRat ((8092405580431359 : ℚ) / 562949953421312 * 100)
      = .finite (6322191859711999 / 4398046511104) := by
    have := F64.ofRat_eq_of (q := (8092405580431359 : ℚ) / 562949953421312 * 100) (E := 10)
      (m := 6322191859711999)
      (by norm_num [abs_of_pos]) (by norm_num [abs_of_pos]) (by norm_num) (by norm_num)
      (by rw [abs_lt]; norm_num)
    rw [this]; norm_num
  have e5 : F64.ofRat ((1437 : ℚ) / 100) = .finite (8089590830664253 / 562949953421312) := by
    have := F64.ofRat_eq_of (q := (1437 : ℚ) / 100) (E := 3) (m := 8089590830664253)
      (by norm_num [abs_of_pos]) (by norm_num [abs_of_pos]) (by norm_num) (by norm_num)
      (by rw [abs_lt]; norm_num)
    rw [this]; norm_num
  have e6 : F64.ofRat ((1438 : ℚ) / 100) = .finite (8095220330198467 / 562949953421312) := by
    have := F64.ofRat_eq_of (q := (1438 : ℚ) / 100) (E := 3) (m := 8095220330198467)
      (by norm_num [abs_of_pos]) (by norm_num [abs_of_pos]) (by norm_num) (by norm_num)
      (by rw [abs_lt]; norm_num)
    rw [this]; norm_num
  constructor
  · have h1 : F64.ofRat (((23 : Int) : ℚ) / ((160 : Int) : ℚ))
        = .finite (2589569785738035 / 18014398509481984) := by
      rw [← e1]
      norm_num
    rw [percentage_eq_of 23 160 1437 _ _ _ (by norm_num) (by norm_num) (by norm_num)
      h1 e2 e3 (by rw [abs_lt]; norm_num)]
    norm_num
  · rw [e5, e6]
    intro h
    injection h with h
    norm_num at h

theorem playerAt_floats (b : List Byte) (o : Int) (tag : String) :
    ((playerAt b o tag).DaggersFired = 0 → (playerAt b o tag).Accuracy = .finite 0)
      ∧ ((playerAt b o tag).OverallDaggersFired = 0 →
          (playerAt b o tag).OverallAccuracy = .finite 0)
      ∧ (playerAt b o tag).Accuracy.isFinite = true
      ∧ (playerAt b o tag).OverallAccuracy.isFinite = true
      ∧ (playerAt b o tag).Time.isFinite = true
      ∧ (playerAt b o tag).OverallTime.isFinite = true := by
  have i64 : ∀ off : Int, |intAt b off 4| ≤ 2 ^ 64 := fun off =>
    le_trans (intAt_four_abs b off) (by norm_num)
  refine ⟨?_, ?_, ?_, ?_, time_finite _ 10000 (i64 _) (by norm_num),
    time_finite _ 10000 (uintAt_eight_abs b _) (by norm_num)⟩
  · intro h
    simp only [playerAt] at h ⊢
    rw [h]; rfl
  · intro h
    simp only [playerAt] at h ⊢
    rw [h]; rfl
  · simp only [playerAt]
    split
    · next h => exact percent_finite _ _ (i64 _) (i64 _) (by omega)
    · rfl
  · simp only [playerAt]
    split
    · next h =>
      exact percent_finite _ _ (uintAt_eight_abs b _) (uintAt_eight_abs b _) (by omega)
    · rfl

theorem leaderboardAt_floats (b : List Byte) (limit : Int) (ps : List Player) :
    ((leaderboardAt b limit ps).GlobalDaggersFired = 0 →
        (leaderboardAt b limit ps).GlobalAccuracy = .finite 0)
      ∧ (leaderboardAt b limit ps).GlobalAccuracy.isFinite = true
      ∧ (leaderboardAt b limit ps).GlobalTime.isFinite = true := by
  refine ⟨?_, ?_, time_finite _ 1000 (uintAt_eight_abs b _) (by norm_num)⟩
  · intro h
    simp only [leaderboardAt] at h ⊢
    rw [h]; rfl
  · simp only [leaderboardAt]
    split
    · next h =>
      obtain ⟨r, hr, -⟩ := quotient_bounded _ _ (uintAt_eight_abs b 51)
        (uintAt_eight_abs b 27) (by omega)
      rw [hr]
      rfl
    · rfl

/-- **C10.** Every player returned by `BytesToPlayer` with `DaggersFired = 0` has
`Accuracy = 0`, with `OverallDaggersFired = 0` has `OverallAccuracy = 0`; every leaderboard
returned by `GetScoresBytesToLeaderboard` with `GlobalDaggersFired = 0` has
`GlobalAccuracy = 0`. No division by zero is evaluated: every float field of a decoded
player or leaderboard is finite, the players of the leaderboard included. -/
theorem accuracy_zero_when_none_fired :
    (∀ (b : List Byte) (o : Int) (p : Player), BytesToPlayer b o = .ok (some p, none) →
        (p.DaggersFired = 0 → p.Accuracy = .finite 0)
          ∧ (p.OverallDaggersFired = 0 → p.OverallAccuracy = .finite 0)
          ∧ p.Accuracy.isFinite = true ∧ p.OverallAccuracy.isFinite = true
          ∧ p.Time.isFinite = true ∧ p.OverallTime.isFinite = true)
      ∧ (∀ (b : List Byte) (limit : Int) (lb : Leaderboard),
          GetScoresBytesToLeaderboard b limit = .ok (some lb, none) →
          (lb.GlobalDaggersFired = 0 → lb.GlobalAccuracy = .finite 0)
            ∧ lb.GlobalAccuracy.isFinite = true ∧ lb.GlobalTime.isFinite = true
            ∧ ∀ p ∈ lb.Players,
                (p.DaggersFired = 0 → p.Accuracy = .finite 0)
                  ∧ (p.OverallDaggersFired = 0 → p.OverallAccuracy = .finite 0)
                  ∧ p.Accuracy.isFinite = true ∧ p.OverallAccuracy.isFinite = true
                  ∧ p.Time.isFinite = true ∧ p.OverallTime.isFinite = true) := by
  have hplayer : ∀ (b : List Byte) (o : Int) (p : Player),
      BytesToPlayer b o = .ok (some p, none) →
        (p.DaggersFired = 0 → p.Accuracy = .finite 0)
          ∧ (p.OverallDaggersFired = 0 → p.OverallAccuracy = .finite 0)
          ∧ p.Accuracy.isFinite = true ∧ p.OverallAccuracy.isFinite = true
          ∧ p.Time.isFinite = true ∧ p.OverallTime.isFinite = true := by
    intro b o p h
    obtain ⟨tag, -, rfl⟩ := BytesToPlayer_some_inv h
    exact playerAt_floats b o tag
  refine ⟨hplayer, ?_⟩
  intro b limit lb h
  obtain ⟨-, hlb, -, hget⟩ := GetScores_some_inv h
  have hf := leaderboardAt_floats b limit lb.Players
  rw [← hlb] at hf
  refine ⟨hf.1, hf.2.1, hf.2.2, ?_⟩
  intro p hp
  obtain ⟨i, rfl⟩ := List.mem_iff_get.mp hp
  exact hplayer b _ _ (hget i.1 i.2)

set_option maxRecDepth 100000 in
/-- Witness of C10: `noDaggersRecord` has 5 daggers hit and none fired, `noDaggersBoard`
has 20 global daggers hit and none fired: the accuracies are 0. -/
theorem accuracy_zero_when_none_fired_witness :
    (∃ p, BytesToPlayer noDaggersRecord 0 = .ok (some p, none)
        ∧ p.DaggersHit = 5 ∧ p.DaggersFired = 0 ∧ p.Accuracy = .finite 0
        ∧ p.OverallDaggersHit = 15 ∧ p.OverallDaggersFired = 0
        ∧ p.OverallAccuracy = .finite 0)
      ∧ (∃ lb, GetScoresBytesToLeaderboard noDaggersBoard 1 = .ok (some lb, none)
          ∧ lb.GlobalDaggersHit = 20 ∧ lb.GlobalDaggersFired = 0
          ∧ lb.GlobalAccuracy = .finite 0 ∧ lb.Players.length = 1) := by
  have hp : BytesToPlayer noDaggersRecord 0
      = .ok (some (playerAt noDaggersRecord 0 "GORED"), none) :=
    BytesToPlayer_ok_of_tag _ 0 (by decide) (by decide) (by decide) (by decide) (by decide)
  have hp83 : BytesToPlayer noDaggersBoard 83
      = .ok (some (playerAt noDaggersBoard 83 "GORED"), none) :=
    BytesToPlayer_ok_of_tag _ 83 (by decide) (by decide) (by decide) (by decide) (by decide)
  have hlb : GetScoresBytesToLeaderboard noDaggersBoard 1
      = .ok (some (leaderboardAt noDaggersBoard 1 [playerAt noDaggersBoard 83 "GORED"]), none) := by
    refine GetScores_of_records _ 1 _ (by decide) (by decide) ?_
    intro i hi
    have hi0 : i = 0 := by simpa using hi
    subst hi0
    exact hp83
  have c1 := accuracy_zero_when_none_fired.1 _ _ _ hp
  have c2 := accuracy_zero_when_none_fired.2 _ _ _ hlb
  exact ⟨⟨_, hp, by decide, by decide, c1.1 (by decide), by decide, by decide,
      c1.2.1 (by decide)⟩,
    ⟨_, hlb, by decide, by decide, c2.1 (by decide), rfl⟩⟩

/-! ## Record offsets, number of players -/

theorem recordOffset_step (b : List Byte) (start : Int) (i : Nat) :
    recordOffset 88 b start (i + 1)
      = recordOffset 88 b start i + intAt b (recordOffset 88 b start i) 2 + 90 := by
  rw [recordOffset]; omega

set_option maxRecDepth 100000 in
theorem twoRecords_decoded :
    GetScoresBytesToLeaderboard twoRecords 2
      = .ok (some (leaderboardAt twoRecords 2
          [playerAt twoRecords 83 "GORED", playerAt twoRecords 175 "GORED"]), none) := by
  have hp0 : BytesToPlayer twoRecords 83 = .ok (some (playerAt twoRecords 83 "GORED"), none) :=
    BytesToPlayer_ok_of_tag _ 83 (by decide) (by decide) (by decide) (by decide) (by decide)
  have hp1 : BytesToPlayer twoRecords 175 = .ok (some (playerAt twoRecords 175 "GORED"), none) :=
    BytesToPlayer_ok_of_tag _ 175 (by decide) (by decide) (by decide) (by decide) (by decide)
  refine GetScores_of_records _ 2 _ (by decide) (by decide) ?_
  intro i hi
  have hi2 : i < 2 := by simpa using hi
  have hcases : i = 0 ∨ i = 1 := by omega
  rcases hcases with rfl | rfl
  · exact hp0
  · rw [show recordOffset 88 twoRecords 83 1 = 175 by decide]
    exact hp1

set_option maxRecDepth 100000 in
/-- **C8 (as stated), refuted.** In `twoRecords` the first record is at offset 83 and its
name has length 2, so the claim places the second record at 83 + 2 + 2 + 90 = 177. The
decoder returns as second player (id 8) the record at offset 175 = 83 + 2 + 90; nothing
decodes at offset 177. -/
theorem second_record_not_at_name_plus_92 :
    intAt twoRecords 83 2 = 2 ∧ recordOffset 90 twoRecords 83 1 = 177
      ∧ GetScoresBytesToLeaderboard twoRecords 2
          = .ok (some (leaderboardAt twoRecords 2
              [playerAt twoRecords 83 "GORED", playerAt twoRecords 175 "GORED"]), none)
      ∧ (playerAt twoRecords 175 "GORED").PlayerID = 8
      ∧ BytesToPlayer twoRecords 175 = .ok (some (playerAt twoRecords 175 "GORED"), none)
      ∧ BytesToPlayer twoRecords 177 = .error .sliceBounds :=
  ⟨by decide, by decide, twoRecords_decoded, by decide,
    BytesToPlayer_ok_of_tag _ 175 (by decide) (by decide) (by decide) (by decide) (by decide),
    by decide⟩

/-- **C8 (amended).** The first record is decoded at the fixed offset following the header
(83 for a leaderboard, 19 for a search result), and after a record decoded at offset `o`
with name length `L` the next one is decoded at `o + L + 90`: a record is its 2-byte length
prefix, its name and an 88-byte tail. The players returned are exactly the records decoded
at these offsets, and conversely records that decode at these offsets are returned. -/
theorem record_offsets :
    (∀ (b : List Byte) (start : Int) (i : Nat),
        recordOffset 88 b start 0 = start
          ∧ recordOffset 88 b start (i + 1)
              = recordOffset 88 b start i + intAt b (recordOffset 88 b start i) 2 + 90)
      ∧ (∀ (b : List Byte) (limit : Int) (lb : Leaderboard),
          GetScoresBytesToLeaderboard b limit = .ok (some lb, none) →
          ∀ i (hi : i < lb.Players.length),
            BytesToPlayer b (recordOffset 88 b 83 i) = .ok (some (lb.Players.get ⟨i, hi⟩), none))
      ∧ (∀ (b : List Byte) (ps : List Player),
          UserSearchBytesToPlayers b = .ok (some ps, none) →
          ∀ i (hi : i < ps.length),
            BytesToPlayer b (recordOffset 88 b 19 i) = .ok (some (ps.get ⟨i, hi⟩), none))
      ∧ (∀ (b : List Byte) (limit : Int) (qs : List Player), 79 ≤ b.length →
          qs.length = (playerCountAt b limit).toNat →
          (∀ i (hi : i < qs.length),
            BytesToPlayer b (recordOffset 88 b 83 i) = .ok (some (qs.get ⟨i, hi⟩), none)) →
          ∃ lb, GetScoresBytesToLeaderboard b limit = .ok (some lb, none) ∧ lb.Players = qs)
      ∧ (∀ (b : List Byte) (qs : List Player), 13 ≤ b.length → 1 ≤ intAt b 11 2 →
          qs.length = (intAt b 11 2).toNat →
          (∀ i (hi : i < qs.length),
            BytesToPlayer b (recordOffset 88 b 19 i) = .ok (some (qs.get ⟨i, hi⟩), none)) →
          UserSearchBytesToPlayers b = .ok (some qs, none)) := by
  refine ⟨fun b start i => ⟨rfl, recordOffset_step b start i⟩, ?_, ?_, ?_, ?_⟩
  · intro b limit lb h
    exact (GetScores_some_inv h).2.2.2
  · intro b ps h
    exact (UserSearch_some_inv h).2.2.2
  · intro b limit qs hlen hn hget
    exact ⟨_, GetScores_of_records b limit qs hlen hn hget, rfl⟩
  · intro b qs hlen hc hn hget
    exact UserSearch_of_records b qs hlen hc hn hget

set_option maxRecDepth 100000 in
/-- Witness of C8 (amended) on `twoRecords` and `searchTwoRecords`: the second record is
decoded 92 bytes after the first, whose name has length 2. -/
theorem record_offsets_witness :
    recordOffset 88 twoRecords 83 1 = 83 + 2 + 90
      ∧ (∃ lb, GetScoresBytesToLeaderboard twoRecords 2 = .ok (some lb, none)
          ∧ lb.Players = [playerAt twoRecords 83 "GORED", playerAt twoRecords 175 "GORED"])
      ∧ UserSearchBytesToPlayers searchTwoRecords
          = .ok (some [playerAt searchTwoRecords 19 "GORED",
              playerAt searchTwoRecords 111 "GORED"], none) := by
  have hp0 : BytesToPlayer twoRecords 83 = .ok (some (playerAt twoRecords 83 "GORED"), none) :=
    BytesToPlayer_ok_of_tag _ 83 (by decide) (by decide) (by decide) (by decide) (by decide)
  have hp1 : BytesToPlayer twoRecords 175 = .ok (some (playerAt twoRecords 175 "GORED"), none) :=
    BytesToPlayer_ok_of_tag _ 175 (by decide) (by decide) (by decide) (by decide) (by decide)
  have hs0 : BytesToPlayer searchTwoRecords 19
      = .ok (some (playerAt searchTwoRecords 19 "GORED"), none) :=
    BytesToPlayer_ok_of_tag _ 19 (by decide) (by decide) (by decide) (by decide) (by decide)
  have hs1 : BytesToPlayer searchTwoRecords 111
      = .ok (some (playerAt searchTwoRecords 111 "GORED"), none) :=
    BytesToPlayer_ok_of_tag _ 111 (by decide) (by decide) (by decide) (by decide) (by decide)
  have hstep := (record_offsets.1 twoRecords 83 0).2
  refine ⟨by rw [hstep]; decide, ?_, ?_⟩
  · refine record_offsets.2.2.2.1 twoRecords 2 _ (by decide) (by decide) ?_
    intro i hi
    have hi2 : i < 2 := by simpa using hi
    have hcases : i = 0 ∨ i = 1 := by omega
    rcases hcases with rfl | rfl
    · exact hp0
    · rw [show recordOffset 88 twoRecords 83 1 = 175 by decide]
      exact hp1
  · refine record_offsets.2.2.2.2 searchTwoRecords _ (by decide) (by decide) (by decide) ?_
    intro i hi
    have hi2 : i < 2 := by simpa using hi
    have hcases : i = 0 ∨ i = 1 := by omega
    rcases hcases with rfl | rfl
    · exact hs0
    · rw [show recordOffset 88 searchTwoRecords 19 1 = 111 by decide]
      exact hs1

theorem playerCountAt_eq_min (b : List Byte) (limit : Int) :
    playerCountAt b limit = min limit (intAt b 59 2) := by
  unfold playerCountAt
  split <;> omega

theorem players_take_of_records {b : List Byte} {ps qs : List Player} {start : Int}
    (hps : ∀ i (hi : i < ps.length),
      BytesToPlayer b (recordOffset 88 b start i) = .ok (some (ps.get ⟨i, hi⟩), none))
    (hqs : ∀ i (hi : i < qs.length),
      BytesToPlayer b (recordOffset 88 b start i) = .ok (some (qs.get ⟨i, hi⟩), none))
    (hle : ps.length ≤ qs.length) : ps = qs.take ps.length := by
  apply List.ext_get
  · simp [List.length_take, hle]
  · intro i h1 h2
    have hq : i < qs.length := by omega
    have e1 := hps i h1
    have e2 := hqs i hq
    rw [e1] at e2
    simp only [Except.ok.injEq, Prod.mk.injEq, Option.some.injEq, and_true] at e2
    rw [e2]
    simp [List.get_eq_getElem, List.getElem_take]

set_option maxRecDepth 100000 in
/-- **C2 (as stated), refuted.** `negativeCount` declares the count `0xFFFF` and holds a
complete record; decoding it with limit 1 succeeds and returns no player, whereas
`min(1, 65535) = 1` and `min(1, -1) = -1`. -/
theorem players_length_not_min :
    uintAt negativeCount 59 2 = 65535 ∧ intAt negativeCount 59 2 = -1
      ∧ BytesToPlayer negativeCount 83 = .ok (some (playerAt negativeCount 83 "GORED"), none)
      ∧ GetScoresBytesToLeaderboard negativeCount 1
          = .ok (some (leaderboardAt negativeCount 1 []), none)
      ∧ (((leaderboardAt negativeCount 1 []).Players.length : Int) ≠ min 1 65535)
      ∧ (((leaderboardAt negativeCount 1 []).Players.length : Int) ≠ min 1 (-1)) := by
  refine ⟨by decide, by decide, ?_, ?_, by decide, by decide⟩
  · exact BytesToPlayer_ok_of_tag _ 83 (by decide) (by decide) (by decide) (by decide)
      (by decide)
  · exact GetScores_of_records _ 1 [] (by decide) (by decide) (fun i hi => absurd hi (by simp))

/-- **C2 (amended).** When `GetScoresBytesToLeaderboard` succeeds, the number of players
returned is `max(0, min(limit, declared))`, `declared` being the `int16` at offset 59 (a
negative limit or declared count yields no player, while `PlayerCount` keeps the negative
minimum); player `i` is the record decoded at the `i`-th record offset; and the players
returned for a limit are the first `limit` players returned for any larger limit. -/
theorem players_length_and_take (b : List Byte) (limit : Int) (lb : Leaderboard)
    (h : GetScoresBytesToLeaderboard b limit = .ok (some lb, none)) :
    (lb.Players.length : Int) = max 0 (min limit (intAt b 59 2))
      ∧ lb.PlayerCount = min limit (intAt b 59 2)
      ∧ (∀ i (hi : i < lb.Players.length),
          BytesToPlayer b (recordOffset 88 b 83 i) = .ok (some (lb.Players.get ⟨i, hi⟩), none))
      ∧ ∀ (limit' : Int) (lb' : Leaderboard), limit ≤ limit' →
          GetScoresBytesToLeaderboard b limit' = .ok (some lb', none) →
          lb.Players = lb'.Players.take limit.toNat := by
  obtain ⟨-, hlb, hn, hget⟩ := GetScores_some_inv h
  rw [playerCountAt_eq_min] at hn
  refine ⟨by omega, ?_, hget, ?_⟩
  · rw [hlb]; exact playerCountAt_eq_min b limit
  · intro limit' lb' hle h'
    obtain ⟨-, -, hn', hget'⟩ := GetScores_some_inv h'
    rw [playerCountAt_eq_min] at hn'
    have hlen : lb.Players.length ≤ lb'.Players.length := by omega
    have hpre := players_take_of_records hget hget' hlen
    have htake : lb'.Players.take limit.toNat = lb'.Players.take lb.Players.length := by
      by_cases hc : limit.toNat ≤ lb'.Players.length
      · congr 1; omega
      · rw [List.take_of_length_le (by omega), List.take_of_length_le (by omega)]
    rw [htake]
    exact hpre

set_option maxRecDepth 100000 in
/-- Witness of C2 (amended): `twoRecords` declares 2 players; with limit 1 exactly one
player is returned, the first of the two returned with limit 2. -/
theorem players_length_and_take_witness :
    ∃ lb lb', GetScoresBytesToLeaderboard twoRecords 1 = .ok (some lb, none)
      ∧ GetScoresBytesToLeaderboard twoRecords 2 = .ok (some lb', none)
      ∧ (lb.Players.length : Int) = 1 ∧ (lb'.Players.length : Int) = 2
      ∧ lb.Players = lb'.Players.take (1 : Int).toNat := by
  have hp0 : BytesToPlayer twoRecords 83 = .ok (some (playerAt twoRecords 83 "GORED"), none) :=
    BytesToPlayer_ok_of_tag _ 83 (by decide) (by decide) (by decide) (by decide) (by decide)
  have h1 : GetScoresBytesToLeaderboard twoRecords 1
      = .ok (some (leaderboardAt twoRecords 1 [playerAt twoRecords 83 "GORED"]), none) := by
    refine GetScores_of_records _ 1 _ (by decide) (by decide) ?_
    intro i hi
    have hi0 : i = 0 := by simpa using hi
    subst hi0
    exact hp0
  have c := players_length_and_take twoRecords 1 _ h1
  exact ⟨_, _, h1, twoRecords_decoded, by rw [c.1]; decide, rfl,
    c.2.2.2 2 _ (by decide) twoRecords_decoded⟩

/-! ## Fail-fast on a zero id -/

theorem recordOffset_ge_start (b : List Byte) (start : Int) :
    ∀ j : Nat,
      (∀ i, i < j → ∃ p, BytesToPlayer b (recordOffset 88 b start i) = .ok (some p, none)) →
      start ≤ recordOffset 88 b start j := by
  intro j
  induction j with
  | zero => intro _; exact le_refl _
  | succ j ih =>
    intro hok
    have hprev := ih (fun i hi => hok i (by omega))
    obtain ⟨p, hp⟩ := hok j (by omega)
    obtain ⟨-, hL, -, -⟩ := BytesToPlayer_some_bounds hp
    rw [recordOffset_step]
    omega

theorem GetScores_result_shape {b : List Byte} {limit : Int}
    {r : Option Leaderboard} {e : Option DecodeError}
    (h : GetScoresBytesToLeaderboard b limit = .ok (r, e)) :
    (r = none ∧ e = some .ErrPlayerNotFound) ∨ (∃ lb, r = some lb ∧ e = none) := by
  have hlen : 79 ≤ b.length := by
    by_contra hc
    rw [GetScores_short b limit (by omega)] at h
    cases h
  rw [GetScores_eq b limit hlen] at h
  cases hd : decodeRecords b (playerCountAt b limit).toNat 83 [] with
  | error e => rw [hd] at h; cases h
  | ok res =>
    cases res with
    | none => rw [hd] at h; cases h; exact Or.inl ⟨rfl, rfl⟩
    | some ps => rw [hd] at h; cases h; exact Or.inr ⟨_, rfl, rfl⟩

theorem UserSearch_result_shape {b : List Byte}
    {r : Option (List Player)} {e : Option DecodeError}
    (h : UserSearchBytesToPlayers b = .ok (r, e)) :
    (r = none ∧ (e = some .ErrPlayerNotFound ∨ e = some .ErrNoPlayersFound))
      ∨ (∃ ps, r = some ps ∧ e = none) := by
  have hlen : 13 ≤ b.length := by
    by_contra hc
    rw [UserSearch_short b (by omega)] at h
    cases h
  by_cases hc : 1 ≤ intAt b 11 2
  · rw [UserSearch_eq b hlen hc] at h
    cases hd : decodeRecords b (intAt b 11 2).toNat 19 [] with
    | error e => rw [hd] at h; cases h
    | ok res =>
      cases res with
      | none => rw [hd] at h; cases h; exact Or.inl ⟨rfl, Or.inl rfl⟩
      | some ps => rw [hd] at h; cases h; exact Or.inr ⟨_, rfl, rfl⟩
  · rw [UserSearch_count_le_zero b hlen (by omega)] at h
    cases h
    exact Or.inl ⟨rfl, Or.inr rfl⟩

theorem GetScores_zero_id (b : List Byte) (limit : Int) (j : Nat)
    (hj : (j : Int) < min limit (intAt b 59 2))
    (hok : ∀ i, i < j → ∃ p, BytesToPlayer b (recordOffset 88 b 83 i) = .ok (some p, none))
    (hL : 0 ≤ intAt b (recordOffset 88 b 83 j) 2)
    (hlen : tailStart b (recordOffset 88 b 83 j) + 12 ≤ (b.length : Int))
    (hid : uintAt b (tailStart b (recordOffset 88 b 83 j) + 4) 8 = 0) :
    GetScoresBytesToLeaderboard b limit = .ok (none, some .ErrPlayerNotFound) := by
  have hge := recordOffset_ge_start b 83 j hok
  unfold tailStart at hlen hid
  have hz := BytesToPlayer_zero_id b _ (by omega) hL hlen hid
  have hb : 79 ≤ b.length := by omega
  rw [GetScores_eq b limit hb,
    decodeRecords_of_err b j _ 83 [] (by rw [playerCountAt_eq_min]; omega) hok ⟨_, _, hz⟩]

theorem UserSearch_zero_id (b : List Byte) (j : Nat)
    (hj : (j : Int) < intAt b 11 2)
    (hok : ∀ i, i < j → ∃ p, BytesToPlayer b (recordOffset 88 b 19 i) = .ok (some p, none))
    (hL : 0 ≤ intAt b (recordOffset 88 b 19 j) 2)
    (hlen : tailStart b (recordOffset 88 b 19 j) + 12 ≤ (b.length : Int))
    (hid : uintAt b (tailStart b (recordOffset 88 b 19 j) + 4) 8 = 0) :
    UserSearchBytesToPlayers b = .ok (none, some .ErrPlayerNotFound) := by
  have hge := recordOffset_ge_start b 19 j hok
  unfold tailStart at hlen hid
  have hz := BytesToPlayer_zero_id b _ (by omega) hL hlen hid
  have hb : 13 ≤ b.length := by omega
  rw [UserSearch_eq b hb (by omega),
    decodeRecords_of_err b j _ 19 [] (by omega) hok ⟨_, _, hz⟩]

set_option maxRecDepth 100000 in
/-- **C4 (as stated), refuted.** `zeroIdNegativeLength` declares one player, and the id of
its record is zero; the name-length prefix of that record is -1, and both decoders fault
on the name slice instead of returning `nil, ErrPlayerNotFound`. `zeroIdAfterBadDeathType`
declares two players, the second of which has id 0; the first has the death-type index 16,
and the decoder faults on it before it reaches the second. -/
theorem zero_id_record_faults :
    intAt zeroIdNegativeLength 59 2 = 1
      ∧ intAt zeroIdNegativeLength 83 2 = -1
      ∧ uintAt zeroIdNegativeLength (tailStart zeroIdNegativeLength 83 + 4) 8 = 0
      ∧ GetScoresBytesToLeaderboard zeroIdNegativeLength 1 = .error .sliceBounds
      ∧ intAt searchZeroIdNegativeLength 11 2 = 1
      ∧ uintAt searchZeroIdNegativeLength (tailStart searchZeroIdNegativeLength 19 + 4) 8 = 0
      ∧ UserSearchBytesToPlayers searchZeroIdNegativeLength = .error .sliceBounds
      ∧ intAt zeroIdAfterBadDeathType 59 2 = 2
      ∧ uintAt zeroIdAfterBadDeathType
          (tailStart zeroIdAfterBadDeathType (recordOffset 88 zeroIdAfterBadDeathType 83 1) + 4) 8
          = 0
      ∧ GetScoresBytesToLeaderboard zeroIdAfterBadDeathType 2 = .error .indexOutOfRange := by
  decide

/-- **C4 (amended).** When record `j`, among the first `min(limit, declared)` records and
reached through records `0 .. j-1` that decode, has a non-negative name length, an id field
within the buffer and the player id 0, `GetScoresBytesToLeaderboard` returns
`nil, ErrPlayerNotFound`; likewise `UserSearchBytesToPlayers` for any of its declared
records. Neither decoder ever returns a value together with an error: the result is either
`nil` and an error, or a value and no error. -/
theorem zero_id_aborts_decode :
    (∀ (b : List Byte) (limit : Int) (j : Nat),
        (j : Int) < min limit (intAt b 59 2) →
        (∀ i, i < j → ∃ p, BytesToPlayer b (recordOffset 88 b 83 i) = .ok (some p, none)) →
        0 ≤ intAt b (recordOffset 88 b 83 j) 2 →
        tailStart b (recordOffset 88 b 83 j) + 12 ≤ (b.length : Int) →
        uintAt b (tailStart b (recordOffset 88 b 83 j) + 4) 8 = 0 →
        GetScoresBytesToLeaderboard b limit = .ok (none, some .ErrPlayerNotFound))
      ∧ (∀ (b : List Byte) (j : Nat),
          (j : Int) < intAt b 11 2 →
          (∀ i, i < j → ∃ p, BytesToPlayer b (recordOffset 88 b 19 i) = .ok (some p, none)) →
          0 ≤ intAt b (recordOffset 88 b 19 j) 2 →
          tailStart b (recordOffset 88 b 19 j) + 12 ≤ (b.length : Int) →
          uintAt b (tailStart b (recordOffset 88 b 19 j) + 4) 8 = 0 →
          UserSearchBytesToPlayers b = .ok (none, some .ErrPlayerNotFound))
      ∧ (∀ (b : List Byte) (limit : Int) (r : Option Leaderboard) (e : Option DecodeError),
          GetScoresBytesToLeaderboard b limit = .ok (r, e) →
          (r = none ∧ e = some .ErrPlayerNotFound) ∨ (∃ lb, r = some lb ∧ e = none))
      ∧ (∀ (b : List Byte) (r : Option (List Player)) (e : Option DecodeError),
          UserSearchBytesToPlayers b = .ok (r, e) →
          (r = none ∧ (e = some .ErrPlayerNotFound ∨ e = some .ErrNoPlayersFound))
            ∨ (∃ ps, r = some ps ∧ e = none)) :=
  ⟨GetScores_zero_id, UserSearch_zero_id, fun _ _ _ _ h => GetScores_result_shape h,
    fun _ _ _ h => UserSearch_result_shape h⟩

set_option maxRecDepth 100000 in
/-- Witness of C4 (amended): in `zeroIdSecond` and `searchZeroIdSecond` the first record
decodes and the second has id 0; both decoders return `nil, ErrPlayerNotFound`. -/
theorem zero_id_aborts_decode_witness :
    GetScoresBytesToLeaderboard zeroIdSecond 2 = .ok (none, some .ErrPlayerNotFound)
      ∧ UserSearchBytesToPlayers searchZeroIdSecond = .ok (none, some .ErrPlayerNotFound) := by
  have hp0 : BytesToPlayer zeroIdSecond 83
      = .ok (some (playerAt zeroIdSecond 83 "GORED"), none) :=
    BytesToPlayer_ok_of_tag _ 83 (by decide) (by decide) (by decide) (by decide) (by decide)
  have hs0 : BytesToPlayer searchZeroIdSecond 19
      = .ok (some (playerAt searchZeroIdSecond 19 "GORED"), none) :=
    BytesToPlayer_ok_of_tag _ 19 (by decide) (by decide) (by decide) (by decide) (by decide)
  refine ⟨zero_id_aborts_decode.1 zeroIdSecond 2 1 (by decide) ?_ (by decide) (by decide)
      (by decide),
    zero_id_aborts_decode.2.1 searchZeroIdSecond 1 (by decide) ?_ (by decide) (by decide)
      (by decide)⟩
  · intro i hi
    have hi0 : i = 0 := by omega
    subst hi0
    exact ⟨_, hp0⟩
  · intro i hi
    have hi0 : i = 0 := by omega
    subst hi0
    exact ⟨_, hs0⟩

/-! ## Round trip through the encoder -/

theorem length_leBytes (w n : Nat) : (leBytes w n).length = w := by
  induction w generalizing n with
  | zero => rfl
  | succ w ih => simp [leBytes, ih]

theorem leUint_leBytes (w n : Nat) : leUint (leBytes w n) = n % 256 ^ w := by
  induction w generalizing n with
  | zero => simp [leBytes, leUint, Nat.mod_one]
  | succ w ih =>
    have h := ih (n / 256)
    simp only [leUint] at h
    simp only [leBytes, leUint, List.foldr_cons, h]
    rw [pow_succ, mul_comm (256 ^ w) 256, Nat.mod_mul]

theorem leUint_leBytes_of_lt {w n : Nat} (h : n < 256 ^ w) : leUint (leBytes w n) = n := by
  rw [leUint_leBytes, Nat.mod_eq_of_lt h]

theorem toSigned_leBytesInt_4 {i : Int} (h : InInt32 i) :
    toSigned (8 * 4) (leUint (leBytesInt 4 i)) = i := by
  obtain ⟨h0, h1⟩ := h
  rw [leBytesInt, leUint_leBytes]
  norm_num at h0 h1 ⊢
  unfold toSigned
  norm_num
  omega

theorem toSigned_leBytes_2 {n : Nat} (h : n < 2 ^ 15) :
    toSigned (8 * 2) (leUint (leBytes 2 n)) = n := by
  rw [leUint_leBytes]
  norm_num at h ⊢
  unfold toSigned
  norm_num
  omega

theorem field_natCast (b : List Byte) (n w : Nat) :
    field b (n : Int) w = (b.drop n).take w := by
  rw [field, Int.toNat_ofNat]

theorem field_skip (xs rest : List Byte) (n w : Nat) (h : xs.length ≤ n) :
    ((xs ++ rest).drop n).take w = (rest.drop (n - xs.length)).take w := by
  rw [List.drop_append_eq_append_drop, List.drop_of_length_le h, List.nil_append]

theorem field_hit (xs rest : List Byte) (w : Nat) (h : xs.length = w) :
    ((xs ++ rest).drop 0).take w = xs := by
  rw [List.drop_zero, ← h, List.take_left]

theorem length_leBytesInt (w : Nat) (i : Int) : (leBytesInt w i).length = w :=
  length_leBytes w _

theorem field_at_tail (pre rest : List Byte) (L k w : Nat) (off : Int)
    (hoff : off = pre.length + 2 + L + k) :
    field (pre ++ rest) off w = ((pre ++ rest).drop (pre.length + (2 + (L + k)))).take w := by
  subst hoff
  rw [← field_natCast]
  congr 1
  push_cast
  ring

theorem indexDeathTypes_indexOf {tag : String} (h : tag ∈ DeathTypes) :
    (DeathTypes.indexOf tag) < 16
      ∧ indexDeathTypes ((DeathTypes.indexOf tag : Nat) : Int) = .ok tag := by
  have hlt : DeathTypes.indexOf tag < DeathTypes.length := List.indexOf_lt_length.mpr h
  have h16 : DeathTypes.length = 16 := rfl
  refine ⟨by omega, ?_⟩
  have hget : DeathTypes.get? (DeathTypes.indexOf tag) = some tag := List.indexOf_get? h
  simp only [indexDeathTypes, Int.toNat_ofNat, hget]
  simp

/-- The fields of an encoded record, read back at their offsets. -/
theorem encoded_record_fields (pre post : List Byte) (tail : Nat) (p : Player)
    (hw : p.WellFormed) :
    let b := pre ++ (encodePlayer tail p ++ post)
    let o : Int := pre.length
    let t : Int := o + 2 + p.PlayerName.length
    intAt b o 2 = p.PlayerName.length
      ∧ field b (o + 2) p.PlayerName.length = p.PlayerName
      ∧ intAt b t 4 = p.Rank
      ∧ uintAt b (t + 4) 8 = p.PlayerID
      ∧ intAt b (t + 12) 4 = rawTicks p.Time 10000
      ∧ intAt b (t + 16) 4 = p.Kills
      ∧ intAt b (t + 20) 4 = p.DaggersFired
      ∧ intAt b (t + 24) 4 = p.DaggersHit
      ∧ intAt b (t + 28) 4 = p.Gems
      ∧ intAt b (t + 32) 2 = (DeathTypes.indexOf p.DeathType : Nat)
      ∧ uintAt b (t + 36) 8 = p.OverallDeaths
      ∧ uintAt b (t + 44) 8 = p.OverallKills
      ∧ uintAt b (t + 52) 8 = p.OverallDaggersFired
      ∧ uintAt b (t + 60) 8 = (rawTicks p.OverallTime 10000).toNat
      ∧ uintAt b (t + 68) 8 = p.OverallGems
      ∧ uintAt b (t + 76) 8 = p.OverallDaggersHit := by
  intro b o t
  have h64 : (256 : Nat) ^ 8 = 2 ^ 64 := by norm_num
  have hidx := (indexDeathTypes_indexOf hw.tag).1
  have walk : ∀ (k w : Nat) (x : List Byte),
      ((pre ++ (encodePlayer tail p ++ post)).drop
        (pre.length + (2 + (p.PlayerName.length + k)))).take w = x →
      ∀ off : Int, off = pre.length + 2 + p.PlayerName.length + k → field b off w = x := by
    intro k w x hx off hoff
    rw [field_at_tail pre _ p.PlayerName.length k w off hoff]
    exact hx
  have f0 : field b o 2 = leBytes 2 p.PlayerName.length := by
    show field (pre ++ (encodePlayer tail p ++ post)) ((pre.length : Nat) : Int) 2 = _
    rw [field_natCast]
    simp only [encodePlayer, List.append_assoc]
    rw [field_skip _ _ _ _ (le_refl _), Nat.sub_self]
    exact field_hit _ _ 2 (length_leBytes _ _)
  have fname : field b (o + 2) p.PlayerName.length = p.PlayerName := by
    show field (pre ++ (encodePlayer tail p ++ post)) ((pre.length : Int) + 2) _ = _
    rw [show ((pre.length : Int) + 2) = ((pre.length + 2 : Nat) : Int) by push_cast; rfl,
      field_natCast]
    simp only [encodePlayer, List.append_assoc]
    simp (disch := simp [length_leBytes]) only [field_skip, field_hit, length_leBytes,
      Nat.add_sub_cancel_left, Nat.sub_self]
  have frank : field b t 4 = leBytesInt 4 p.Rank := walk 0 4 _ (by
    simp only [encodePlayer, List.append_assoc]
    simp (disch := simp [length_leBytes, length_leBytesInt]) only [field_skip, field_hit,
      length_leBytes, length_leBytesInt, List.length_replicate, Nat.add_sub_cancel_left,
      Nat.reduceSub, Nat.sub_self, Nat.add_zero]) _ (by simp only [t, o]; omega)
  have fid : field b (t + 4) 8 = leBytes 8 p.PlayerID := walk 4 8 _ (by
    simp only [encodePlayer, List.append_assoc]
    simp (disch := simp [length_leBytes, length_leBytesInt]) only [field_skip, field_hit,
      length_leBytes, length_leBytesInt, List.length_replicate, Nat.add_sub_cancel_left,
      Nat.reduceSub, Nat.sub_self, Nat.add_zero]) _ (by simp only [t, o]; omega)
  have ftime : field b (t + 12) 4 = leBytesInt 4 (rawTicks p.Time 10000) := walk 12 4 _ (by
    simp only [encodePlayer, List.append_assoc]
    simp (disch := simp [length_leBytes, length_leBytesInt]) only [field_skip, field_hit,
      length_leBytes, length_leBytesInt, List.length_replicate, Nat.add_sub_cancel_left,
      Nat.reduceSub, Nat.sub_self, Nat.add_zero]) _ (by simp only [t, o]; omega)
  have fkills : field b (t + 16) 4 = leBytesInt 4 p.Kills := walk 16 4 _ (by
    simp only [encodePlayer, List.append_assoc]
    simp (disch := simp [length_leBytes, length_leBytesInt]) only [field_skip, field_hit,
      length_leBytes, length_leBytesInt, List.length_replicate, Nat.add_sub_cancel_left,
      Nat.reduceSub, Nat.sub_self, Nat.add_zero]) _ (by simp only [t, o]; omega)
  have ffired : field b (t + 20) 4 = leBytesInt 4 p.DaggersFired := walk 20 4 _ (by
    simp only [encodePlayer, List.append_assoc]
    simp (disch := simp [length_leBytes, length_leBytesInt]) only [field_skip, field_hit,
      length_leBytes, length_leBytesInt, List.length_replicate, Nat.add_sub_cancel_left,
      Nat.reduceSub, Nat.sub_self, Nat.add_zero]) _ (by simp only [t, o]; omega)
  have fhit : field b (t + 24) 4 = leBytesInt 4 p.DaggersHit := walk 24 4 _ (by
    simp only [encodePlayer, List.append_assoc]
    simp (disch := simp [length_leBytes, length_leBytesInt]) only [field_skip, field_hit,
      length_leBytes, length_leBytesInt, List.length_replicate, Nat.add_sub_cancel_left,
      Nat.reduceSub, Nat.sub_self, Nat.add_zero]) _ (by simp only [t, o]; omega)
  have fgems : field b (t + 28) 4 = leBytesInt 4 p.Gems := walk 28 4 _ (by
    simp only [encodePlayer, List.append_assoc]
    simp (disch := simp [length_leBytes, length_leBytesInt]) only [field_skip, field_hit,
      length_leBytes, length_leBytesInt, List.length_replicate, Nat.add_sub_cancel_left,
      Nat.reduceSub, Nat.sub_self, Nat.add_zero]) _ (by simp only [t, o]; omega)
  have ftag : field b (t + 32) 2 = leBytes 2 (DeathTypes.indexOf p.DeathType) := walk 32 2 _ (by
    simp only [encodePlayer, List.append_assoc]
    simp (disch := simp [length_leBytes, length_leBytesInt]) only [field_skip, field_hit,
      length_leBytes, length_leBytesInt, List.length_replicate, Nat.add_sub_cancel_left,
      Nat.reduceSub, Nat.sub_self, Nat.add_zero]) _ (by simp only [t, o]; omega)
  have fodeaths : field b (t + 36) 8 = leBytes 8 p.OverallDeaths := walk 36 8 _ (by
    simp only [encodePlayer, List.append_assoc]
    simp (disch := simp [length_leBytes, length_leBytesInt]) only [field_skip, field_hit,
      length_leBytes, length_leBytesInt, List.length_replicate, Nat.add_sub_cancel_left,
      Nat.reduceSub, Nat.sub_self, Nat.add_zero]) _ (by simp only [t, o]; omega)
  have fokills : field b (t + 44) 8 = leBytes 8 p.OverallKills := walk 44 8 _ (by
    simp only [encodePlayer, List.append_assoc]
    simp (disch := simp [length_leBytes, length_leBytesInt]) only [field_skip, field_hit,
      length_leBytes, length_leBytesInt, List.length_replicate, Nat.add_sub_cancel_left,
      Nat.reduceSub, Nat.sub_self, Nat.add_zero]) _ (by simp only [t, o]; omega)
  have fofired : field b (t + 52) 8 = leBytes 8 p.OverallDaggersFired := walk 52 8 _ (by
    simp only [encodePlayer, List.append_assoc]
    simp (disch := simp [length_leBytes, length_leBytesInt]) only [field_skip, field_hit,
      length_leBytes, length_leBytesInt, List.length_replicate, Nat.add_sub_cancel_left,
      Nat.reduceSub, Nat.sub_self, Nat.add_zero]) _ (by simp only [t, o]; omega)
  have fotime : field b (t + 60) 8 = leBytes 8 (rawTicks p.OverallTime 10000).toNat := walk 60 8 _ (by
    simp only [encodePlayer, List.append_assoc]
    simp (disch := simp [length_leBytes, length_leBytesInt]) only [field_skip, field_hit,
      length_leBytes, length_leBytesInt, List.length_replicate, Nat.add_sub_cancel_left,
      Nat.reduceSub, Nat.sub_self, Nat.add_zero]) _ (by simp only [t, o]; omega)
  have fogems : field b (t + 68) 8 = leBytes 8 p.OverallGems := walk 68 8 _ (by
    simp only [encodePlayer, List.append_assoc]
    simp (disch := simp [length_leBytes, length_leBytesInt]) only [field_skip, field_hit,
      length_leBytes, length_leBytesInt, List.length_replicate, Nat.add_sub_cancel_left,
      Nat.reduceSub, Nat.sub_self, Nat.add_zero]) _ (by simp only [t, o]; omega)
  have fohit : field b (t + 76) 8 = leBytes 8 p.OverallDaggersHit := walk 76 8 _ (by
    simp only [encodePlayer, List.append_assoc]
    simp (disch := simp [length_leBytes, length_leBytesInt]) only [field_skip, field_hit,
      length_leBytes, length_leBytesInt, List.length_replicate, Nat.add_sub_cancel_left,
      Nat.reduceSub, Nat.sub_self, Nat.add_zero]) _ (by simp only [t, o]; omega)
  have u8 : ∀ {n : Nat}, n < 2 ^ 64 → leUint (leBytes 8 n) = n := fun h =>
    leUint_leBytes_of_lt (by rw [h64]; exact h)
  refine ⟨?_, fname, ?_, ?_, ?_, ?_, ?_, ?_, ?_, ?_, ?_, ?_, ?_, ?_, ?_, ?_⟩
  · rw [intAt, uintAt, f0]; exact toSigned_leBytes_2 hw.name
  · rw [intAt, uintAt, frank]; exact toSigned_leBytesInt_4 hw.rank
  · rw [uintAt, fid]; exact u8 hw.id_lt
  · rw [intAt, uintAt, ftime]; exact toSigned_leBytesInt_4 hw.time_range
  · rw [intAt, uintAt, fkills]; exact toSigned_leBytesInt_4 hw.kills
  · rw [intAt, uintAt, ffired]; exact toSigned_leBytesInt_4 hw.fired
  · rw [intAt, uintAt, fhit]; exact toSigned_leBytesInt_4 hw.hit
  · rw [intAt, uintAt, fgems]; exact toSigned_leBytesInt_4 hw.gems
  · rw [intAt, uintAt, ftag]; exact toSigned_leBytes_2 (by omega)
  · rw [uintAt, fodeaths]; exact u8 hw.overallDeaths
  · rw [uintAt, fokills]; exact u8 hw.overallKills
  · rw [uintAt, fofired]; exact u8 hw.overallFired
  · rw [uintAt, fotime]; exact u8 (lt_trans hw.overallTime_lt (by norm_num))
  · rw [uintAt, fogems]; exact u8 hw.overallGems
  · rw [uintAt, fohit]; exact u8 hw.overallHit

theorem length_encodePlayer (tail : Nat) (p : Player) (ht : 84 ≤ tail) :
    (encodePlayer tail p).length = 2 + p.PlayerName.length + tail := by
  simp only [encodePlayer, List.length_append, length_leBytes, length_leBytesInt,
    List.length_replicate]
  omega

theorem playerAt_encoded (pre post : List Byte) (tail : Nat) (p : Player)
    (hw : p.WellFormed) :
    playerAt (pre ++ (encodePlayer tail p ++ post)) (pre.length : Int) p.DeathType = p := by
  have H := encoded_record_fields pre post tail p hw
  dsimp only at H
  obtain ⟨h2, hname, hrank, hid, htime, hkills, hfired, hhit, hgems, -, hodeaths, hokills,
    hofired, hotime, hogems, hohit⟩ := H
  have e1 : roundToNearest (F64.div (F64.ofInt (rawTicks p.Time 10000)) (.finite 10000)) 4
      = p.Time := by
    rw [roundToNearest_time _ (abs_le_of_inInt32 hw.time_range), ← hw.time]
  have e2 : roundToNearest
      (F64.div (F64.ofInt ((rawTicks p.OverallTime 10000).toNat : Nat)) (.finite 10000)) 4
      = p.OverallTime := by
    rw [roundToNearest_overallTime _ hw.overallTime_lt, ← hw.overallTime]
  have e3 := hw.accuracy
  have e4 := hw.overallAccuracy
  unfold percentage at e3 e4
  simp only [playerAt, h2, Int.toNat_ofNat, hname, hrank, hid, htime, hkills, hfired, hhit,
    hgems, hodeaths, hokills, hofired, hotime, hogems, hohit]
  cases p
  simp only at e1 e2 e3 e4 ⊢
  simp only [Player.mk.injEq, true_and]
  refine ⟨e1, ?_, e2, ?_⟩
  · rw [e3]
  · rw [e4]
    simp

theorem BytesToPlayer_encoded (pre post : List Byte) (tail : Nat) (p : Player)
    (hw : p.WellFormed) (ht : 84 ≤ tail) :
    BytesToPlayer (pre ++ (encodePlayer tail p ++ post)) (pre.length : Int)
      = .ok (some p, none) := by
  have H := encoded_record_fields pre post tail p hw
  dsimp only at H
  obtain ⟨h2, -, -, hid, -, -, -, -, -, htag, -⟩ := H
  have hlen := length_encodePlayer tail p ht
  have hp := playerAt_encoded pre post tail p hw
  have hres := BytesToPlayer_ok_of_tag (pre ++ (encodePlayer tail p ++ post)) (pre.length : Int)
    (by omega) (by rw [h2]; omega)
    (by rw [h2]; simp only [List.length_append, hlen]; push_cast; omega)
    (by rw [h2, hid]; exact hw.id_ne)
    (by rw [h2, htag]; exact (indexDeathTypes_indexOf hw.tag).2)
  rw [hres, hp]

theorem decodeRecords_encoded :
    ∀ (ps : List Player) (pre post acc : List _), (∀ p ∈ ps, p.WellFormed) →
      decodeRecords (pre ++ (encodePlayers 88 ps ++ post)) ps.length (pre.length : Int) acc
        = .ok (some (acc ++ ps)) := by
  intro ps
  induction ps with
  | nil => intro pre post acc _; simp [decodeRecords, pure, Except.pure]
  | cons p ps ih =>
    intro pre post acc hw
    have hwp : p.WellFormed := hw p (List.mem_cons_self p ps)
    have hbuf : pre ++ (encodePlayers 88 (p :: ps) ++ post)
        = pre ++ (encodePlayer 88 p ++ (encodePlayers 88 ps ++ post)) := by
      simp only [encodePlayers, List.append_assoc]
    have hp := BytesToPlayer_encoded pre (encodePlayers 88 ps ++ post) 88 p hwp (by norm_num)
    have H := encoded_record_fields pre (encodePlayers 88 ps ++ post) 88 p hwp
    dsimp only at H
    have h2 := H.1
    have hlen := length_encodePlayer 88 p (by norm_num)
    rw [hbuf, List.length_cons, decodeRecords_succ_ok hp, h2]
    have hoff : ((pre.length : Int) + 2 + p.PlayerName.length + 88)
        = ((pre ++ encodePlayer 88 p).length : Int) := by
      rw [List.length_append, hlen]; push_cast; omega
    have hbuf2 : pre ++ (encodePlayer 88 p ++ (encodePlayers 88 ps ++ post))
        = (pre ++ encodePlayer 88 p) ++ (encodePlayers 88 ps ++ post) := by
      simp only [List.append_assoc]
    rw [hoff, hbuf2, ih _ _ _ (fun q hq => hw q (List.mem_cons_of_mem p hq))]
    simp

theorem length_encodeHeader (lb : Leaderboard) : (encodeHeader lb).length = 83 := by
  simp only [encodeHeader, List.length_append, length_leBytes, length_leBytesInt,
    List.length_replicate]

theorem encoded_count_field (lb : Leaderboard) (rest : List Byte) :
    field (encodeHeader lb ++ rest) 59 2 = leBytes 2 lb.Players.length := by
  rw [show (59 : Int) = ((59 : Nat) : Int) from rfl, field_natCast]
  simp only [encodeHeader, List.append_assoc]
  simp (disch := simp [length_leBytes, length_leBytesInt]) only [field_skip, field_hit,
    length_leBytes, length_leBytesInt, List.length_replicate, Nat.reduceSub, Nat.sub_self]

/-- The header fields of an encoded leaderboard, read back at their offsets. -/
theorem encoded_header_fields (lb : Leaderboard) (rest : List Byte) (hw : lb.WellFormed)
    (hn : lb.Players.length < 2 ^ 15) :
    uintAt (encodeHeader lb ++ rest) 11 8 = lb.GlobalDeaths
      ∧ uintAt (encodeHeader lb ++ rest) 19 8 = lb.GlobalKills
      ∧ uintAt (encodeHeader lb ++ rest) 27 8 = lb.GlobalDaggersFired
      ∧ uintAt (encodeHeader lb ++ rest) 35 8 = (rawTicks lb.GlobalTime 1000).toNat
      ∧ uintAt (encodeHeader lb ++ rest) 43 8 = lb.GlobalGems
      ∧ uintAt (encodeHeader lb ++ rest) 51 8 = lb.GlobalDaggersHit
      ∧ intAt (encodeHeader lb ++ rest) 59 2 = lb.Players.length
      ∧ intAt (encodeHeader lb ++ rest) 75 4 = lb.GlobalPlayerCount := by
  have h64 : (256 : Nat) ^ 8 = 2 ^ 64 := by norm_num
  have u8 : ∀ {n : Nat}, n < 2 ^ 64 → leUint (leBytes 8 n) = n := fun h =>
    leUint_leBytes_of_lt (by rw [h64]; exact h)
  have walk : ∀ (k w : Nat) (x : List Byte),
      ((encodeHeader lb ++ rest).drop k).take w = x →
      field (encodeHeader lb ++ rest) (k : Int) w = x := by
    intro k w x hx
    rw [field_natCast]; exact hx
  have f11 : field (encodeHeader lb ++ rest) 11 8 = leBytes 8 lb.GlobalDeaths := walk 11 8 _ (by
    simp only [encodeHeader, List.append_assoc]
    simp (disch := simp [length_leBytes, length_leBytesInt]) only [field_skip, field_hit,
      length_leBytes, length_leBytesInt, List.length_replicate, Nat.reduceSub, Nat.sub_self])
  have f19 : field (encodeHeader lb ++ rest) 19 8 = leBytes 8 lb.GlobalKills := walk 19 8 _ (by
    simp only [encodeHeader, List.append_assoc]
    simp (disch := simp [length_leBytes, length_leBytesInt]) only [field_skip, field_hit,
      length_leBytes, length_leBytesInt, List.length_replicate, Nat.reduceSub, Nat.sub_self])
  have f27 : field (encodeHeader lb ++ rest) 27 8 = leBytes 8 lb.GlobalDaggersFired :=
    walk 27 8 _ (by
    simp only [encodeHeader, List.append_assoc]
    simp (disch := simp [length_leBytes, length_leBytesInt]) only [field_skip, field_hit,
      length_leBytes, length_leBytesInt, List.length_replicate, Nat.reduceSub, Nat.sub_self])
  have f35 : field (encodeHeader lb ++ rest) 35 8
      = leBytes 8 (rawTicks lb.GlobalTime 1000).toNat := walk 35 8 _ (by
    simp only [encodeHeader, List.append_assoc]
    simp (disch := simp [length_leBytes, length_leBytesInt]) only [field_skip, field_hit,
      length_leBytes, length_leBytesInt, List.length_replicate, Nat.reduceSub, Nat.sub_self])
  have f43 : field (encodeHeader lb ++ rest) 43 8 = leBytes 8 lb.GlobalGems := walk 43 8 _ (by
    simp only [encodeHeader, List.append_assoc]
    simp (disch := simp [length_leBytes, length_leBytesInt]) only [field_skip, field_hit,
      length_leBytes, length_leBytesInt, List.length_replicate, Nat.reduceSub, Nat.sub_self])
  have f51 : field (encodeHeader lb ++ rest) 51 8 = leBytes 8 lb.GlobalDaggersHit :=
    walk 51 8 _ (by
    simp only [encodeHeader, List.append_assoc]
    simp (disch := simp [length_leBytes, length_leBytesInt]) only [field_skip, field_hit,
      length_leBytes, length_leBytesInt, List.length_replicate, Nat.reduceSub, Nat.sub_self])
  have f59 : field (encodeHeader lb ++ rest) 59 2 = leBytes 2 lb.Players.length :=
    walk 59 2 _ (by
    simp only [encodeHeader, List.append_assoc]
    simp (disch := simp [length_leBytes, length_leBytesInt]) only [field_skip, field_hit,
      length_leBytes, length_leBytesInt, List.length_replicate, Nat.reduceSub, Nat.sub_self])
  have f75 : field (encodeHeader lb ++ rest) 75 4 = leBytesInt 4 lb.GlobalPlayerCount :=
    walk 75 4 _ (by
    simp only [encodeHeader, List.append_assoc]
    simp (disch := simp [length_leBytes, length_leBytesInt]) only [field_skip, field_hit,
      length_leBytes, length_leBytesInt, List.length_replicate, Nat.reduceSub, Nat.sub_self])
  refine ⟨?_, ?_, ?_, ?_, ?_, ?_, ?_, ?_⟩
  · rw [uintAt, f11]; exact u8 hw.deaths
  · rw [uintAt, f19]; exact u8 hw.kills
  · rw [uintAt, f27]; exact u8 hw.fired
  · rw [uintAt, f35]; exact u8 (lt_trans hw.time_lt (by norm_num))
  · rw [uintAt, f43]; exact u8 hw.gems
  · rw [uintAt, f51]; exact u8 hw.hit
  · rw [intAt, uintAt, f59]; exact toSigned_leBytes_2 hn
  · rw [intAt, uintAt, f75]; exact toSigned_leBytesInt_4 hw.globalCount

theorem GetScores_encoded (lb : Leaderboard) (limit : Int) (hw : lb.WellFormed)
    (hn : lb.Players.length < 2 ^ 15) (hl : (lb.Players.length : Int) ≤ limit) :
    GetScoresBytesToLeaderboard (encodeLeaderboard 88 lb) limit = .ok (some lb, none) := by
  have hb : encodeLeaderboard 88 lb = encodeHeader lb ++ (encodePlayers 88 lb.Players ++ []) := by
    simp only [encodeLeaderboard, List.append_nil]
  obtain ⟨h11, h19, h27, h35, h43, h51, h59, h75⟩ :=
    encoded_header_fields lb (encodePlayers 88 lb.Players ++ []) hw hn
  have hlen := length_encodeHeader lb
  have hcount : playerCountAt (encodeHeader lb ++ (encodePlayers 88 lb.Players ++ [])) limit
      = lb.Players.length := by
    rw [playerCountAt_eq_min, h59]; omega
  have hdec := decodeRecords_encoded lb.Players (encodeHeader lb) [] [] hw.players
  rw [hlen] at hdec
  rw [hb, GetScores_eq _ limit (by simp only [List.length_append, hlen]; omega), hcount,
    Int.toNat_ofNat]
  have h83 : ((83 : Nat) : Int) = 83 := rfl
  rw [h83] at hdec
  rw [hdec]
  simp only [List.nil_append, leaderboardAt, h11, h19, h27, h35, h43, h51, h75, hcount]
  have e1 : roundToNearest
      (F64.div (F64.ofInt ((rawTicks lb.GlobalTime 1000).toNat : Nat)) (.finite 1000)) 4
      = lb.GlobalTime := by
    rw [roundToNearest_millis _ hw.time_lt, ← hw.time]
  have e2 := hw.accuracy
  have e3 := hw.count
  cases lb
  simp only at e1 e2 e3 ⊢
  simp only [Except.ok.injEq, Prod.mk.injEq, Option.some.injEq, and_true, Leaderboard.mk.injEq,
    true_and]
  refine ⟨e1, ?_, e3.symm⟩
  rw [e2]

theorem F64.ofRat_five : F64.ofRat 5 = .finite 5 := by
  have := F64.ofRat_intCast 5 (by norm_num)
  norm_num at this
  exact this

theorem F64.ofRat_ten : F64.ofRat 10 = .finite 10 := by
  have := F64.ofRat_intCast 10 (by norm_num)
  norm_num at this
  exact this

theorem F64.ofRat_half : F64.ofRat (1 / 2) = .finite (1 / 2) := by
  have := F64.ofRat_of_scaled 1 (-1) (by norm_num) (by norm_num) (by norm_num)
  norm_num at this
  exact this

theorem percentage_5_10 : percentage 5 10 = .finite 50 := by
  have h1 : F64.ofRat (((5 : Int) : ℚ) / ((10 : Int) : ℚ)) = .finite (1 / 2) := by
    rw [← F64.ofRat_half]
    norm_num
  have h2 : F64.ofRat ((1 / 2 : ℚ) * 100) = .finite 50 := by
    have := F64.ofRat_intCast 50 (by norm_num)
    norm_num at this ⊢
    exact this
  have h3 : F64.ofRat ((50 : ℚ) * 100) = .finite 5000 := by
    have := F64.ofRat_intCast 5000 (by norm_num)
    norm_num at this ⊢
    exact this
  rw [percentage_eq_of 5 10 5000 (1 / 2) 50 5000 (by norm_num) (by norm_num) (by norm_num)
    h1 h2 h3 (by norm_num)]
  have := F64.ofRat_intCast 50 (by norm_num)
  norm_num at this ⊢
  exact this

theorem percentage_15_20 : percentage 15 20 = .finite 75 := by
  have h1 : F64.ofRat (((15 : Int) : ℚ) / ((20 : Int) : ℚ)) = .finite (3 / 4) := by
    have := F64.ofRat_of_scaled 3 (-2) (by norm_num) (by norm_num) (by norm_num)
    norm_num at this ⊢
    exact this
  have h2 : F64.ofRat ((3 / 4 : ℚ) * 100) = .finite 75 := by
    have := F64.ofRat_intCast 75 (by norm_num)
    norm_num at this ⊢
    exact this
  have h3 : F64.ofRat ((75 : ℚ) * 100) = .finite 7500 := by
    have := F64.ofRat_intCast 7500 (by norm_num)
    norm_num at this ⊢
    exact this
  rw [percentage_eq_of 15 20 7500 (3 / 4) 75 7500 (by norm_num) (by norm_num) (by norm_num)
    h1 h2 h3 (by norm_num)]
  have := F64.ofRat_intCast 75 (by norm_num)
  norm_num at this ⊢
  exact this

theorem samplePlayer_wellFormed (id : Nat) (h0 : id ≠ 0) (h1 : id < 2 ^ 64) :
    (samplePlayer id).WellFormed := by
  have ht : rawTicks (samplePlayer id).Time 10000 = 12345 := by
    have := rawTicks_time 12345 (by norm_num)
    simpa [samplePlayer] using this
  have hot : rawTicks (samplePlayer id).OverallTime 10000 = 50000 := by
    simp only [samplePlayer, rawTicks]
    rw [show ((5 : ℚ) * ((10000 : Nat) : ℚ)) = ((50000 : Int) : ℚ) by norm_num, round_intCast]
  constructor
  · exact h0
  · exact h1
  · simp only [samplePlayer]; decide
  · simp only [samplePlayer]; decide
  · simp only [samplePlayer, InInt32]; decide
  · simp only [samplePlayer, InInt32]; decide
  · simp only [samplePlayer, InInt32]; decide
  · simp only [samplePlayer, InInt32]; decide
  · simp only [samplePlayer, InInt32]; decide
  · rw [ht]; simp only [samplePlayer]; norm_num
  · rw [ht]; simp only [InInt32]; decide
  · rw [hot, show Int.toNat 50000 = 50000 from rfl]
    simp only [samplePlayer]
    rw [← F64.ofRat_five]
    norm_num
  · rw [hot]; decide
  · simp only [samplePlayer]; decide
  · simp only [samplePlayer]; decide
  · simp only [samplePlayer]; decide
  · simp only [samplePlayer]; decide
  · simp only [samplePlayer]; decide
  · simp only [samplePlayer]; exact percentage_5_10.symm
  · simp only [samplePlayer]; exact percentage_15_20.symm

theorem boardOf_wellFormed (ps : List Player) (h : ∀ p ∈ ps, p.WellFormed) :
    (boardOf ps).WellFormed := by
  have ht : rawTicks (boardOf ps).GlobalTime 1000 = 10000 := by
    simp only [boardOf, rawTicks]
    rw [show ((10 : ℚ) * ((1000 : Nat) : ℚ)) = ((10000 : Int) : ℚ) by norm_num, round_intCast]
  have hacc : (if (40 : Nat) > 0 then F64.div (F64.ofInt ((20 : Nat) : Int))
      (F64.ofInt ((40 : Nat) : Int)) else F64.zero) = .finite (1 / 2) := by
    rw [if_pos (by norm_num), F64.ofInt_eq _ (by norm_num), F64.ofInt_eq _ (by norm_num)]
    simp only [F64.div]
    rw [if_neg (by norm_num), ← F64.ofRat_half]
    norm_num
  constructor
  · simp only [boardOf]; decide
  · simp only [boardOf]; decide
  · simp only [boardOf]; decide
  · simp only [boardOf]; decide
  · simp only [boardOf]; decide
  · rw [ht, show Int.toNat 10000 = 10000 from rfl]
    simp only [boardOf]
    rw [← F64.ofRat_ten]
    norm_num
  · rw [ht]; decide
  · simp only [boardOf]; exact hacc.symm
  · simp only [boardOf, InInt32]; decide
  · rfl
  · exact h

theorem sampleBoard_wellFormed : sampleBoard.WellFormed := by
  apply boardOf_wellFormed
  intro p hp
  simp only [List.mem_cons, List.mem_singleton, List.not_mem_nil, or_false] at hp
  rcases hp with rfl | rfl
  · exact samplePlayer_wellFormed 7 (by decide) (by decide)
  · exact samplePlayer_wellFormed 8 (by decide) (by decide)

theorem bigBoard_wellFormed : bigBoard.WellFormed := by
  apply boardOf_wellFormed
  intro p hp
  rw [List.eq_of_mem_replicate hp]
  exact samplePlayer_wellFormed 7 (by decide) (by decide)

theorem bigBoard_not_decoded (tail : Nat) (limit : Int) :
    GetScoresBytesToLeaderboard (encodeLeaderboard tail bigBoard) limit
      ≠ .ok (some bigBoard, none) := by
  intro h
  obtain ⟨-, -, hn, -⟩ := GetScores_some_inv h
  have hlen : bigBoard.Players.length = 32768 := by
    simp only [bigBoard, boardOf, List.length_replicate]
  have hcount : intAt (encodeLeaderboard tail bigBoard) 59 2 = -32768 := by
    rw [intAt, uintAt, encodeLeaderboard, encoded_count_field, hlen]
    decide
  rw [playerCountAt_eq_min, hcount, hlen] at hn
  omega

set_option maxRecDepth 100000 in
theorem sampleBoard_second_length :
    intAt (encodeLeaderboard 90 sampleBoard)
      (recordOffset 88 (encodeLeaderboard 90 sampleBoard) 83 1) 2 = 0 := by
  decide

theorem tiePlayer_wellFormed : (tiePlayer (percentage 23 160)).WellFormed := by
  have h := samplePlayer_wellFormed 7 (by decide) (by decide)
  exact
    { id_ne := h.id_ne, id_lt := h.id_lt, tag := h.tag, name := h.name, rank := h.rank,
      kills := h.kills, gems := h.gems,
      hit := by simp only [tiePlayer, InInt32]; decide,
      fired := by simp only [tiePlayer, InInt32]; decide,
      time := h.time, time_range := h.time_range, overallTime := h.overallTime,
      overallTime_lt := h.overallTime_lt, overallKills := h.overallKills,
      overallGems := h.overallGems, overallDeaths := h.overallDeaths,
      overallHit := h.overallHit, overallFired := h.overallFired,
      accuracy := rfl, overallAccuracy := h.overallAccuracy }

theorem tieBoard_decoded :
    GetScoresBytesToLeaderboard (encodeLeaderboard 88 (boardOf [tiePlayer (F64.ofRat (1438 / 100))])) 1
      = .ok (some (boardOf [tiePlayer (percentage 23 160)]), none) := by
  have hw : (boardOf [tiePlayer (percentage 23 160)]).WellFormed := by
    apply boardOf_wellFormed
    intro p hp
    simp only [List.mem_singleton] at hp
    rw [hp]
    exact tiePlayer_wellFormed
  have he : ∀ a c : F64, encodeLeaderboard 88 (boardOf [tiePlayer a])
      = encodeLeaderboard 88 (boardOf [tiePlayer c]) := fun _ _ => rfl
  rw [he (F64.ofRat (1438 / 100)) (percentage 23 160)]
  exact GetScores_encoded _ 1 hw (by decide) (by decide)

set_option maxRecDepth 100000 in
/-- **C1 (as stated), refuted.** `sampleBoard` is a well-formed leaderboard with 2 players.
Encoded with the layout of section 4.1, whose fixed tail has 90 bytes, it does not decode to
itself: the decoder looks for the second record 2 bytes before its start. `bigBoard` is a
well-formed leaderboard with `2 ^ 15` players; its declared count is negative as an
`int16`, and it does not decode to itself with a tail of 90 bytes nor with one of 88.
A leaderboard whose player has 23 daggers hit of 160 fired and the accuracy 14.38, the
percentage `14.375` rounded to 2 decimals, does not decode to itself either, even with the
tail of 88 bytes: the decoder computes 14.37 in `float64`. -/
theorem round_trip_fails_as_stated :
    sampleBoard.WellFormed ∧ sampleBoard.Players.length = 2
      ∧ GetScoresBytesToLeaderboard (encodeLeaderboard 90 sampleBoard) 2
          ≠ .ok (some sampleBoard, none)
      ∧ bigBoard.WellFormed ∧ bigBoard.Players.length = 32768
      ∧ GetScoresBytesToLeaderboard (encodeLeaderboard 90 bigBoard) 32768
          ≠ .ok (some bigBoard, none)
      ∧ GetScoresBytesToLeaderboard (encodeLeaderboard 88 bigBoard) 32768
          ≠ .ok (some bigBoard, none)
      ∧ (∃ lb, GetScoresBytesToLeaderboard
              (encodeLeaderboard 88 (boardOf [tiePlayer (F64.ofRat (1438 / 100))])) 1
            = .ok (some lb, none)
          ∧ lb.Players.map (fun p => p.Accuracy) = [F64.ofRat (1437 / 100)]
          ∧ lb ≠ boardOf [tiePlayer (F64.ofRat (1438 / 100))]) := by
  refine ⟨sampleBoard_wellFormed, rfl, ?_, bigBoard_wellFormed, ?_,
    bigBoard_not_decoded 90 32768, bigBoard_not_decoded 88 32768,
    _, tieBoard_decoded, ?_, ?_⟩
  · intro h
    obtain ⟨-, -, -, hget⟩ := GetScores_some_inv h
    have hlen := BytesToPlayer_name_length (hget 1 (by decide))
    rw [sampleBoard_second_length] at hlen
    exact absurd hlen (by decide)
  · simp only [bigBoard, boardOf, List.length_replicate]
  · simp only [boardOf, tiePlayer, List.map_cons, List.map_nil, percentage_23_160.1]
  · intro h
    have h2 : (boardOf [tiePlayer (percentage 23 160)]).Players.map (fun p => p.Accuracy)
        = (boardOf [tiePlayer (F64.ofRat (1438 / 100))]).Players.map (fun p => p.Accuracy) := by
      rw [h]
    simp only [boardOf, tiePlayer, List.map_cons, List.map_nil, percentage_23_160.1,
      List.cons.injEq, and_true] at h2
    exact percentage_23_160.2 h2

/-- **C1 (amended).** A well-formed leaderboard with fewer than `2 ^ 15` players, encoded
with the layout that the decoder reads (header of 83 bytes, records of a 2-byte name
length, the name and an 88-byte tail, times stored as the nearest whole number of ticks),
decodes under any limit that is at least the number of players to a leaderboard equal to
the original in every field, all players included in their original order. Well formed
means: integer fields within their Go types, `PlayerCount` the number of players, nonzero
ids, death-type tags from the table, names shorter than `2 ^ 15` bytes, every time the
`float64` nearest to a whole number of ticks (ten-thousandths fitting an `int32` for
`Time`, ten-thousandths below `2 ^ 51` for `OverallTime`, thousandths below `2 ^ 47` for
`GlobalTime`), and every accuracy the `float64` value that the decoder derives from the
counters of the same record. -/
theorem round_trip (lb : Leaderboard) (limit : Int) (hw : lb.WellFormed)
    (hn : lb.Players.length < 2 ^ 15) (hl : (lb.Players.length : Int) ≤ limit) :
    GetScoresBytesToLeaderboard (encodeLeaderboard 88 lb) limit = .ok (some lb, none) :=
  GetScores_encoded lb limit hw hn hl

/-- Witness of C1 (amended) on `sampleBoard`. -/
theorem round_trip_witness :
    GetScoresBytesToLeaderboard (encodeLeaderboard 88 sampleBoard) 2
      = .ok (some sampleBoard, none) :=
  round_trip sampleBoard 2 sampleBoard_wellFormed (by decide) (by decide)

/-! ## Range of the accuracy fields -/

theorem ratio_within_nat (hit fired : Nat) (hf : fired < 2 ^ 64)
    (h : fired = 0 ∨ hit ≤ fired) :
    F64.within 0 1
      (if fired > 0 then F64.div (F64.ofInt (hit : Int)) (F64.ofInt (fired : Int))
        else F64.zero) := by
  by_cases hpos : fired > 0
  · rw [if_pos hpos]
    exact ratio_within hit fired (by omega) (by omega) (by omega) (by omega)
  · rw [if_neg hpos]
    exact ⟨le_refl _, by norm_num⟩

theorem within_mono {lo hi hi' : ℚ} {f : F64} (h : F64.within lo hi f) (hh : hi ≤ hi') :
    F64.within lo hi' f := by
  cases f with
  | finite q => exact ⟨h.1, le_trans h.2 hh⟩
  | nonFinite => exact h

theorem playerAt_accuracy (b : List Byte) (o : Int) (tag : String) :
    (playerAt b o tag).Accuracy
        = percentage (playerAt b o tag).DaggersHit (playerAt b o tag).DaggersFired
      ∧ (playerAt b o tag).OverallAccuracy
        = percentage (playerAt b o tag).OverallDaggersHit
            (playerAt b o tag).OverallDaggersFired := by
  refine ⟨rfl, ?_⟩
  simp only [playerAt, percentage]
  by_cases h : uintAt b (o + 2 + intAt b o 2 + 52) 8 > 0
  · have h' : ((uintAt b (o + 2 + intAt b o 2 + 52) 8 : Nat) : Int) > 0 := by omega
    simp only [h, h', if_true]
  · have h' : ¬ ((uintAt b (o + 2 + intAt b o 2 + 52) 8 : Nat) : Int) > 0 := by omega
    simp only [h, h', if_false]

theorem F64.ofRat_200 : F64.ofRat 200 = .finite 200 := by
  have := F64.ofRat_intCast 200 (by norm_num)
  norm_num at this
  exact this

theorem percentage_double (hit fired : Int) (hf : 0 < fired) (hh : hit = 2 * fired)
    (hb : fired < 2 ^ 50) : percentage hit fired = .finite 200 := by
  have hf' : (fired : ℚ) ≠ 0 := by
    have : fired ≠ 0 := by omega
    exact_mod_cast this
  have h1 : F64.ofRat ((hit : ℚ) / fired) = .finite 2 := by
    have e : (hit : ℚ) / fired = ((2 : Int) : ℚ) := by
      rw [hh]
      push_cast
      field_simp
    rw [e]
    have := F64.ofRat_intCast 2 (by norm_num)
    norm_num at this ⊢
    exact this
  have h2 : F64.ofRat ((2 : ℚ) * 100) = .finite 200 := by
    rw [← F64.ofRat_200]
    norm_num
  have h3 : F64.ofRat ((200 : ℚ) * 100) = .finite 20000 := by
    have := F64.ofRat_intCast 20000 (by norm_num)
    norm_num at this ⊢
    exact this
  rw [percentage_eq_of hit fired 20000 2 200 20000 hf
    (by rw [abs_of_nonneg (by omega)]; omega) (by rw [abs_of_nonneg (by omega)]; omega)
    h1 h2 h3 (by norm_num), ← F64.ofRat_200]
  norm_num

set_option maxRecDepth 100000 in
/-- **C11 (as stated), refuted.** `overHitRecord` decodes to a player with 20 daggers hit for
10 fired, whose `Accuracy` is 200, and 40 overall hit for 20 fired, whose `OverallAccuracy`
is 200; `overHitBoard` decodes to a leaderboard with 200 daggers hit for 1 fired, whose
`GlobalAccuracy` is 200. None lies in `[0, 100]`. -/
theorem accuracy_above_100 :
    BytesToPlayer overHitRecord 0 = .ok (some (playerAt overHitRecord 0 "GORED"), none)
      ∧ (playerAt overHitRecord 0 "GORED").DaggersHit = 20
      ∧ (playerAt overHitRecord 0 "GORED").DaggersFired = 10
      ∧ (playerAt overHitRecord 0 "GORED").Accuracy = .finite 200
      ∧ (playerAt overHitRecord 0 "GORED").OverallAccuracy = .finite 200
      ∧ ¬ F64.within 0 100 (playerAt overHitRecord 0 "GORED").Accuracy
      ∧ ¬ F64.within 0 100 (playerAt overHitRecord 0 "GORED").OverallAccuracy
      ∧ GetScoresBytesToLeaderboard overHitBoard 0
          = .ok (some (leaderboardAt overHitBoard 0 []), none)
      ∧ (leaderboardAt overHitBoard 0 []).GlobalAccuracy = .finite 200
      ∧ ¬ F64.within 0 100 (leaderboardAt overHitBoard 0 []).GlobalAccuracy := by
  have d1 : (playerAt overHitRecord 0 "GORED").DaggersHit = 20 := by decide
  have d2 : (playerAt overHitRecord 0 "GORED").DaggersFired = 10 := by decide
  have d3 : (playerAt overHitRecord 0 "GORED").OverallDaggersHit = 40 := by decide
  have d4 : (playerAt overHitRecord 0 "GORED").OverallDaggersFired = 20 := by decide
  have h1 : (playerAt overHitRecord 0 "GORED").Accuracy = .finite 200 := by
    rw [(playerAt_accuracy overHitRecord 0 "GORED").1, d1, d2]
    exact percentage_double 20 10 (by norm_num) (by norm_num) (by norm_num)
  have h2 : (playerAt overHitRecord 0 "GORED").OverallAccuracy = .finite 200 := by
    rw [(playerAt_accuracy overHitRecord 0 "GORED").2, d3, d4]
    exact percentage_double 40 20 (by norm_num) (by norm_num) (by norm_num)
  have h3 : (leaderboardAt overHitBoard 0 []).GlobalAccuracy = .finite 200 := by
    simp only [leaderboardAt]
    rw [show uintAt overHitBoard 27 8 = 1 by decide, show uintAt overHitBoard 51 8 = 200 by decide,
      if_pos (by norm_num), F64.ofInt_eq _ (by norm_num), F64.ofInt_eq _ (by norm_num)]
    simp only [F64.div]
    rw [if_neg (by norm_num), ← F64.ofRat_200]
    norm_num
  refine ⟨?_, d1, d2, h1, h2, ?_, ?_, ?_, h3, ?_⟩
  · exact BytesToPlayer_ok_of_tag _ 0 (by decide) (by decide) (by decide) (by decide)
      (by decide)
  · rw [h1]; simp only [F64.within]; norm_num
  · rw [h2]; simp only [F64.within]; norm_num
  · exact GetScores_of_records _ 0 [] (by decide) (by decide) (fun i hi => absurd hi (by simp))
  · rw [h3]; simp only [F64.within]; norm_num

/-- **C11 (amended).** The decoder does not clamp the accuracy fields, but it keeps them in
range when the counters are consistent: for every decoded player `Accuracy` (resp.
`OverallAccuracy`) lies in `[0, 100]` whenever the fired counter is not positive or
`0 ≤ hit ≤ fired`, and for every decoded leaderboard `GlobalAccuracy`, the quotient
hit / fired, lies in `[0, 1]` whenever nothing was fired or `hit ≤ fired`; this holds for
the players of a decoded leaderboard as well. The bounds are those of the `float64`
computation: every rounding step is monotone and leaves 0, 1, 100 and 10000 fixed. -/
theorem accuracy_within_when_hit_le_fired :
    (∀ (b : List Byte) (o : Int) (p : Player), BytesToPlayer b o = .ok (some p, none) →
        (p.DaggersFired ≤ 0 ∨ (0 ≤ p.DaggersHit ∧ p.DaggersHit ≤ p.DaggersFired) →
            F64.within 0 100 p.Accuracy)
          ∧ (p.OverallDaggersFired = 0 ∨ p.OverallDaggersHit ≤ p.OverallDaggersFired →
              F64.within 0 100 p.OverallAccuracy))
      ∧ (∀ (b : List Byte) (limit : Int) (lb : Leaderboard),
          GetScoresBytesToLeaderboard b limit = .ok (some lb, none) →
          (lb.GlobalDaggersFired = 0 ∨ lb.GlobalDaggersHit ≤ lb.GlobalDaggersFired →
              F64.within 0 1 lb.GlobalAccuracy ∧ F64.within 0 100 lb.GlobalAccuracy)
            ∧ ∀ p ∈ lb.Players,
                (p.DaggersFired ≤ 0 ∨ (0 ≤ p.DaggersHit ∧ p.DaggersHit ≤ p.DaggersFired) →
                    F64.within 0 100 p.Accuracy)
                  ∧ (p.OverallDaggersFired = 0 ∨ p.OverallDaggersHit ≤ p.OverallDaggersFired →
                      F64.within 0 100 p.OverallAccuracy)) := by
  have hplayer : ∀ (b : List Byte) (o : Int) (p : Player),
      BytesToPlayer b o = .ok (some p, none) →
        (p.DaggersFired ≤ 0 ∨ (0 ≤ p.DaggersHit ∧ p.DaggersHit ≤ p.DaggersFired) →
            F64.within 0 100 p.Accuracy)
          ∧ (p.OverallDaggersFired = 0 ∨ p.OverallDaggersHit ≤ p.OverallDaggersFired →
              F64.within 0 100 p.OverallAccuracy) := by
    intro b o p h
    obtain ⟨tag, -, rfl⟩ := BytesToPlayer_some_inv h
    obtain ⟨e1, e2⟩ := playerAt_accuracy b o tag
    have b1 : (playerAt b o tag).DaggersFired ≤ 2 ^ 64 := by
      have := abs_le.1 (intAt_four_abs b (o + 2 + intAt b o 2 + 20))
      exact le_trans this.2 (by norm_num)
    have b2 : (((playerAt b o tag).OverallDaggersFired : Nat) : Int) ≤ 2 ^ 64 := by
      have := uintAt_lt b (o + 2 + intAt b o 2 + 52) 8
      have h64 : (256 : Nat) ^ 8 = 2 ^ 64 := by norm_num
      rw [h64] at this
      have : (playerAt b o tag).OverallDaggersFired < 2 ^ 64 := this
      omega
    refine ⟨?_, ?_⟩
    · intro hc
      rw [e1]; exact percentage_within _ _ b1 hc
    · intro hc
      rw [e2]; exact percentage_within _ _ b2 (by omega)
  refine ⟨hplayer, ?_⟩
  intro b limit lb h
  obtain ⟨-, hlb, -, hget⟩ := GetScores_some_inv h
  constructor
  · intro hc
    have hr : F64.within 0 1 lb.GlobalAccuracy := by
      rw [hlb]
      refine ratio_within_nat _ _ ?_ (by rw [hlb] at hc; exact hc)
      have := uintAt_lt b 27 8
      have h64 : (256 : Nat) ^ 8 = 2 ^ 64 := by norm_num
      rw [h64] at this
      exact this
    exact ⟨hr, within_mono hr (by norm_num)⟩
  · intro p hp
    obtain ⟨i, rfl⟩ := List.mem_iff_get.mp hp
    exact hplayer b _ _ (hget i.1 i.2)

set_option maxRecDepth 100000 in
/-- Witness of C11 (amended): `sampleRecord` has 5 daggers hit for 10 fired and 15 overall
for 20; the leaderboard `twoRecords` has 20 hit for 40 fired. -/
theorem accuracy_within_when_hit_le_fired_witness :
    F64.within 0 100 (playerAt sampleRecord 0 "GORED").Accuracy
      ∧ F64.within 0 100 (playerAt sampleRecord 0 "GORED").OverallAccuracy
      ∧ F64.within 0 1 (leaderboardAt twoRecords 2
          [playerAt twoRecords 83 "GORED", playerAt twoRecords 175 "GORED"]).GlobalAccuracy := by
  have hp : BytesToPlayer sampleRecord 0 = .ok (some (playerAt sampleRecord 0 "GORED"), none) :=
    BytesToPlayer_ok_of_tag _ 0 (by decide) (by decide) (by decide) (by decide) (by decide)
  have c1 := accuracy_within_when_hit_le_fired.1 _ _ _ hp
  have c2 := accuracy_within_when_hit_le_fired.2 _ _ _ twoRecords_decoded
  exact ⟨c1.1 (Or.inr (by decide)), c1.2 (Or.inr (by decide)),
    (c2.1 (Or.inr (by decide))).1⟩

/-! ## The status of a session -/

theorem getStatus_dead {p : player} (h : p.DeathType ≥ 0) : p.getStatus = "Dead" := by
  unfold player.getStatus
  rw [if_pos h]

theorem getStatus_menu {p : player} (h : p.DeathType = -2) : p.getStatus = "In Menu" := by
  have h0 : ¬ p.DeathType ≥ 0 := by omega
  unfold player.getStatus
  rw [if_neg h0, if_pos h]

theorem getStatus_replay {p : player} (h : p.DeathType = -1 ∧ p.IsReplay = true) :
    p.getStatus = "Watching a Replay" := by
  have h0 : ¬ p.DeathType ≥ 0 := by omega
  have h2 : ¬ p.DeathType = -2 := by omega
  unfold player.getStatus
  rw [if_neg h0, if_neg h2, if_pos h]

theorem getStatus_alive {p : player} (h0 : ¬ p.DeathType ≥ 0) (h2 : p.DeathType ≠ -2)
    (h3 : ¬ (p.DeathType = -1 ∧ p.IsReplay = true)) : p.getStatus = "Alive" := by
  unfold player.getStatus
  rw [if_neg h0, if_neg h2, if_neg h3]

/-- **C12.** `getStatus` is total and returns exactly one of `Dead`, `In Menu`,
`Watching a Replay`, `Alive`: `Dead` iff `DeathType ≥ 0` (whatever `IsReplay`), `In Menu`
iff `DeathType = -2`, `Watching a Replay` iff `DeathType = -1` and `IsReplay`, and `Alive`
in every remaining case. -/
theorem getStatus_total (p : player) :
    (p.getStatus = "Dead" ∨ p.getStatus = "In Menu" ∨ p.getStatus = "Watching a Replay"
        ∨ p.getStatus = "Alive")
      ∧ (p.getStatus = "Dead" ↔ p.DeathType ≥ 0)
      ∧ (p.getStatus = "In Menu" ↔ p.DeathType = -2)
      ∧ (p.getStatus = "Watching a Replay" ↔ p.DeathType = -1 ∧ p.IsReplay = true)
      ∧ (p.getStatus = "Alive" ↔
          ¬ p.DeathType ≥ 0 ∧ p.DeathType ≠ -2 ∧ ¬ (p.DeathType = -1 ∧ p.IsReplay = true)) := by
  by_cases h0 : p.DeathType ≥ 0
  · have e := getStatus_dead h0
    rw [e]
    refine ⟨Or.inl rfl, ⟨fun _ => h0, fun _ => rfl⟩, ⟨fun h => absurd h (by decide), fun h => ?_⟩,
      ⟨fun h => absurd h (by decide), fun h => ?_⟩, ⟨fun h => absurd h (by decide), fun h => ?_⟩⟩
    · omega
    · omega
    · exact absurd h0 h.1
  · by_cases h2 : p.DeathType = -2
    · have e := getStatus_menu h2
      rw [e]
      refine ⟨Or.inr (Or.inl rfl), ⟨fun h => absurd h (by decide), fun h => absurd h h0⟩,
        ⟨fun _ => h2, fun _ => rfl⟩, ⟨fun h => absurd h (by decide), fun h => ?_⟩,
        ⟨fun h => absurd h (by decide), fun h => absurd h2 h.2.1⟩⟩
      omega
    · by_cases h3 : p.DeathType = -1 ∧ p.IsReplay = true
      · have e := getStatus_replay h3
        rw [e]
        exact ⟨Or.inr (Or.inr (Or.inl rfl)), ⟨fun h => absurd h (by decide), fun h => absurd h h0⟩,
          ⟨fun h => absurd h (by decide), fun h => absurd h h2⟩, ⟨fun _ => h3, fun _ => rfl⟩,
          ⟨fun h => absurd h (by decide), fun h => absurd h3 h.2.2⟩⟩
      · have e := getStatus_alive h0 h2 h3
        rw [e]
        exact ⟨Or.inr (Or.inr (Or.inr rfl)), ⟨fun h => absurd h (by decide), fun h => absurd h h0⟩,
          ⟨fun h => absurd h (by decide), fun h => absurd h h2⟩,
          ⟨fun h => absurd h (by decide), fun h => absurd h h3⟩,
          ⟨fun _ => ⟨h0, h2, h3⟩, fun _ => rfl⟩⟩

/-! ## Submit events -/

theorem store_same (si : sio) (k : String) (p : player) :
    (si.store k p).livePlayers k = some p := by
  simp only [sio.store, if_true]

theorem store_other (si : sio) {k k' : String} (p : player) (h : k' ≠ k) :
    (si.store k p).livePlayers k' = si.livePlayers k' := by
  simp only [sio.store, h, if_false]

theorem store_hub (si : sio) (k : String) (p : player) :
    (si.store k p).websocketHub = si.websocketHub ∧ (si.store k p).closed = si.closed :=
  ⟨rfl, rfl⟩

theorem onSubmit_rejected (newMessage : String → String → state → Except GoErr Message)
    (si : sio) (sID : String) (st : state) (h : st.PlayerID < 1) :
    onSubmit newMessage si sID st = si := by
  simp only [onSubmit, h, if_true]

theorem onSubmit_no_session (newMessage : String → String → state → Except GoErr Message)
    (si : sio) (sID : String) (st : state) (h : si.livePlayers sID = none) :
    onSubmit newMessage si sID st = si := by
  unfold onSubmit
  split
  · rfl
  · rw [h]

theorem onSubmit_not_built (newMessage : String → String → state → Except GoErr Message)
    (si : sio) (sID : String) (st : state) (p : player) (e : GoErr) (h1 : 1 ≤ st.PlayerID)
    (hs : si.livePlayers sID = some p)
    (hm : newMessage (strconvItoa st.PlayerID) "submit" st = .error e) :
    onSubmit newMessage si sID st = si.store sID (p.update st) := by
  have h : ¬ st.PlayerID < 1 := by omega
  unfold onSubmit
  rw [if_neg h, hs]
  simp only [hm]

theorem onSubmit_built (newMessage : String → String → state → Except GoErr Message)
    (si : sio) (sID : String) (st : state) (p : player) (m : Message) (h1 : 1 ≤ st.PlayerID)
    (hs : si.livePlayers sID = some p)
    (hm : newMessage (strconvItoa st.PlayerID) "submit" st = .ok m) :
    onSubmit newMessage si sID st =
      { si with websocketHub :=
          (notifyAbove1000Reached st
            (notifyBestReached st (p.update st)
              { si.websocketHub with Broadcast := si.websocketHub.Broadcast ++ [m] }).1
            (notifyBestReached st (p.update st)
              { si.websocketHub with Broadcast := si.websocketHub.Broadcast ++ [m] }).2).2 }.store
        sID
        (notifyAbove1000Reached st
          (notifyBestReached st (p.update st)
            { si.websocketHub with Broadcast := si.websocketHub.Broadcast ++ [m] }).1
          (notifyBestReached st (p.update st)
            { si.websocketHub with Broadcast := si.websocketHub.Broadcast ++ [m] }).2).1 := by
  have h : ¬ st.PlayerID < 1 := by omega
  unfold onSubmit
  rw [if_neg h, hs]
  simp only [hm]

theorem update_frame (p : player) (st : state) :
    (p.update st).GameTime = st.GameTime ∧ (p.update st).DeathType = st.DeathType
      ∧ (p.update st).IsReplay = st.IsReplay
      ∧ (p.update st).websocketPlayer.GameTime = st.GameTime
      ∧ (p.update st).websocketPlayer.Status = (p.update st).getStatus
      ∧ (p.update st).PlayerID = p.PlayerID ∧ (p.update st).PlayerName = p.PlayerName
      ∧ (p.update st).BestGameTime = p.BestGameTime
      ∧ (p.update st).websocketPlayer.ID = p.websocketPlayer.ID
      ∧ (p.update st).websocketPlayer.Name = p.websocketPlayer.Name
      ∧ (p.update st).bestTimeNotified = p.bestTimeNotified
      ∧ (p.update st).above1000Notified = p.above1000Notified :=
  ⟨rfl, rfl, rfl, rfl, rfl, rfl, rfl, rfl, rfl, rfl, rfl, rfl⟩

theorem getStatus_congr {p q : player} (hd : p.DeathType = q.DeathType)
    (hr : p.IsReplay = q.IsReplay) : p.getStatus = q.getStatus := by
  simp only [player.getStatus, hd, hr]

theorem notifyBestReached_eq (st : state) (p : player) (hub : Hub) :
    notifyBestReached st p hub =
      ({ p with bestTimeNotified := p.bestTimeNotified || bestDue st p },
        { hub with DiscordBroadcast := hub.DiscordBroadcast ++
            (if bestDue st p = true then
              [Notification.PlayerBestReached p.PlayerID p.PlayerName p.BestGameTime]
            else []) }) := by
  unfold notifyBestReached
  by_cases h : bestDue st p = true
  · have h' := h
    unfold bestDue at h'
    rw [if_pos h', if_pos h, h]
    simp [Hub.discord]
  · have h' := h
    unfold bestDue at h'
    rw [if_neg h', if_neg h]
    simp only [Bool.not_eq_true] at h
    rw [h]
    simp

theorem notifyAbove1000Reached_eq (st : state) (p : player) (hub : Hub) :
    notifyAbove1000Reached st p hub =
      ({ p with above1000Notified := p.above1000Notified || above1000Due st p },
        { hub with DiscordBroadcast := hub.DiscordBroadcast ++
            (if above1000Due st p = true then
              [Notification.PlayerAbove1000 p.PlayerID p.PlayerName]
            else []) }) := by
  unfold notifyAbove1000Reached
  by_cases h : above1000Due st p = true
  · have h' := h
    unfold above1000Due at h'
    rw [if_pos h', if_pos h, h]
    simp [Hub.discord]
  · have h' := h
    unfold above1000Due at h'
    rw [if_neg h', if_neg h]
    simp only [Bool.not_eq_true] at h
    rw [h]
    simp

theorem onSubmit_accepted (newMessage : String → String → state → Except GoErr Message)
    (si : sio) (sID : String) (st : state) (p : player) (m : Message) (h1 : 1 ≤ st.PlayerID)
    (hs : si.livePlayers sID = some p)
    (hm : newMessage (strconvItoa st.PlayerID) "submit" st = .ok m) :
    (onSubmit newMessage si sID st).livePlayers sID
        = some { p.update st with
            bestTimeNotified := p.bestTimeNotified || bestDue st p
            above1000Notified := p.above1000Notified || above1000Due st p }
      ∧ (∀ k, k ≠ sID → (onSubmit newMessage si sID st).livePlayers k = si.livePlayers k)
      ∧ (onSubmit newMessage si sID st).websocketHub.Broadcast
          = si.websocketHub.Broadcast ++ [m]
      ∧ (onSubmit newMessage si sID st).websocketHub.DiscordBroadcast
          = si.websocketHub.DiscordBroadcast
            ++ (if bestDue st p = true then
                [Notification.PlayerBestReached p.PlayerID p.PlayerName p.BestGameTime]
              else [])
            ++ (if above1000Due st p = true then
                [Notification.PlayerAbove1000 p.PlayerID p.PlayerName]
              else [])
      ∧ (onSubmit newMessage si sID st).websocketHub.RegisterPlayer
          = si.websocketHub.RegisterPlayer
      ∧ (onSubmit newMessage si sID st).websocketHub.UnregisterPlayer
          = si.websocketHub.UnregisterPlayer
      ∧ (onSubmit newMessage si sID st).closed = si.closed := by
  rw [onSubmit_built newMessage si sID st p m h1 hs hm]
  simp only [notifyBestReached_eq, notifyAbove1000Reached_eq]
  refine ⟨?_, ?_, rfl, ?_, rfl, rfl, rfl⟩
  · rw [store_same]
    rfl
  · intro k hk
    rw [store_other _ _ hk]
  · simp only [sio.store]
    rfl

theorem F64.gt_finite (x y : ℚ) : F64.gt (.finite x) (.finite y) = true ↔ y < x := by
  simp only [F64.gt, F64.lt, decide_eq_true_eq]

theorem F64.lt_finite (x y : ℚ) : F64.lt (.finite x) (.finite y) = true ↔ x < y := by
  simp only [F64.lt, decide_eq_true_eq]

theorem F64.ge_finite (x y : ℚ) : F64.ge (.finite x) (.finite y) = true ↔ y ≤ x := by
  simp only [F64.ge, decide_eq_true_eq]

/-- **C14.** On a submit event that is accepted (player id at least 1, session present,
broadcast message built), the best-time milestone is emitted if and only if it is
requested, `bestTimeNotified` is unset and the submitted time is strictly less than
`BestGameTime`; the long-run milestone is emitted if and only if it is requested,
`above1000Notified` is unset and the submitted time is at least 1000; nothing else is sent
on the milestone channel, and each latch is set by the event exactly when its milestone is
emitted. -/
theorem submit_milestones (newMessage : String → String → state → Except GoErr Message)
    (si : sio) (sID : String) (st : state) (p : player) (m : Message) (h1 : 1 ≤ st.PlayerID)
    (hs : si.livePlayers sID = some p)
    (hm : newMessage (strconvItoa st.PlayerID) "submit" st = .ok m) :
    (bestDue st p = true ↔ st.NotifyPlayerBest = true ∧ p.bestTimeNotified = false
        ∧ F64.lt st.GameTime p.BestGameTime = true)
      ∧ (above1000Due st p = true ↔ st.NotifyAbove1000 = true ∧ p.above1000Notified = false
        ∧ F64.ge st.GameTime (.finite 1000) = true)
      ∧ (onSubmit newMessage si sID st).websocketHub.DiscordBroadcast
          = si.websocketHub.DiscordBroadcast
            ++ (if bestDue st p = true then
                [Notification.PlayerBestReached p.PlayerID p.PlayerName p.BestGameTime]
              else [])
            ++ (if above1000Due st p = true then
                [Notification.PlayerAbove1000 p.PlayerID p.PlayerName]
              else [])
      ∧ (∃ p', (onSubmit newMessage si sID st).livePlayers sID = some p'
          ∧ p'.bestTimeNotified = (p.bestTimeNotified || bestDue st p)
          ∧ p'.above1000Notified = (p.above1000Notified || above1000Due st p))
      ∧ ∀ x y : ℚ, (F64.lt (.finite x) (.finite y) = true ↔ x < y)
          ∧ (F64.ge (.finite x) (.finite y) = true ↔ y ≤ x) := by
  obtain ⟨hlp, -, -, hd, -⟩ := onSubmit_accepted newMessage si sID st p m h1 hs hm
  refine ⟨?_, ?_, hd, ⟨_, hlp, rfl, rfl⟩, fun x y => ⟨F64.lt_finite x y, F64.ge_finite x y⟩⟩
  · simp only [bestDue, Bool.and_eq_true, Bool.not_eq_true', and_assoc]
  · simp only [above1000Due, Bool.and_eq_true, Bool.not_eq_true', and_assoc]

/-- Witness of C14: on `sampleSession` (best time 500, latches unset) a submit at time 100
emits the best-time milestone only, a submit at time 1050 the long-run milestone only. -/
theorem submit_milestones_witness :
    (onSubmit recordMessage sampleServer "c1" (sampleState 7 100)).websocketHub.DiscordBroadcast
        = [.PlayerBestReached 7 "ab" (.finite 500)]
      ∧ (onSubmit recordMessage sampleServer "c1"
          (sampleState 7 1050)).websocketHub.DiscordBroadcast = [.PlayerAbove1000 7 "ab"] := by
  have h1 := (submit_milestones recordMessage sampleServer "c1" (sampleState 7 100)
    sampleSession _ (by decide) rfl rfl).2.2.1
  have h2 := (submit_milestones recordMessage sampleServer "c1" (sampleState 7 1050)
    sampleSession _ (by decide) rfl rfl).2.2.1
  rw [h1, h2]
  decide

/-- **C16 (as stated), refuted.** The session of connection `c1` has player id 7; a submit
whose payload carries the player id 9 is accepted and its message is published under the
key `9`, not under the key `7`. -/
theorem submit_keyed_by_payload_id :
    sampleServer.livePlayers "c1" = some sampleSession ∧ sampleSession.PlayerID = 7
      ∧ (onSubmit recordMessage sampleServer "c1" (sampleState 9 100)).websocketHub.Broadcast
          = [{ Room := "9", Func := "submit", Body := sampleState 9 100 }]
      ∧ strconvItoa sampleSession.PlayerID = "7" := by
  decide

/-- **C16 (amended).** On a submit event with a player id of at least 1, for a connection
that has a session, and whose message `NewMessage(strconv.Itoa(playerID), "submit", state)`
is built without error, exactly that message is published on the viewer broadcast channel:
its key is the player id of the payload, which the handler does not compare with the one
of the session, and it carries the whole submitted state. When the message cannot be
built, nothing is published. -/
theorem submit_broadcast (newMessage : String → String → state → Except GoErr Message)
    (si : sio) (sID : String) (st : state) (p : player) (h1 : 1 ≤ st.PlayerID)
    (hs : si.livePlayers sID = some p) :
    (∀ m, newMessage (strconvItoa st.PlayerID) "submit" st = .ok m →
        (onSubmit newMessage si sID st).websocketHub.Broadcast
          = si.websocketHub.Broadcast ++ [m])
      ∧ (∀ e, newMessage (strconvItoa st.PlayerID) "submit" st = .error e →
          (onSubmit newMessage si sID st).websocketHub = si.websocketHub)
      ∧ (onSubmit recordMessage si sID st).websocketHub.Broadcast
          = si.websocketHub.Broadcast
            ++ [{ Room := strconvItoa st.PlayerID, Func := "submit", Body := st }] := by
  refine ⟨?_, ?_, ?_⟩
  · intro m hm
    exact (onSubmit_accepted newMessage si sID st p m h1 hs hm).2.2.1
  · intro e hm
    rw [onSubmit_not_built newMessage si sID st p e h1 hs hm]
    rfl
  · exact (onSubmit_accepted recordMessage si sID st p _ h1 hs rfl).2.2.1

/-- Witness of C16 (amended): the payload with player id 7 on the session of player 7. -/
theorem submit_broadcast_witness :
    (onSubmit recordMessage sampleServer "c1" (sampleState 7 100)).websocketHub.Broadcast
      = [{ Room := "7", Func := "submit", Body := sampleState 7 100 }] := by
  have h := (submit_broadcast recordMessage sampleServer "c1" (sampleState 7 100) sampleSession
    (by decide) rfl).2.2
  rw [h]
  decide

/-- **C17.** A submit event with a player id of 0 or less, or for a connection without a
session, leaves the server unchanged: no session is touched and nothing is published.
Otherwise the session takes the time, death type and replay flag of the payload, its
snapshot takes the time of the payload and the status that `getStatus` derives from the
death type and replay flag of the payload alone, the identity and `BestGameTime` of the
session are unchanged, and so are the other sessions. -/
theorem submit_frame (newMessage : String → String → state → Except GoErr Message)
    (si : sio) (sID : String) (st : state) :
    (st.PlayerID ≤ 0 → onSubmit newMessage si sID st = si)
      ∧ (si.livePlayers sID = none → onSubmit newMessage si sID st = si)
      ∧ (∀ p, 1 ≤ st.PlayerID → si.livePlayers sID = some p →
          ∃ p', (onSubmit newMessage si sID st).livePlayers sID = some p'
            ∧ p'.GameTime = st.GameTime ∧ p'.DeathType = st.DeathType
            ∧ p'.IsReplay = st.IsReplay
            ∧ p'.websocketPlayer.GameTime = st.GameTime
            ∧ (∀ q : player, q.DeathType = st.DeathType → q.IsReplay = st.IsReplay →
                p'.websocketPlayer.Status = q.getStatus)
            ∧ p'.PlayerID = p.PlayerID ∧ p'.PlayerName = p.PlayerName
            ∧ p'.BestGameTime = p.BestGameTime
            ∧ p'.websocketPlayer.ID = p.websocketPlayer.ID
            ∧ p'.websocketPlayer.Name = p.websocketPlayer.Name
            ∧ ∀ k, k ≠ sID →
                (onSubmit newMessage si sID st).livePlayers k = si.livePlayers k) := by
  refine ⟨fun h => onSubmit_rejected newMessage si sID st (by omega),
    fun h => onSubmit_no_session newMessage si sID st h, ?_⟩
  intro p h1 hs
  have hstatus : ∀ q : player, q.DeathType = st.DeathType → q.IsReplay = st.IsReplay →
      (p.update st).websocketPlayer.Status = q.getStatus := by
    intro q hd hr
    rw [(update_frame p st).2.2.2.2.1]
    exact getStatus_congr hd.symm hr.symm
  cases hm : newMessage (strconvItoa st.PlayerID) "submit" st with
  | error e =>
    rw [onSubmit_not_built newMessage si sID st p e h1 hs hm]
    exact ⟨_, store_same _ _ _, rfl, rfl, rfl, rfl, hstatus, rfl, rfl, rfl, rfl, rfl,
      fun k hk => store_other _ _ hk⟩
  | ok m =>
    obtain ⟨hlp, hother, -⟩ := onSubmit_accepted newMessage si sID st p m h1 hs hm
    exact ⟨_, hlp, rfl, rfl, rfl, rfl, hstatus, rfl, rfl, rfl, rfl, rfl, hother⟩

/-- Witness of C17 on `sampleServer`: a payload with player id 0 changes nothing; a payload
with player id 7, death type -1 and no replay at time 100 makes the session `Alive`. -/
theorem submit_frame_witness :
    onSubmit recordMessage sampleServer "c1" (sampleState 0 100) = sampleServer
      ∧ ∃ p', (onSubmit recordMessage sampleServer "c1" (sampleState 7 100)).livePlayers "c1"
            = some p'
          ∧ p'.GameTime = .finite 100 ∧ p'.DeathType = -1
          ∧ p'.websocketPlayer.Status = "Alive" ∧ p'.BestGameTime = .finite 500 := by
  have c := submit_frame recordMessage sampleServer "c1"
  refine ⟨(c (sampleState 0 100)).1 (by decide), ?_⟩
  obtain ⟨p', hp, h1, h2, -, -, h5, -, -, h8, -⟩ :=
    (c (sampleState 7 100)).2.2 sampleSession (by decide) rfl
  exact ⟨p', hp, h1, h2, by rw [h5 (sampleSession.update (sampleState 7 100)) rfl rfl]; decide, h8⟩

/-! ## Latches over a sequence of submit events -/

/-- One submit event: what it appends to the milestone channel, and what it leaves of the
budgets of the two latches. -/
theorem onSubmit_budget (newMessage : String → String → state → Except GoErr Message)
    (si : sio) (sID : String) (st : state) :
    ∃ e, (onSubmit newMessage si sID st).websocketHub.DiscordBroadcast
          = si.websocketHub.DiscordBroadcast ++ e
      ∧ e.countP isBestReached + bestBudget (onSubmit newMessage si sID st) sID
          ≤ bestBudget si sID
      ∧ e.countP isAbove1000 + above1000Budget (onSubmit newMessage si sID st) sID
          ≤ above1000Budget si sID
      ∧ ((si.livePlayers sID).isSome → ((onSubmit newMessage si sID st).livePlayers sID).isSome) := by
  by_cases h1 : st.PlayerID < 1
  · rw [onSubmit_rejected newMessage si sID st h1]
    exact ⟨[], by simp, by simp, by simp, id⟩
  · cases hs : si.livePlayers sID with
    | none =>
      rw [onSubmit_no_session newMessage si sID st hs]
      exact ⟨[], by simp, by simp, by simp, fun h => absurd h (by simp)⟩
    | some p =>
      cases hm : newMessage (strconvItoa st.PlayerID) "submit" st with
      | error e =>
        rw [onSubmit_not_built newMessage si sID st p e (by omega) hs hm]
        refine ⟨[], by simp [sio.store], ?_, ?_, fun _ => by rw [store_same]; rfl⟩
        · simp only [List.countP_nil, zero_add, bestBudget, store_same, hs]
          exact le_refl _
        · simp only [List.countP_nil, zero_add, above1000Budget, store_same, hs]
          exact le_refl _
      | ok m =>
        obtain ⟨hlp, -, -, hd, -⟩ :=
          onSubmit_accepted newMessage si sID st p m (by omega) hs hm
        refine ⟨_, by rw [hd, List.append_assoc], ?_, ?_, fun _ => by rw [hlp]; rfl⟩
        · simp only [bestBudget, hlp, hs]
          cases hl : p.bestTimeNotified <;> cases hb : bestDue st p <;>
            simp_all [bestDue, isBestReached, isAbove1000, List.countP_cons, List.countP_nil]
        · simp only [above1000Budget, hlp, hs]
          cases hl : p.above1000Notified <;> cases hb : above1000Due st p <;>
            simp_all [above1000Due, isBestReached, isAbove1000, List.countP_cons, List.countP_nil]

theorem runSubmits_budget (newMessage : String → String → state → Except GoErr Message)
    (sID : String) :
    ∀ (sts : List state) (si : sio),
      ∃ e, (runSubmits newMessage si sID sts).websocketHub.DiscordBroadcast
            = si.websocketHub.DiscordBroadcast ++ e
        ∧ e.countP isBestReached + bestBudget (runSubmits newMessage si sID sts) sID
            ≤ bestBudget si sID
        ∧ e.countP isAbove1000 + above1000Budget (runSubmits newMessage si sID sts) sID
            ≤ above1000Budget si sID
        ∧ ((si.livePlayers sID).isSome →
            ((runSubmits newMessage si sID sts).livePlayers sID).isSome) := by
  intro sts
  induction sts with
  | nil => intro si; exact ⟨[], by simp [runSubmits], by simp [runSubmits],
      by simp [runSubmits], fun h => h⟩
  | cons st sts ih =>
    intro si
    obtain ⟨e1, hd1, hb1, ha1, hs1⟩ := onSubmit_budget newMessage si sID st
    obtain ⟨e2, hd2, hb2, ha2, hs2⟩ := ih (onSubmit newMessage si sID st)
    refine ⟨e1 ++ e2, ?_, ?_, ?_, fun h => hs2 (hs1 h)⟩
    · simp only [runSubmits]
      rw [hd2, hd1, List.append_assoc]
    · simp only [runSubmits, List.countP_append]
      omega
    · simp only [runSubmits, List.countP_append]
      omega

theorem bestBudget_le_one (si : sio) (sID : String) : bestBudget si sID ≤ 1 := by
  unfold bestBudget
  split
  · split <;> omega
  · omega

theorem above1000Budget_le_one (si : sio) (sID : String) : above1000Budget si sID ≤ 1 := by
  unfold above1000Budget
  split
  · split <;> omega
  · omega

theorem latch_of_bestBudget_zero {si : sio} {sID : String}
    (hs : (si.livePlayers sID).isSome) (hb : bestBudget si sID = 0) :
    ∃ p, si.livePlayers sID = some p ∧ p.bestTimeNotified = true := by
  cases h : si.livePlayers sID with
  | none => rw [h] at hs; exact absurd hs (by simp)
  | some p =>
    refine ⟨p, rfl, ?_⟩
    simp only [bestBudget, h] at hb
    cases hl : p.bestTimeNotified
    · rw [hl] at hb; simp at hb
    · rfl

theorem latch_of_above1000Budget_zero {si : sio} {sID : String}
    (hs : (si.livePlayers sID).isSome) (hb : above1000Budget si sID = 0) :
    ∃ p, si.livePlayers sID = some p ∧ p.above1000Notified = true := by
  cases h : si.livePlayers sID with
  | none => rw [h] at hs; exact absurd hs (by simp)
  | some p =>
    refine ⟨p, rfl, ?_⟩
    simp only [above1000Budget, h] at hb
    cases hl : p.above1000Notified
    · rw [hl] at hb; simp at hb
    · rfl

/-- **C13.** Any sequence of submit events on a connection appends to the milestone channel
at most one best-time milestone and at most one long-run milestone. Once
`bestTimeNotified` (resp. `above1000Notified`) is set, the sequence emits no best-time
(resp. long-run) milestone and the latch is still set at the end, whatever the times and
flags of the events. -/
theorem milestones_at_most_once
    (newMessage : String → String → state → Except GoErr Message) (si : sio) (sID : String)
    (sts : List state) :
    ∃ e, (runSubmits newMessage si sID sts).websocketHub.DiscordBroadcast
          = si.websocketHub.DiscordBroadcast ++ e
      ∧ e.countP isBestReached ≤ 1 ∧ e.countP isAbove1000 ≤ 1
      ∧ (∀ p, si.livePlayers sID = some p → p.bestTimeNotified = true →
          e.countP isBestReached = 0
            ∧ ∃ p', (runSubmits newMessage si sID sts).livePlayers sID = some p'
                ∧ p'.bestTimeNotified = true)
      ∧ (∀ p, si.livePlayers sID = some p → p.above1000Notified = true →
          e.countP isAbove1000 = 0
            ∧ ∃ p', (runSubmits newMessage si sID sts).livePlayers sID = some p'
                ∧ p'.above1000Notified = true) := by
  obtain ⟨e, hd, hb, ha, hs⟩ := runSubmits_budget newMessage sID sts si
  have hb1 := bestBudget_le_one si sID
  have ha1 := above1000Budget_le_one si sID
  refine ⟨e, hd, by omega, by omega, ?_, ?_⟩
  · intro p hp hl
    have h0 : bestBudget si sID = 0 := by simp only [bestBudget, hp, hl, if_true]
    have hsome := hs (by rw [hp]; rfl)
    exact ⟨by omega, latch_of_bestBudget_zero hsome (by omega)⟩
  · intro p hp hl
    have h0 : above1000Budget si sID = 0 := by simp only [above1000Budget, hp, hl, if_true]
    have hsome := hs (by rw [hp]; rfl)
    exact ⟨by omega, latch_of_above1000Budget_zero hsome (by omega)⟩

/-- Witness of C13: on `sampleSession`, with the long-run notification requested, a submit
at time 1050 followed by one at time 1100 emits exactly one long-run milestone. -/
theorem milestones_at_most_once_witness :
    ∃ e, (runSubmits recordMessage sampleServer "c1"
          [sampleState 7 1050, sampleState 7 1100]).websocketHub.DiscordBroadcast
        = sampleServer.websocketHub.DiscordBroadcast ++ e
      ∧ e.countP isAbove1000 ≤ 1
      ∧ (runSubmits recordMessage sampleServer "c1"
          [sampleState 7 1050, sampleState 7 1100]).websocketHub.DiscordBroadcast
        = [.PlayerAbove1000 7 "ab"] := by
  obtain ⟨e, hd, -, ha, -⟩ := milestones_at_most_once recordMessage sampleServer "c1"
    [sampleState 7 1050, sampleState 7 1100]
  exact ⟨e, hd, ha, by decide⟩

/-! ## Game-submitted and login events -/

theorem onGameSubmitted_fetched (gamesGet : Int → Option Game × Option GoErr) (si : sio)
    (sID : String) (gameID : Int) (notifyPlayerBest notifyAbove1000 : Bool) (p : player)
    (g : Game) (hs : si.livePlayers sID = some p) (hg : (gamesGet gameID).1 = some g) :
    onGameSubmitted gamesGet si sID gameID notifyPlayerBest notifyAbove1000 =
      .ok ({ si with websocketHub :=
          { si.websocketHub with DiscordBroadcast := si.websocketHub.DiscordBroadcast
              ++ (if notifyPlayerBest = true ∧ F64.gt g.GameTime p.BestGameTime = true then
                  [Notification.PlayerBestSubmitted p.PlayerName gameID g.GameTime p.BestGameTime]
                else [])
              ++ (if notifyAbove1000 = true ∧ F64.gt g.GameTime (.finite 1000) = true then
                  [Notification.PlayerDied p.PlayerName gameID g.GameTime g.DeathType]
                else []) } }.store sID
        { p with bestTimeNotified := false, above1000Notified := false }) := by
  unfold onGameSubmitted
  rw [hs]
  simp only [hg, derefGame, bind, Except.bind, pure, Except.pure]
  cases notifyPlayerBest <;> cases notifyAbove1000 <;>
    cases F64.gt g.GameTime p.BestGameTime <;> cases F64.gt g.GameTime (.finite 1000) <;>
    simp [Hub.discord]

/-- **C15.** On a game-submitted event for a connection that has a session and whose
finished game was fetched, the best-submitted milestone is emitted if and only if
`notifyPlayerBest` is set and the time of the game exceeds `BestGameTime`, the death
milestone, carrying the death type of the game, if and only if `notifyAbove1000` is set and
the time of the game exceeds 1000; nothing else is sent, and afterwards both latches are
unset, whatever the flags and whether or not anything was emitted. -/
theorem game_submitted_milestones (gamesGet : Int → Option Game × Option GoErr) (si : sio)
    (sID : String) (gameID : Int) (notifyPlayerBest notifyAbove1000 : Bool) (p : player)
    (g : Game) (hs : si.livePlayers sID = some p) (hg : (gamesGet gameID).1 = some g) :
    ∃ si', onGameSubmitted gamesGet si sID gameID notifyPlayerBest notifyAbove1000 = .ok si'
      ∧ si'.websocketHub.DiscordBroadcast = si.websocketHub.DiscordBroadcast
          ++ (if notifyPlayerBest = true ∧ F64.gt g.GameTime p.BestGameTime = true then
              [Notification.PlayerBestSubmitted p.PlayerName gameID g.GameTime p.BestGameTime]
            else [])
          ++ (if notifyAbove1000 = true ∧ F64.gt g.GameTime (.finite 1000) = true then
              [Notification.PlayerDied p.PlayerName gameID g.GameTime g.DeathType]
            else [])
      ∧ si'.websocketHub.Broadcast = si.websocketHub.Broadcast
      ∧ si'.websocketHub.RegisterPlayer = si.websocketHub.RegisterPlayer
      ∧ si'.websocketHub.UnregisterPlayer = si.websocketHub.UnregisterPlayer
      ∧ si'.livePlayers sID
          = some { p with bestTimeNotified := false, above1000Notified := false }
      ∧ (∀ k, k ≠ sID → si'.livePlayers k = si.livePlayers k)
      ∧ ∀ x y : ℚ, F64.gt (.finite x) (.finite y) = true ↔ y < x := by
  refine ⟨_, onGameSubmitted_fetched gamesGet si sID gameID notifyPlayerBest notifyAbove1000
    p g hs hg, rfl, rfl, rfl, rfl, store_same _ _ _, fun k hk => store_other _ _ hk,
    F64.gt_finite⟩

/-- Witness of C15: the game 42 (1200 seconds, death type 3) on `sampleSession` (best time
500) with both flags set emits the best-submitted and the death milestone. -/
theorem game_submitted_milestones_witness :
    ∃ si', onGameSubmitted sampleGamesGet sampleServer "c1" 42 true true = .ok si'
      ∧ si'.websocketHub.DiscordBroadcast
          = [.PlayerBestSubmitted "ab" 42 (.finite 1200) (.finite 500),
              .PlayerDied "ab" 42 (.finite 1200) 3]
      ∧ si'.livePlayers "c1"
          = some { sampleSession with bestTimeNotified := false, above1000Notified := false } := by
  obtain ⟨si', h, hd, -, -, -, hl, -⟩ := game_submitted_milestones sampleGamesGet sampleServer
    "c1" 42 true true sampleSession _ rfl rfl
  exact ⟨si', h, by rw [hd]; decide, hl⟩

/-- **C18 (as stated), refuted.** A login whose player is resolved and whose upsert fails
closes the connection and registers nothing, but the registry holds the session that was
stored before the upsert. -/
theorem login_upsert_failure_keeps_session :
    (onLogin sampleUserByID upsertFails emptyServer "c1" 7).closed = ["c1"]
      ∧ (onLogin sampleUserByID upsertFails emptyServer "c1" 7).websocketHub.RegisterPlayer = []
      ∧ emptyServer.livePlayers "c1" = none
      ∧ (onLogin sampleUserByID upsertFails emptyServer "c1" 7).livePlayers "c1"
          = some sampleSession := by
  decide

/-- **C18 (amended).** A login that fails closes the connection and emits no registration
event. When the player id is the sentinel -1 or the player cannot be resolved, the
registry is unchanged, so that no session is created. When the upsert fails, the session
was stored before the upsert and the handler does not remove it. -/
theorem login_failure (userByID : Int → Except GoErr DDPlayer)
    (upsertDDPlayer : DDPlayer → Option GoErr) (si : sio) (sID : String) (id : Int) :
    (id = -1 ∨ (∃ e, userByID id = .error e) →
        (onLogin userByID upsertDDPlayer si sID id).closed = si.closed ++ [sID]
          ∧ (onLogin userByID upsertDDPlayer si sID id).websocketHub = si.websocketHub
          ∧ (onLogin userByID upsertDDPlayer si sID id).livePlayers = si.livePlayers)
      ∧ (∀ p e, id ≠ -1 → userByID id = .ok p → upsertDDPlayer p = some e →
          (onLogin userByID upsertDDPlayer si sID id).closed = si.closed ++ [sID]
            ∧ (onLogin userByID upsertDDPlayer si sID id).websocketHub = si.websocketHub
            ∧ ((onLogin userByID upsertDDPlayer si sID id).livePlayers sID).isSome = true
            ∧ ∀ k, k ≠ sID →
                (onLogin userByID upsertDDPlayer si sID id).livePlayers k = si.livePlayers k) := by
  constructor
  · intro h
    by_cases hid : id = -1
    · simp only [onLogin, hid, if_true, sio.close, and_self]
    · rcases h with h | ⟨e, he⟩
      · exact absurd h hid
      · simp only [onLogin, hid, if_false, he, sio.close, and_self]
  · intro p e hid hp hu
    simp only [onLogin, hid, if_false, hp, hu, sio.close, sio.store, if_true, Option.isSome_some,
      true_and]
    intro k hk
    simp only [hk, if_false]

/-- Witness of C18 (amended): the sentinel id, and an upsert that fails. -/
theorem login_failure_witness :
    (onLogin sampleUserByID upsertOk emptyServer "c1" (-1)).closed = ["c1"]
      ∧ (onLogin sampleUserByID upsertOk emptyServer "c1" (-1)).livePlayers
          = emptyServer.livePlayers
      ∧ (onLogin sampleUserByID upsertFails emptyServer "c1" 7).websocketHub
          = emptyServer.websocketHub := by
  have c1 := (login_failure sampleUserByID upsertOk emptyServer "c1" (-1)).1 (Or.inl rfl)
  have c2 := (login_failure sampleUserByID upsertFails emptyServer "c1" 7).2 _ _ (by decide)
    rfl rfl
  exact ⟨c1.1, c1.2.2, c2.2.1⟩

/-- **C19 (as stated), refuted.** After a successful login the session has the status
`In Menu` as `getStatus` derives it, but the snapshot registered with the viewer publisher
carries the status `Logged In`. -/
theorem login_snapshot_logged_in :
    (onLogin sampleUserByID upsertOk emptyServer "c1" 7).livePlayers "c1" = some sampleSession
      ∧ sampleSession.getStatus = "In Menu"
      ∧ (onLogin sampleUserByID upsertOk emptyServer "c1" 7).websocketHub.RegisterPlayer
          = [{ ID := 7, Name := "ab", Status := "Logged In", GameTime := F64.zero }]
      ∧ sampleSession.websocketPlayer.Status = "Logged In" := by
  decide

/-- **C19 (amended).** After a successful login the session of the connection has the id
and name of the resolved player, `BestGameTime` equal to the best time of that player,
`GameTime` 0, `IsReplay` false, both latches unset and death type -2, from which
`getStatus` derives `In Menu`; one snapshot is registered with the viewer publisher, that
of the session, with the id and name of the player and the status `Logged In`; the
connection is not closed. -/
theorem login_success (userByID : Int → Except GoErr DDPlayer)
    (upsertDDPlayer : DDPlayer → Option GoErr) (si : sio) (sID : String) (id : Int)
    (p : DDPlayer) (hid : id ≠ -1) (hp : userByID id = .ok p) (hu : upsertDDPlayer p = none) :
    ∃ s, (onLogin userByID upsertDDPlayer si sID id).livePlayers sID = some s
      ∧ s.PlayerID = intOfUint64 p.PlayerID ∧ s.PlayerName = p.PlayerName
      ∧ s.BestGameTime = p.GameTime ∧ s.GameTime = .finite 0 ∧ s.IsReplay = false
      ∧ s.bestTimeNotified = false ∧ s.above1000Notified = false ∧ s.DeathType = -2
      ∧ s.getStatus = "In Menu"
      ∧ s.websocketPlayer
          = { ID := intOfUint64 p.PlayerID, Name := p.PlayerName, Status := "Logged In",
              GameTime := .finite 0 }
      ∧ (onLogin userByID upsertDDPlayer si sID id).websocketHub.RegisterPlayer
          = si.websocketHub.RegisterPlayer ++ [s.websocketPlayer]
      ∧ (onLogin userByID upsertDDPlayer si sID id).websocketHub.Broadcast
          = si.websocketHub.Broadcast
      ∧ (onLogin userByID upsertDDPlayer si sID id).websocketHub.DiscordBroadcast
          = si.websocketHub.DiscordBroadcast
      ∧ (onLogin userByID upsertDDPlayer si sID id).closed = si.closed
      ∧ (∀ k, k ≠ sID →
          (onLogin userByID upsertDDPlayer si sID id).livePlayers k = si.livePlayers k)
      ∧ (p.PlayerID < 2 ^ 63 → intOfUint64 p.PlayerID = p.PlayerID) := by
  have hR : onLogin userByID upsertDDPlayer si sID id =
      { si.store sID
          { websocketPlayer :=
              { ID := intOfUint64 p.PlayerID, Name := p.PlayerName, Status := "Logged In",
                GameTime := F64.zero }
            PlayerID := intOfUint64 p.PlayerID
            PlayerName := p.PlayerName
            BestGameTime := p.GameTime
            GameTime := F64.zero
            DeathType := -2
            IsReplay := false
            bestTimeNotified := false
            above1000Notified := false } with
        websocketHub :=
          { si.websocketHub with
            RegisterPlayer := si.websocketHub.RegisterPlayer
              ++ [{ ID := intOfUint64 p.PlayerID, Name := p.PlayerName, Status := "Logged In",
                    GameTime := F64.zero }] } } := by
    simp only [onLogin, hid, if_false, hp, hu]
    rfl
  rw [hR]
  refine ⟨_, store_same _ _ _, rfl, rfl, rfl, rfl, rfl, rfl, rfl, rfl, getStatus_menu rfl, rfl,
    rfl, rfl, rfl, rfl, fun k hk => store_other _ _ hk, ?_⟩
  intro hlt
  unfold intOfUint64 toSigned
  have h64 : p.PlayerID % 2 ^ 64 = p.PlayerID := Nat.mod_eq_of_lt (by omega)
  rw [h64]
  norm_num at hlt ⊢
  omega

/-- Witness of C19 (amended): the login of player 7 on an empty server. -/
theorem login_success_witness :
    ∃ s, (onLogin sampleUserByID upsertOk emptyServer "c1" 7).livePlayers "c1" = some s
      ∧ s.PlayerID = 7 ∧ s.BestGameTime = .finite 500 ∧ s.getStatus = "In Menu"
      ∧ (onLogin sampleUserByID upsertOk emptyServer "c1" 7).websocketHub.RegisterPlayer
          = [{ ID := 7, Name := "ab", Status := "Logged In", GameTime := .finite 0 }] := by
  obtain ⟨s, hs, h1, -, h3, -, -, -, -, -, h9, h10, h11, -⟩ :=
    login_success sampleUserByID upsertOk emptyServer "c1" 7 _ (by decide) rfl rfl
  refine ⟨s, hs, by rw [h1]; decide, h3, h9, ?_⟩
  rw [h11, h10]
  decide

/-! ## Lock discipline -/

theorem accessesLocked_append (ops ops' : List Op) :
    ∀ held, accessesLocked held (ops ++ ops')
      = (accessesLocked held ops && accessesLocked (lockAfter held ops) ops') := by
  induction ops with
  | nil => intro held; simp [accessesLocked, lockAfter]
  | cons op ops ih =>
    intro held
    cases op <;> simp [accessesLocked, lockAfter, ih, Bool.and_assoc]

theorem snapshotLockNested_append (ops ops' : List Op) :
    ∀ held, snapshotLockNested held (ops ++ ops')
      = (snapshotLockNested held ops && snapshotLockNested (lockAfter held ops) ops') := by
  induction ops with
  | nil => intro held; simp [snapshotLockNested, lockAfter]
  | cons op ops ih =>
    intro held
    cases op <;> simp [snapshotLockNested, lockAfter, ih, Bool.and_assoc]

theorem getStatusOps_reads (p : player) :
    accessesLocked true (getStatusOps p) = true ∧ lockAfter true (getStatusOps p) = true
      ∧ snapshotLockNested true (getStatusOps p) = true := by
  unfold getStatusOps
  split
  · decide
  · split
    · decide
    · split <;> decide

theorem lockAfter_append (ops ops' : List Op) :
    ∀ held, lockAfter held (ops ++ ops') = lockAfter (lockAfter held ops) ops' := by
  induction ops with
  | nil => intro held; rfl
  | cons op ops ih =>
    intro held
    cases op <;> simp [lockAfter, ih]

/-- The two properties of `onSubmitOps`, reduced to those of its notification part, which
starts with the lock released. -/
theorem onSubmitOps_split (built : Bool) (st : state) (p : player) :
    accessesLocked false (onSubmitOps built st p)
        = accessesLocked false (if built then notificationOps st p else [])
      ∧ snapshotLockNested false (onSubmitOps built st p)
        = snapshotLockNested false (if built then notificationOps st p else []) := by
  obtain ⟨g1, g2, g3⟩ := getStatusOps_reads (p.update st)
  unfold onSubmitOps
  constructor
  · rw [accessesLocked_append, accessesLocked_append, accessesLocked_append, lockAfter_append,
      lockAfter_append]
    simp [accessesLocked, lockAfter, Field.mutable, g1, g2]
  · rw [snapshotLockNested_append, snapshotLockNested_append, snapshotLockNested_append,
      lockAfter_append, lockAfter_append]
    simp [snapshotLockNested, lockAfter, g2, g3]

theorem notificationOps_nested (st : state) (p : player) :
    snapshotLockNested false (notificationOps st p) = true := by
  unfold notificationOps
  cases st.NotifyPlayerBest <;> cases st.NotifyAbove1000 <;> cases p.bestTimeNotified <;>
    cases p.above1000Notified <;> cases F64.lt st.GameTime p.BestGameTime <;>
    cases F64.ge st.GameTime (.finite 1000) <;> rfl

theorem notificationOps_unlocked (st : state) (p : player)
    (h : st.NotifyPlayerBest = true ∨ st.NotifyAbove1000 = true) :
    accessesLocked false (notificationOps st p) = false := by
  unfold notificationOps
  rcases h with h | h
  · rw [h]
    cases st.NotifyAbove1000 <;> cases p.bestTimeNotified <;>
      cases p.above1000Notified <;> cases F64.lt st.GameTime p.BestGameTime <;>
      cases F64.ge st.GameTime (.finite 1000) <;> rfl
  · rw [h]
    cases st.NotifyPlayerBest <;> cases p.bestTimeNotified <;>
      cases p.above1000Notified <;> cases F64.lt st.GameTime p.BestGameTime <;>
      cases F64.ge st.GameTime (.finite 1000) <;> rfl

theorem notificationOps_silent (st : state) (p : player) (h1 : st.NotifyPlayerBest = false)
    (h2 : st.NotifyAbove1000 = false) : notificationOps st p = [] := by
  unfold notificationOps
  rw [h1, h2]
  rfl

theorem onGameSubmittedOps_unlocked (notifyPlayerBest notifyAbove1000 : Bool) (p : player)
    (g : Game) :
    accessesLocked false (onGameSubmittedOps notifyPlayerBest notifyAbove1000 p g) = false
      ∧ snapshotLockNested false (onGameSubmittedOps notifyPlayerBest notifyAbove1000 p g)
          = true := by
  unfold onGameSubmittedOps
  cases notifyPlayerBest <;> cases notifyAbove1000 <;>
    cases F64.gt g.GameTime p.BestGameTime <;> cases F64.gt g.GameTime (.finite 1000) <;>
    exact ⟨rfl, rfl⟩

/-- **C20, evaluated on the code.** `onStatusUpdate` accesses the session under its lock,
and so does `onSubmit` up to its `player.Unlock()`; the lock of the snapshot is only ever
acquired while the lock of the session is held. But `onSubmit` reads and writes the two
latches after it has released the lock, as soon as a notification is requested, and
`onGameSubmitted` writes both latches without ever taking the lock. -/
theorem latches_accessed_without_lock :
    accessesLocked false onStatusUpdateOps = true
      ∧ snapshotLockNested false onStatusUpdateOps = true
      ∧ (∀ built st p, snapshotLockNested false (onSubmitOps built st p) = true)
      ∧ (∀ st p, accessesLocked false (onSubmitOps false st p) = true)
      ∧ (∀ st p, st.NotifyPlayerBest = false → st.NotifyAbove1000 = false →
          accessesLocked false (onSubmitOps true st p) = true)
      ∧ (∀ st p, st.NotifyPlayerBest = true ∨ st.NotifyAbove1000 = true →
          accessesLocked false (onSubmitOps true st p) = false)
      ∧ (∀ notifyPlayerBest notifyAbove1000 p g,
          accessesLocked false (onGameSubmittedOps notifyPlayerBest notifyAbove1000 p g) = false
            ∧ snapshotLockNested false
                (onGameSubmittedOps notifyPlayerBest notifyAbove1000 p g) = true)
      ∧ accessesLocked false (onSubmitOps true (sampleState 7 1050) sampleSession) = false
      ∧ accessesLocked false (onGameSubmittedOps true true sampleSession sampleGame) = false := by
  refine ⟨by decide, by decide, ?_, ?_, ?_, ?_, onGameSubmittedOps_unlocked, by decide,
    by decide⟩
  · intro built st p
    rw [(onSubmitOps_split built st p).2]
    cases built
    · rfl
    · exact notificationOps_nested st p
  · intro st p
    rw [(onSubmitOps_split false st p).1]
    rfl
  · intro st p h1 h2
    rw [(onSubmitOps_split true st p).1]
    simp only [if_true, notificationOps_silent st p h1 h2]
    rfl
  · intro st p h
    rw [(onSubmitOps_split true st p).1]
    exact notificationOps_unlocked st p h

/-! ## Sequences of events, game-submitted events without a game -/

theorem onSubmit_best (newMessage : String → String → state → Except GoErr Message)
    (si : sio) (sID : String) (st : state) (k : String) (p : player)
    (hp : si.livePlayers k = some p) :
    ∃ p', (onSubmit newMessage si sID st).livePlayers k = some p'
      ∧ p'.BestGameTime = p.BestGameTime := by
  by_cases h1 : st.PlayerID < 1
  · rw [onSubmit_rejected newMessage si sID st h1]
    exact ⟨p, hp, rfl⟩
  · cases hs : si.livePlayers sID with
    | none =>
      rw [onSubmit_no_session newMessage si sID st hs]
      exact ⟨p, hp, rfl⟩
    | some q =>
      by_cases hk : k = sID
      · subst hk
        rw [hp] at hs
        cases hs
        cases hm : newMessage (strconvItoa st.PlayerID) "submit" st with
        | error e =>
          rw [onSubmit_not_built newMessage si k st p e (by omega) hp hm]
          exact ⟨_, store_same _ _ _, rfl⟩
        | ok m =>
          exact ⟨_, (onSubmit_accepted newMessage si k st p m (by omega) hp hm).1, rfl⟩
      · cases hm : newMessage (strconvItoa st.PlayerID) "submit" st with
        | error e =>
          rw [onSubmit_not_built newMessage si sID st q e (by omega) hs hm,
            store_other _ _ hk]
          exact ⟨p, hp, rfl⟩
        | ok m =>
          rw [(onSubmit_accepted newMessage si sID st q m (by omega) hs hm).2.1 k hk]
          exact ⟨p, hp, rfl⟩

theorem onStatusUpdate_best (si : sio) (sID : String) (playerID statusID : Int) (k : String)
    (p : player) (hp : si.livePlayers k = some p) :
    ∃ p', (onStatusUpdate si sID playerID statusID).livePlayers k = some p'
      ∧ p'.BestGameTime = p.BestGameTime := by
  unfold onStatusUpdate
  cases hs : si.livePlayers sID with
  | none => exact ⟨p, hp, rfl⟩
  | some q =>
    by_cases hk : k = sID
    · subst hk
      rw [hp] at hs
      cases hs
      exact ⟨_, store_same _ _ _, rfl⟩
    · simp only []
      rw [store_other _ _ hk]
      exact ⟨p, hp, rfl⟩

theorem onGameSubmitted_no_session (gamesGet : Int → Option Game × Option GoErr) (si : sio)
    (sID : String) (gameID : Int) (notifyPlayerBest notifyAbove1000 : Bool)
    (hs : si.livePlayers sID = none) :
    onGameSubmitted gamesGet si sID gameID notifyPlayerBest notifyAbove1000 = .ok si := by
  unfold onGameSubmitted
  rw [hs]
  rfl

theorem onGameSubmitted_missing (gamesGet : Int → Option Game × Option GoErr) (si : sio)
    (sID : String) (gameID : Int) (notifyPlayerBest notifyAbove1000 : Bool) (p : player)
    (hs : si.livePlayers sID = some p) (hg : (gamesGet gameID).1 = none) :
    onGameSubmitted gamesGet si sID gameID notifyPlayerBest notifyAbove1000 =
      if notifyPlayerBest = true ∨ notifyAbove1000 = true then .error .nilDereference
      else .ok (si.store sID { p with bestTimeNotified := false, above1000Notified := false }) := by
  unfold onGameSubmitted
  rw [hs]
  simp only [hg, derefGame]
  cases notifyPlayerBest <;> cases notifyAbove1000 <;> rfl

theorem onGameSubmitted_best (gamesGet : Int → Option Game × Option GoErr) (si si' : sio)
    (sID : String) (gameID : Int) (notifyPlayerBest notifyAbove1000 : Bool)
    (h : onGameSubmitted gamesGet si sID gameID notifyPlayerBest notifyAbove1000 = .ok si')
    (k : String) (p : player) (hp : si.livePlayers k = some p) :
    ∃ p', si'.livePlayers k = some p' ∧ p'.BestGameTime = p.BestGameTime := by
  cases hs : si.livePlayers sID with
  | none =>
    rw [onGameSubmitted_no_session gamesGet si sID gameID _ _ hs] at h
    cases h
    exact ⟨p, hp, rfl⟩
  | some q =>
    cases hg : (gamesGet gameID).1 with
    | none =>
      rw [onGameSubmitted_missing gamesGet si sID gameID _ _ q hs hg] at h
      split at h
      · cases h
      · cases h
        by_cases hk : k = sID
        · subst hk
          rw [hp] at hs
          cases hs
          exact ⟨_, store_same _ _ _, rfl⟩
        · rw [store_other _ _ hk]
          exact ⟨p, hp, rfl⟩
    | some g =>
      rw [onGameSubmitted_fetched gamesGet si sID gameID _ _ q g hs hg] at h
      cases h
      by_cases hk : k = sID
      · subst hk
        rw [hp] at hs
        cases hs
        exact ⟨_, store_same _ _ _, rfl⟩
      · rw [store_other _ _ hk]
        exact ⟨p, hp, rfl⟩

theorem onGameSubmitted_returns (gamesGet : Int → Option Game × Option GoErr) (si : sio)
    (sID : String) (gameID : Int) (notifyPlayerBest notifyAbove1000 : Bool)
    (hg : (gamesGet gameID).1 ≠ none) :
    ∃ si', onGameSubmitted gamesGet si sID gameID notifyPlayerBest notifyAbove1000 = .ok si' := by
  cases hs : si.livePlayers sID with
  | none => exact ⟨si, onGameSubmitted_no_session gamesGet si sID gameID _ _ hs⟩
  | some q =>
    cases hgg : (gamesGet gameID).1 with
    | none => exact absurd hgg hg
    | some g => exact ⟨_, onGameSubmitted_fetched gamesGet si sID gameID _ _ q g hs hgg⟩

theorem dispatch_best (newMessage : String → String → state → Except GoErr Message)
    (gamesGet : Int → Option Game × Option GoErr) (si si' : sio) (e : Event)
    (h : dispatch newMessage gamesGet si e = .ok si')
    (k : String) (p : player) (hp : si.livePlayers k = some p) :
    ∃ p', si'.livePlayers k = some p' ∧ p'.BestGameTime = p.BestGameTime := by
  cases e with
  | submit sID st =>
    simp only [dispatch, Except.ok.injEq] at h
    subst h
    exact onSubmit_best newMessage si sID st k p hp
  | statusUpdate sID playerID statusID =>
    simp only [dispatch, Except.ok.injEq] at h
    subst h
    exact onStatusUpdate_best si sID playerID statusID k p hp
  | gameSubmitted sID gameID b1 b2 =>
    exact onGameSubmitted_best gamesGet si si' sID gameID b1 b2 h k p hp

theorem runEvents_best (newMessage : String → String → state → Except GoErr Message)
    (gamesGet : Int → Option Game × Option GoErr) (es : List Event) :
    ∀ (si : sio) (k : String) (p : player), si.livePlayers k = some p →
      ∃ p', (runEvents newMessage gamesGet si es).1.livePlayers k = some p'
        ∧ p'.BestGameTime = p.BestGameTime := by
  induction es with
  | nil => intro si k p hp; exact ⟨p, hp, rfl⟩
  | cons e es ih =>
    intro si k p hp
    unfold runEvents
    cases hd : dispatch newMessage gamesGet si e with
    | error f => exact ⟨p, hp, rfl⟩
    | ok si' =>
      obtain ⟨q, hq, hb⟩ := dispatch_best newMessage gamesGet si si' e hd k p hp
      obtain ⟨p', hp', hb'⟩ := ih si' k q hq
      exact ⟨p', hp', hb'.trans hb⟩

theorem runEvents_returns (newMessage : String → String → state → Except GoErr Message)
    (gamesGet : Int → Option Game × Option GoErr) (hg : ∀ id, (gamesGet id).1 ≠ none)
    (es : List Event) :
    ∀ si : sio, (runEvents newMessage gamesGet si es).2 = none := by
  induction es with
  | nil => intro si; rfl
  | cons e es ih =>
    intro si
    unfold runEvents
    cases e with
    | submit sID st => exact ih _
    | statusUpdate sID playerID statusID => exact ih _
    | gameSubmitted sID gameID b1 b2 =>
      obtain ⟨si', h⟩ := onGameSubmitted_returns gamesGet si sID gameID b1 b2 (hg gameID)
      simp only [dispatch, h]
      exact ih _

/-- **C21.** After any sequence of submit, status-update and game-submitted events, on any
connections, a session that was live before the sequence is still live and its
`BestGameTime` is the one it had before. The next game-submitted event compares the time of
its game with that value, and the next submit event its elapsed time, and both report it as
the previous best. When `db.Games.Get` finds every game, every event of the sequence is
handled; otherwise the run stops at the first handler that faults, with the same
`BestGameTime`. -/
theorem best_game_time_fixed (newMessage : String → String → state → Except GoErr Message)
    (gamesGet : Int → Option Game × Option GoErr) (si : sio) (es : List Event) (sID : String)
    (p : player) (hp : si.livePlayers sID = some p) :
    (∃ p', (runEvents newMessage gamesGet si es).1.livePlayers sID = some p'
      ∧ p'.BestGameTime = p.BestGameTime
      ∧ (∀ gameID g notifyPlayerBest notifyAbove1000, (gamesGet gameID).1 = some g →
          ∃ si', onGameSubmitted gamesGet (runEvents newMessage gamesGet si es).1 sID gameID
              notifyPlayerBest notifyAbove1000 = .ok si'
            ∧ si'.websocketHub.DiscordBroadcast
                = (runEvents newMessage gamesGet si es).1.websocketHub.DiscordBroadcast
                  ++ (if notifyPlayerBest = true ∧ F64.gt g.GameTime p.BestGameTime = true then
                      [Notification.PlayerBestSubmitted p'.PlayerName gameID g.GameTime
                        p.BestGameTime]
                    else [])
                  ++ (if notifyAbove1000 = true ∧ F64.gt g.GameTime (.finite 1000) = true then
                      [Notification.PlayerDied p'.PlayerName gameID g.GameTime g.DeathType]
                    else [])
            ∧ ∃ q, si'.livePlayers sID = some q ∧ q.BestGameTime = p.BestGameTime)
      ∧ (∀ st m, 1 ≤ st.PlayerID →
          newMessage (strconvItoa st.PlayerID) "submit" st = .ok m →
          (onSubmit newMessage (runEvents newMessage gamesGet si es).1 sID
              st).websocketHub.DiscordBroadcast
            = (runEvents newMessage gamesGet si es).1.websocketHub.DiscordBroadcast
              ++ (if (st.NotifyPlayerBest && !p'.bestTimeNotified
                    && F64.lt st.GameTime p.BestGameTime) = true then
                  [Notification.PlayerBestReached p'.PlayerID p'.PlayerName p.BestGameTime]
                else [])
              ++ (if above1000Due st p' = true then
                  [Notification.PlayerAbove1000 p'.PlayerID p'.PlayerName]
                else [])))
    ∧ ((∀ id, (gamesGet id).1 ≠ none) → (runEvents newMessage gamesGet si es).2 = none) := by
  obtain ⟨p', hp', hb⟩ := runEvents_best newMessage gamesGet es si sID p hp
  refine ⟨⟨p', hp', hb, ?_, ?_⟩, fun hg => runEvents_returns newMessage gamesGet hg es si⟩
  · intro gameID g b1 b2 hg
    refine ⟨_, onGameSubmitted_fetched gamesGet _ sID gameID b1 b2 p' g hp' hg, ?_,
      _, store_same _ _ _, hb⟩
    rw [← hb]
    rfl
  · intro st m h1 hm
    rw [(onSubmit_accepted newMessage _ sID st p' m h1 hp' hm).2.2.2.1, ← hb]
    rfl

/-- Witness of C21: on `sampleSession` (best time 500) the events `sampleEvents` are all
handled; the game of 1200 seconds is reported twice against the previous best 500, the
run at 400 seconds as well, and the best time of the session is still 500. -/
theorem best_game_time_fixed_witness :
    ∃ p', (runEvents recordMessage sampleGamesGet sampleServer sampleEvents).1.livePlayers "c1"
        = some p'
      ∧ p'.BestGameTime = .finite 500
      ∧ (runEvents recordMessage sampleGamesGet sampleServer sampleEvents).2 = none
      ∧ (runEvents recordMessage sampleGamesGet sampleServer
            sampleEvents).1.websocketHub.DiscordBroadcast
          = [.PlayerBestSubmitted "ab" 42 (.finite 1200) (.finite 500),
              .PlayerDied "ab" 42 (.finite 1200) 3,
              .PlayerBestReached 7 "ab" (.finite 500),
              .PlayerBestSubmitted "ab" 42 (.finite 1200) (.finite 500)] := by
  obtain ⟨⟨p', h1, h2, -, -⟩, h3⟩ := best_game_time_fixed recordMessage sampleGamesGet
    sampleServer sampleEvents "c1" sampleSession rfl
  exact ⟨p', h1, h2, h3 (fun _ => by simp [sampleGamesGet]), by decide⟩

/-- **C22, evaluated on the code.** When `db.Games.Get` returns no game (a nil pointer, its
error being only logged), `onGameSubmitted` on a connection that has a session faults on
the nil pointer as soon as `notifyPlayerBest` or `notifyAbove1000` is set: the first
condition that is evaluated past its flag reads `game.GameTime`. With both flags unset it
reads no field of the game, emits nothing, and unsets both latches. -/
theorem game_submitted_missing_game (gamesGet : Int → Option Game × Option GoErr) (si : sio)
    (sID : String) (gameID : Int) (notifyPlayerBest notifyAbove1000 : Bool) (p : player)
    (hs : si.livePlayers sID = some p) (hg : (gamesGet gameID).1 = none) :
    (notifyPlayerBest = true ∨ notifyAbove1000 = true →
        onGameSubmitted gamesGet si sID gameID notifyPlayerBest notifyAbove1000
          = .error .nilDereference)
      ∧ (notifyPlayerBest = false → notifyAbove1000 = false →
        ∃ si', onGameSubmitted gamesGet si sID gameID notifyPlayerBest notifyAbove1000 = .ok si'
          ∧ si'.websocketHub = si.websocketHub
          ∧ si'.livePlayers sID
              = some { p with bestTimeNotified := false, above1000Notified := false }) := by
  rw [onGameSubmitted_missing gamesGet si sID gameID notifyPlayerBest notifyAbove1000 p hs hg]
  constructor
  · intro h
    rw [if_pos h]
  · intro h1 h2
    rw [if_neg (by simp [h1, h2])]
    exact ⟨_, rfl, rfl, store_same _ _ _⟩

/-- Witness of C22: on `sampleSession`, with a `db.Games.Get` that finds no game, the
handler faults when only `notifyPlayerBest` is set, when only `notifyAbove1000` is set,
and when both are. -/
theorem game_submitted_missing_game_witness :
    onGameSubmitted gamesGetFails sampleServer "c1" 99 true false = .error .nilDereference
      ∧ onGameSubmitted gamesGetFails sampleServer "c1" 99 false true = .error .nilDereference
      ∧ onGameSubmitted gamesGetFails sampleServer "c1" 99 true true = .error .nilDereference :=
  ⟨(game_submitted_missing_game gamesGetFails sampleServer "c1" 99 true false sampleSession
      rfl rfl).1 (Or.inl rfl),
    (game_submitted_missing_game gamesGetFails sampleServer "c1" 99 false true sampleSession
      rfl rfl).1 (Or.inr rfl),
    (game_submitted_missing_game gamesGetFails sampleServer "c1" 99 true true sampleSession
      rfl rfl).1 (Or.inl rfl)⟩

end DDStats
